import Mathlib

/-!
# Kontrol parameters (`mec-kontrol/api/Parameter.cpp`)

A shallow embedding of the parameter classes of `Parameter.cpp` and the properties of
their factory, serialisation and update operations.

* `FP` and the functions on it model the C++ `float` and `double` arithmetic the file uses
  (IEEE 754 binary32 / binary64, round to nearest, ties to even, every operation rounded
  on its own).
* `Parameter`, `Parameter_Float`, `Parameter_Boolean`, `Parameter_Int` are the classes,
  `ParameterObj` is what a `std::shared_ptr<Parameter>` points at.
* `Env` collects what the translation unit leaves open: members that a constructor does
  not initialise, the result of a float to int conversion outside the range of `int`, and
  `floatValue()` on a text value.
-/

namespace Kontrol

/-! ## Floating point -/

/-- A `float` or `double` datum: not-a-number, the two infinities, or a finite value.
The two zeros are identified: the code only compares and adds, multiplies, subtracts
and converts, and all of these treat `-0.0` like `0.0`. A finite value belongs to a
format when rounding to the format leaves it unchanged (`FP.IsFloat`). -/
inductive FP where
  | nan
  | ninf
  | pinf
  | fin (q : ℚ)
  deriving DecidableEq

/-- Precision (significand bits) and largest exponent of a binary format. -/
structure FloatFormat where
  prec : ℕ
  emax : ℤ

/-- C++ `float`. -/
def binary32 : FloatFormat := ⟨24, 127⟩

/-- C++ `double`. -/
def binary64 : FloatFormat := ⟨53, 1023⟩

/-- Nearest integer, ties to the even one. -/
def rne (s : ℚ) : ℤ :=
  if s - ⌊s⌋ < 1 / 2 then ⌊s⌋
  else if 1 / 2 < s - ⌊s⌋ then ⌊s⌋ + 1
  else if ⌊s⌋ % 2 = 0 then ⌊s⌋ else ⌊s⌋ + 1

/-- Binary logarithm of a natural number, rounded down, by halving (`fuel` bounds the
number of halvings). -/
def log2Aux : ℕ → ℕ → ℕ
  | 0, _ => 0
  | fuel + 1, n => if n < 2 then 0 else log2Aux fuel (n / 2) + 1

/-- Exponent `e` with `2 ^ e ≤ |q| < 2 ^ (e + 1)`, for `q ≠ 0`. -/
def ilog2 (q : ℚ) : ℤ :=
  let e : ℤ := (log2Aux q.num.natAbs q.num.natAbs : ℤ) - (log2Aux q.den q.den : ℤ)
  if (2 : ℚ) ^ e ≤ |q| then e else e - 1

namespace FP

/-- Round an exact result to format `F`: to the nearest value with `F.prec` significant
bits (ties to even), gradual underflow below `2 ^ (1 - F.emax)`, overflow to infinity. -/
def round (F : FloatFormat) (q : ℚ) : FP :=
  if q = 0 then fin 0
  else
    let t : ℤ := max (ilog2 q) (1 - F.emax) - ((F.prec : ℤ) - 1)
    let r : ℚ := (rne (q / (2 : ℚ) ^ t) : ℚ) * (2 : ℚ) ^ t
    if (2 : ℚ) ^ (F.emax + 1) ≤ |r| then (if 0 < q then pinf else ninf) else fin r

/-- Exponent of the last place of the values of format `F` around `q`. -/
def quantum (F : FloatFormat) (q : ℚ) : ℤ :=
  max (ilog2 q) (1 - F.emax) - ((F.prec : ℤ) - 1)

/-- The multiple of the last place nearest to `q` (ties to even): the rounding of `q`
in unbounded exponent range. -/
def nearest (F : FloatFormat) (q : ℚ) : ℚ :=
  (rne (q / (2 : ℚ) ^ quantum F q) : ℚ) * (2 : ℚ) ^ quantum F q

/-- Datum `x` is a value of format `F`. -/
def IsFloat (F : FloatFormat) : FP → Prop
  | fin q => round F q = fin q
  | _ => True

instance (F : FloatFormat) (x : FP) : Decidable (IsFloat F x) := by
  cases x <;> unfold IsFloat <;> infer_instance

/-- Conversion to format `F` (`float f = <double>`). -/
def cvt (F : FloatFormat) : FP → FP
  | fin q => round F q
  | x => x

/-- C++ `a < b`. -/
def lt : FP → FP → Bool
  | nan, _ => false
  | _, nan => false
  | ninf, ninf => false
  | ninf, _ => true
  | _, ninf => false
  | pinf, _ => false
  | fin _, pinf => true
  | fin a, fin b => decide (a < b)

/-- C++ `a <= b`. -/
def le : FP → FP → Bool
  | nan, _ => false
  | _, nan => false
  | ninf, _ => true
  | _, pinf => true
  | pinf, _ => false
  | _, ninf => false
  | fin a, fin b => decide (a ≤ b)

/-- C++ `a != b`. -/
def ne : FP → FP → Bool
  | nan, _ => true
  | _, nan => true
  | a, b => decide (a ≠ b)

/-- Unary minus. -/
def neg : FP → FP
  | nan => nan
  | ninf => pinf
  | pinf => ninf
  | fin q => fin (-q)

/-- C++ `a + b` in format `F`. -/
def add (F : FloatFormat) : FP → FP → FP
  | nan, _ => nan
  | _, nan => nan
  | pinf, ninf => nan
  | ninf, pinf => nan
  | pinf, _ => pinf
  | _, pinf => pinf
  | ninf, _ => ninf
  | _, ninf => ninf
  | fin a, fin b => round F (a + b)

/-- C++ `a - b` in format `F`. -/
def sub (F : FloatFormat) (a b : FP) : FP := add F a (neg b)

/-- Sign rule for a product with an infinite factor; `s` is the other factor. -/
def mulInf (positive : Bool) (s : ℚ) : FP :=
  if s = 0 then nan else if (0 < s) = positive then pinf else ninf

/-- C++ `a * b` in format `F`. -/
def mul (F : FloatFormat) : FP → FP → FP
  | nan, _ => nan
  | _, nan => nan
  | pinf, pinf => pinf
  | ninf, ninf => pinf
  | pinf, ninf => ninf
  | ninf, pinf => ninf
  | pinf, fin b => mulInf true b
  | fin a, pinf => mulInf true a
  | ninf, fin b => mulInf false b
  | fin a, ninf => mulInf false a
  | fin a, fin b => round F (a * b)

/-- C++ `x / 127.0`: a `double` division by the constant 127. -/
def div127 : FP → FP
  | fin a => round binary64 (a / 127)
  | x => x

/-- The template `std::max(a, b)`: `(a < b) ? b : a`. -/
def stdMax (a b : FP) : FP := if lt a b then b else a

/-- The template `std::min(a, b)`: `(b < a) ? b : a`. -/
def stdMin (a b : FP) : FP := if lt b a then b else a

end FP

/-! ## Machine integers -/

/-- Smallest `int`. -/
def INT_MIN : ℤ := -2147483648

/-- Largest `int`. -/
def INT_MAX : ℤ := 2147483647

/-- Reduction of an integer into the range of `int` (two's complement, 32 bits). -/
def wrap32 (n : ℤ) : ℤ := (n + 2147483648) % 4294967296 - 2147483648

/-- Truncation toward zero. -/
def truncQ (q : ℚ) : ℤ := if 0 ≤ q then ⌊q⌋ else ⌈q⌉

/-- A number whose conversion to `int` is defined: finite, and its truncation is in range. -/
def IntConvertible : FP → Prop
  | FP.fin q => INT_MIN ≤ truncQ q ∧ truncQ q ≤ INT_MAX
  | _ => False

instance (x : FP) : Decidable (IntConvertible x) := by
  cases x <;> unfold IntConvertible <;> infer_instance

/-- C++ `(float) n` for an `int` n. -/
def i2f (n : ℤ) : FP := FP.round binary32 n

/-- The template `std::max(a, b)` at `int`. -/
def imax (a b : ℤ) : ℤ := if a < b then b else a

/-- The template `std::min(a, b)` at `int`. -/
def imin (a b : ℤ) : ℤ := if b < a then b else a

/-! ## What the translation unit leaves open -/

/-- Data the file `Parameter.cpp` does not fix. `ParamValue.h` and `Parameter.h` are not
part of the sources at hand, and C++ leaves two behaviours to the platform.

* `textFloat s`: what `floatValue()` returns on a text value holding `s`;
* `outOfRange x`: the `int` a conversion from `float` produces when `x` is not a number
  or its truncation is outside the range of `int`;
* `fmin` ... `bdef`: the contents of the members `min_`, `max_`, `def_` that the
  constructors leave uninitialised. -/
structure Env where
  textFloat : String → FP
  outOfRange : FP → ℤ
  fmin : FP
  fmax : FP
  fdef : FP
  imin : ℤ
  imax : ℤ
  idef : ℤ
  bdef : Bool

/-- An environment for worked examples: conversions out of range give `INT_MIN` (as the
x86 conversion instruction does), text values read as 0, and the uninitialised members
hold not-a-number, 0 and false. -/
def Env.sample : Env :=
  { textFloat := fun _ => FP.fin 0, outOfRange := fun _ => INT_MIN,
    fmin := FP.nan, fmax := FP.nan, fdef := FP.nan, imin := 0, imax := 0, idef := 0,
    bdef := false }

/-- C++ `(int) x` for a `float` x: truncation toward zero. -/
def f2i (u : Env) (x : FP) : ℤ :=
  match x with
  | FP.fin q =>
    if INT_MIN ≤ truncQ q ∧ truncQ q ≤ INT_MAX then truncQ q else wrap32 (u.outOfRange x)
  | _ => wrap32 (u.outOfRange x)

/-- C++ `(float) b` for a `bool` b. -/
def b2f (b : Bool) : FP := if b then FP.fin 1 else FP.fin 0

/-- The statement `float f = (float) midi / 127.0;`: the division is done in `double`
and the quotient converted to `float`. -/
def midiFraction (midi : ℤ) : FP := FP.cvt binary32 (FP.div127 (i2f midi))

/-! ## Values -/

/-- Modelled from the spec: `ParamValue` (declared in `ParamValue.h`, which is not among
the sources) is a tagged value holding either a floating-point number or a text string,
with a discriminant query and an equality defined per active variant. -/
inductive ParamValue where
  | T_Float (f : FP)
  | T_String (s : String)
  deriving DecidableEq

namespace ParamValue

/-- Modelled from the spec: accessor `floatValue()` of `ParamValue`, the numeric value
when the discriminant is numeric; what it returns on a text value is left open
(`Env.textFloat`). -/
def floatValue (u : Env) : ParamValue → FP
  | T_Float f => f
  | T_String s => u.textFloat s

/-- Modelled from the spec: `operator!=` on values, per active variant; values of
different variants differ. -/
def ne : ParamValue → ParamValue → Bool
  | T_Float a, T_Float b => FP.ne a b
  | T_String a, T_String b => decide (a ≠ b)
  | _, _ => true

end ParamValue

/-! ## The classes -/

/-- Modelled from the spec: the enumeration `ParameterType` of `Parameter.h` (not among
the sources), the kinds Invalid, Float, Int, Boolean, Percent, Frequency, Time, Pitch;
the names are those `Parameter.cpp` uses. -/
inductive ParameterType where
  | PT_Invalid
  | PT_Float
  | PT_Boolean
  | PT_Int
  | PT_Percent
  | PT_Frequency
  | PT_Time
  | PT_Pitch
  deriving DecidableEq

open ParameterType ParamValue

/-- Modelled from the spec: class `Parameter` of `Parameter.h` (not among the sources):
identity, display name, kind and current value; the member names are those
`Parameter.cpp` uses (`id_` and `displayName_` belong to the base `Entity`). -/
structure Parameter where
  id_ : String
  displayName_ : String
  type_ : ParameterType
  current_ : ParamValue
  deriving DecidableEq

/-- Modelled from the spec: class `Parameter_Float` with its numeric `min`, `max`,
`default`; also the state of its subclasses `Parameter_Percent`,
`Parameter_Frequency`, `Parameter_Time`, `Parameter_Pitch` (they add no member). -/
structure Parameter_Float extends Parameter where
  min_ : FP
  max_ : FP
  def_ : FP
  deriving DecidableEq

/-- Modelled from the spec: class `Parameter_Boolean` with its boolean `default`. -/
structure Parameter_Boolean extends Parameter where
  def_ : Bool
  deriving DecidableEq

/-- Modelled from the spec: class `Parameter_Int`. Its bounds are `int`s: the methods
apply `std::max` and `std::min` to an `int v` and `min()`, `max()`, which fixes the type
of the accessors. -/
structure Parameter_Int extends Parameter where
  min_ : ℤ
  max_ : ℤ
  def_ : ℤ
  deriving DecidableEq

/-- The class of an object of the `Parameter_Float` family; the subclasses only
override `displayUnit`, and their constructors (in `Parameter.h`) pass the kind on to
`Parameter_Float`. -/
inductive FloatClass where
  | Float
  | Percent
  | Frequency
  | Time
  | Pitch
  deriving DecidableEq

/-- What a `std::shared_ptr<Parameter>` points at: an object of one of the classes. -/
inductive ParameterObj where
  | base (p : Parameter)
  | flt (c : FloatClass) (p : Parameter_Float)
  | boolean (p : Parameter_Boolean)
  | int (p : Parameter_Int)
  deriving DecidableEq

/-- How a call returns: normally, or with a `std::runtime_error` in flight. The state
`s` is kept in both cases (the objects are updated in place). -/
inductive Outcome (σ : Type) where
  | returned (s : σ)
  | raised (s : σ) (what : String)

namespace Outcome

/-- Sequencing: the next statement runs only when the previous one returned. -/
def andThen {σ : Type} (o : Outcome σ) (k : σ → Outcome σ) : Outcome σ :=
  match o with
  | returned s => k s
  | raised s w => raised s w

/-- The same outcome seen on an enclosing state (a base-class call on a derived object). -/
def map {σ τ : Type} (f : σ → τ) : Outcome σ → Outcome τ
  | returned s => returned (f s)
  | raised s w => raised (f s) w

end Outcome

/-- The helper `throwError`: it builds the message and a `std::runtime_error` temporary
and lets it go: there is no `throw`, so the call returns. -/
def throwError_ {σ : Type} (id : String) (what : String) (s : σ) : Outcome σ :=
  let _w : String := id ++ what
  Outcome.returned s

/-- Constructor `Parameter::Parameter(type)`. -/
def Parameter.new (type : ParameterType) : Parameter :=
  { id_ := "", displayName_ := "", type_ := type, current_ := T_Float (FP.fin 0) }

/-- Constructor `Parameter_Float::Parameter_Float(type)`; the bounds are not initialised. -/
def Parameter_Float.new (u : Env) (type : ParameterType) : Parameter_Float :=
  { Parameter.new type with min_ := u.fmin, max_ := u.fmax, def_ := u.fdef }

/-- Constructor `Parameter_Boolean::Parameter_Boolean(type)`. -/
def Parameter_Boolean.new (u : Env) (type : ParameterType) : Parameter_Boolean :=
  { Parameter.new type with def_ := u.bdef }

/-- Modelled from the spec: the constructor of `Parameter_Int`, which `Parameter.h`
defines (it is not in `Parameter.cpp`); like that of `Parameter_Float` it passes the
kind to `Parameter` and leaves the bounds uninitialised. -/
def Parameter_Int.new (u : Env) (type : ParameterType) : Parameter_Int :=
  { Parameter.new type with
    min_ := wrap32 u.imin, max_ := wrap32 u.imax, def_ := wrap32 u.idef }

/-- Method `Parameter::init`: reads `id_` and `displayName_` at `pos`. -/
def Parameter.init (args : List ParamValue) (s : Parameter × ℕ) : Outcome (Parameter × ℕ) :=
  Outcome.andThen
    (match args[s.2]? with
      | some (T_String v) => Outcome.returned ({ s.1 with id_ := v }, s.2 + 1)
      | _ => throwError_ "null" "missing id" s)
    fun s =>
      match args[s.2]? with
      | some (T_String v) => Outcome.returned ({ s.1 with displayName_ := v }, s.2 + 1)
      | _ => throwError_ s.1.id_ "missing displayName" s

/-- The type tags. -/
def PTS_Float : String := "float"
/-- Tag of `PT_Int`. -/
def PTS_Int : String := "int"
/-- Tag of `PT_Boolean`. -/
def PTS_Boolean : String := "bool"
/-- Tag of `PT_Percent`. -/
def PTS_Percent : String := "pct"
/-- Tag of `PT_Frequency`. -/
def PTS_Frequency : String := "freq"
/-- Tag of `PT_Time`. -/
def PTS_Time : String := "time"
/-- Tag of `PT_Pitch`. -/
def PTS_Pitch : String := "pitch"

/-- Function `createParameter`. -/
def createParameter (u : Env) (t : String) : ParameterObj :=
  if t = PTS_Float then ParameterObj.flt FloatClass.Float (Parameter_Float.new u PT_Float)
  else if t = PTS_Int then ParameterObj.int (Parameter_Int.new u PT_Int)
  else if t = PTS_Boolean then ParameterObj.boolean (Parameter_Boolean.new u PT_Boolean)
  else if t = PTS_Percent then
    ParameterObj.flt FloatClass.Percent (Parameter_Float.new u PT_Percent)
  else if t = PTS_Frequency then
    ParameterObj.flt FloatClass.Frequency (Parameter_Float.new u PT_Frequency)
  else if t = PTS_Time then ParameterObj.flt FloatClass.Time (Parameter_Float.new u PT_Time)
  else if t = PTS_Pitch then ParameterObj.flt FloatClass.Pitch (Parameter_Float.new u PT_Pitch)
  else ParameterObj.base (Parameter.new PT_Invalid)

/-- Method `Parameter::createArgs`: appends the tag of `type_`, `id_`, `displayName_`. -/
def Parameter.createArgs (p : Parameter) (args : List ParamValue) : List ParamValue :=
  let args := args ++ [T_String (match p.type_ with
    | PT_Float => PTS_Float
    | PT_Boolean => PTS_Boolean
    | PT_Int => PTS_Int
    | PT_Percent => PTS_Percent
    | PT_Frequency => PTS_Frequency
    | PT_Time => PTS_Time
    | PT_Pitch => PTS_Pitch
    | PT_Invalid => "invalid")]
  let args := args ++ [T_String p.id_]
  args ++ [T_String p.displayName_]

/-- Method `Parameter::change`: replaces `current_` when the candidate differs. -/
def Parameter.change (p : Parameter) (c : ParamValue) : Bool × Parameter :=
  if ParamValue.ne p.current_ c then (true, { p with current_ := c }) else (false, p)

/-- Method `Parameter::calcFloat`. -/
def Parameter.calcFloat (p : Parameter) (f : FP) : ParamValue :=
  match p.current_ with
  | T_Float _ => T_Float f
  | T_String _ => p.current_

/-- Method `Parameter::calcRelative`. -/
def Parameter.calcRelative (p : Parameter) (f : FP) : ParamValue :=
  match p.current_ with
  | T_Float cur => p.calcFloat (FP.add binary32 cur f)
  | T_String _ => p.current_

/-- Method `Parameter::calcMidi`. -/
def Parameter.calcMidi (p : Parameter) (midi : ℤ) : ParamValue :=
  p.calcFloat (midiFraction midi)

/-! ### Parameter_Float -/

/-- Method `Parameter_Float::change`: clamps the candidate into `[min_, max_]`. -/
def Parameter_Float.change (u : Env) (p : Parameter_Float) (c : ParamValue) :
    Bool × Parameter_Float :=
  match p.current_ with
  | T_Float _ =>
    let v := c.floatValue u
    let v := FP.stdMax v p.min_
    let v := FP.stdMin v p.max_
    let r := p.toParameter.change (T_Float v)
    (r.1, { p with toParameter := r.2 })
  | T_String _ => (false, p)

/-- Method `Parameter_Float::init`: base fields, then `min_`, `max_`, `def_`, then
`change(def_)`. -/
def Parameter_Float.init (u : Env) (args : List ParamValue) (s : Parameter_Float × ℕ) :
    Outcome (Parameter_Float × ℕ) :=
  (((((Parameter.init args (s.1.toParameter, s.2)).map
    fun b => ({ s.1 with toParameter := b.1 }, b.2)).andThen
    fun s =>
      match args[s.2]? with
      | some (T_Float f) => Outcome.returned ({ s.1 with min_ := f }, s.2 + 1)
      | _ => throwError_ s.1.id_ "missing min" s).andThen
    fun s =>
      match args[s.2]? with
      | some (T_Float f) => Outcome.returned ({ s.1 with max_ := f }, s.2 + 1)
      | _ => throwError_ s.1.id_ "missing max" s).andThen
    fun s =>
      match args[s.2]? with
      | some (T_Float f) => Outcome.returned ({ s.1 with def_ := f }, s.2 + 1)
      | _ => throwError_ s.1.id_ "missing def" s).andThen
    fun s => Outcome.returned ((Parameter_Float.change u s.1 (T_Float s.1.def_)).2, s.2)

/-- Method `Parameter_Float::createArgs`. -/
def Parameter_Float.createArgs (p : Parameter_Float) (args : List ParamValue) :
    List ParamValue :=
  let args := p.toParameter.createArgs args
  let args := args ++ [T_Float p.min_]
  let args := args ++ [T_Float p.max_]
  args ++ [T_Float p.def_]

/-- Method `Parameter_Float::calcRelative`. -/
def Parameter_Float.calcRelative (u : Env) (p : Parameter_Float) (f : FP) : ParamValue :=
  let v := FP.add binary32 (p.current_.floatValue u)
    (FP.mul binary32 f (FP.sub binary32 p.max_ p.min_))
  let v := FP.stdMax v p.min_
  let v := FP.stdMin v p.max_
  T_Float v

/-- Method `Parameter_Float::calcFloat`. -/
def Parameter_Float.calcFloat (p : Parameter_Float) (f : FP) : ParamValue :=
  let v := FP.add binary32 (FP.mul binary32 f (FP.sub binary32 p.max_ p.min_)) p.min_
  let v := FP.stdMax v p.min_
  let v := FP.stdMin v p.max_
  T_Float v

/-- Method `Parameter_Float::calcMidi`. -/
def Parameter_Float.calcMidi (p : Parameter_Float) (midi : ℤ) : ParamValue :=
  let f := midiFraction midi
  p.calcFloat f

/-! ### Parameter_Boolean -/

/-- Method `Parameter_Boolean::change`: coerces the candidate to 1.0 or 0.0. -/
def Parameter_Boolean.change (u : Env) (p : Parameter_Boolean) (c : ParamValue) :
    Bool × Parameter_Boolean :=
  match p.current_ with
  | T_Float _ =>
    let v := if FP.lt (FP.fin (1 / 2)) (c.floatValue u) then FP.fin 1 else FP.fin 0
    let r := p.toParameter.change (T_Float v)
    (r.1, { p with toParameter := r.2 })
  | T_String _ => (false, p)

/-- Method `Parameter_Boolean::init`: base fields, then `def_` and `change(def_)`. -/
def Parameter_Boolean.init (u : Env) (args : List ParamValue) (s : Parameter_Boolean × ℕ) :
    Outcome (Parameter_Boolean × ℕ) :=
  ((Parameter.init args (s.1.toParameter, s.2)).map
    fun b => ({ s.1 with toParameter := b.1 }, b.2)).andThen
    fun s =>
      match args[s.2]? with
      | some (T_Float f) =>
        let p := { s.1 with def_ := FP.lt (FP.fin (1 / 2)) f }
        Outcome.returned ((Parameter_Boolean.change u p (T_Float (b2f p.def_))).2, s.2 + 1)
      | _ => throwError_ s.1.id_ "missing def" s

/-- Method `Parameter_Boolean::createArgs`. -/
def Parameter_Boolean.createArgs (p : Parameter_Boolean) (args : List ParamValue) :
    List ParamValue :=
  let args := p.toParameter.createArgs args
  args ++ [T_Float (b2f p.def_)]

/-- The `double` literal `0.0001`. -/
def epsilon : FP := FP.round binary64 (1 / 10000)

/-- Method `Parameter_Boolean::calcRelative`. -/
def Parameter_Boolean.calcRelative (u : Env) (p : Parameter_Boolean) (f : FP) : ParamValue :=
  if FP.lt (FP.fin (1 / 2)) (p.current_.floatValue u) && FP.lt f (FP.neg epsilon) then
    T_Float (FP.fin 0)
  else if FP.le (p.current_.floatValue u) (FP.fin (1 / 2)) && FP.lt epsilon f then
    T_Float (FP.fin 1)
  else p.current_

/-- Method `Parameter_Boolean::calcFloat`. -/
def Parameter_Boolean.calcFloat (_p : Parameter_Boolean) (f : FP) : ParamValue :=
  T_Float (if FP.lt (FP.fin (1 / 2)) f then FP.fin 1 else FP.fin 0)

/-- Method `Parameter_Boolean::calcMidi`. -/
def Parameter_Boolean.calcMidi (_p : Parameter_Boolean) (midi : ℤ) : ParamValue :=
  T_Float (if 63 < midi then FP.fin 1 else FP.fin 0)

/-! ### Parameter_Int -/

/-- Method `Parameter_Int::change`: truncates the candidate to an `int`, then clamps. -/
def Parameter_Int.change (u : Env) (p : Parameter_Int) (c : ParamValue) :
    Bool × Parameter_Int :=
  match p.current_ with
  | T_Float _ =>
    let v := f2i u (c.floatValue u)
    let v := imax v p.min_
    let v := imin v p.max_
    let r := p.toParameter.change (T_Float (i2f v))
    (r.1, { p with toParameter := r.2 })
  | T_String _ => (false, p)

/-- Method `Parameter_Int::init`: as for `Parameter_Float`, the three numbers being
converted to `int`. -/
def Parameter_Int.init (u : Env) (args : List ParamValue) (s : Parameter_Int × ℕ) :
    Outcome (Parameter_Int × ℕ) :=
  (((((Parameter.init args (s.1.toParameter, s.2)).map
    fun b => ({ s.1 with toParameter := b.1 }, b.2)).andThen
    fun s =>
      match args[s.2]? with
      | some (T_Float f) => Outcome.returned ({ s.1 with min_ := f2i u f }, s.2 + 1)
      | _ => throwError_ s.1.id_ "missing min" s).andThen
    fun s =>
      match args[s.2]? with
      | some (T_Float f) => Outcome.returned ({ s.1 with max_ := f2i u f }, s.2 + 1)
      | _ => throwError_ s.1.id_ "missing max" s).andThen
    fun s =>
      match args[s.2]? with
      | some (T_Float f) => Outcome.returned ({ s.1 with def_ := f2i u f }, s.2 + 1)
      | _ => throwError_ s.1.id_ "missing def" s).andThen
    fun s => Outcome.returned ((Parameter_Int.change u s.1 (T_Float (i2f s.1.def_))).2, s.2)

/-- Method `Parameter_Int::createArgs`. -/
def Parameter_Int.createArgs (p : Parameter_Int) (args : List ParamValue) :
    List ParamValue :=
  let args := p.toParameter.createArgs args
  let args := args ++ [T_Float (i2f p.min_)]
  let args := args ++ [T_Float (i2f p.max_)]
  args ++ [T_Float (i2f p.def_)]

/-- Method `Parameter_Int::calcRelative`. -/
def Parameter_Int.calcRelative (u : Env) (p : Parameter_Int) (f : FP) : ParamValue :=
  let v := f2i u (FP.add binary32 (p.current_.floatValue u)
    (FP.mul binary32 f (i2f (wrap32 (p.max_ - p.min_)))))
  let v := imax v p.min_
  let v := imin v p.max_
  T_Float (i2f v)

/-- Method `Parameter_Int::calcFloat`. -/
def Parameter_Int.calcFloat (u : Env) (p : Parameter_Int) (f : FP) : ParamValue :=
  let v := f2i u (FP.add binary32 (FP.mul binary32 f (i2f (wrap32 (p.max_ - p.min_))))
    (i2f p.min_))
  let v := imax v p.min_
  let v := imin v p.max_
  T_Float (i2f v)

/-- Method `Parameter_Int::calcMidi`. -/
def Parameter_Int.calcMidi (u : Env) (p : Parameter_Int) (midi : ℤ) : ParamValue :=
  let f := midiFraction midi
  let v := f2i u (FP.add binary32 (FP.mul binary32 f (i2f (wrap32 (p.max_ - p.min_))))
    (i2f p.min_))
  let v := imax v p.min_
  let v := imin v p.max_
  T_Float (i2f v)

/-! ### Virtual dispatch and the factory -/

namespace ParameterObj

/-- The base-class part of an object. -/
def toParameter : ParameterObj → Parameter
  | base p => p
  | flt _ p => p.toParameter
  | boolean p => p.toParameter
  | int p => p.toParameter

/-- Accessor `type()`. -/
def type (o : ParameterObj) : ParameterType := o.toParameter.type_

/-- Accessor `id()`. -/
def id (o : ParameterObj) : String := o.toParameter.id_

/-- Accessor `displayName()`. -/
def displayName (o : ParameterObj) : String := o.toParameter.displayName_

/-- Accessor `current()`. -/
def current (o : ParameterObj) : ParamValue := o.toParameter.current_

/-- The assignment `p->type_ = t`. -/
def setType (t : ParameterType) : ParameterObj → ParameterObj
  | base p => base { p with type_ := t }
  | flt c p => flt c { p with type_ := t }
  | boolean p => boolean { p with type_ := t }
  | int p => int { p with type_ := t }

/-- The object with `current_` holding `c` (a state reached at run time). -/
def withCurrent (c : ParamValue) : ParameterObj → ParameterObj
  | base p => base { p with current_ := c }
  | flt k p => flt k { p with current_ := c }
  | boolean p => boolean { p with current_ := c }
  | int p => int { p with current_ := c }

/-- The virtual call `p->init(args, pos)`. -/
def init (u : Env) (args : List ParamValue) (o : ParameterObj) (pos : ℕ) :
    Outcome (ParameterObj × ℕ) :=
  match o with
  | base p => (Parameter.init args (p, pos)).map fun s => (base s.1, s.2)
  | flt c p => (Parameter_Float.init u args (p, pos)).map fun s => (flt c s.1, s.2)
  | boolean p => (Parameter_Boolean.init u args (p, pos)).map fun s => (boolean s.1, s.2)
  | int p => (Parameter_Int.init u args (p, pos)).map fun s => (int s.1, s.2)

/-- The virtual call `p->createArgs(args)`. -/
def createArgs (o : ParameterObj) (args : List ParamValue) : List ParamValue :=
  match o with
  | base p => p.createArgs args
  | flt _ p => p.createArgs args
  | boolean p => p.createArgs args
  | int p => p.createArgs args

/-- The virtual call `p->change(c)`: the result and the object afterwards. -/
def change (u : Env) (o : ParameterObj) (c : ParamValue) : Bool × ParameterObj :=
  match o with
  | base p => ((p.change c).1, base (p.change c).2)
  | flt k p => ((p.change u c).1, flt k (p.change u c).2)
  | boolean p => ((p.change u c).1, boolean (p.change u c).2)
  | int p => ((p.change u c).1, int (p.change u c).2)

/-- The virtual call `p->calcFloat(f)`. -/
def calcFloat (u : Env) (o : ParameterObj) (f : FP) : ParamValue :=
  match o with
  | base p => p.calcFloat f
  | flt _ p => p.calcFloat f
  | boolean p => p.calcFloat f
  | int p => p.calcFloat u f

/-- The virtual call `p->calcMidi(midi)`. -/
def calcMidi (u : Env) (o : ParameterObj) (midi : ℤ) : ParamValue :=
  match o with
  | base p => p.calcMidi midi
  | flt _ p => p.calcMidi midi
  | boolean p => p.calcMidi midi
  | int p => p.calcMidi u midi

/-- The virtual call `p->calcRelative(f)`. -/
def calcRelative (u : Env) (o : ParameterObj) (f : FP) : ParamValue :=
  match o with
  | base p => p.calcRelative f
  | flt _ p => p.calcRelative u f
  | boolean p => p.calcRelative u f
  | int p => p.calcRelative u f

end ParameterObj

/-- The factory `Parameter::create`. The pointer `p` starts null and is set only when
`args[0]` is a text; `p->type()` on the null pointer has no result (`none`). -/
def Parameter.create (u : Env) (args : List ParamValue) : Option ParameterObj :=
  let pos : ℕ := 0
  let s : Option ParameterObj × ℕ :=
    match args[pos]? with
    | some (T_String t) => (some (createParameter u t), pos + 1)
    | _ => (none, pos)
  match s.1 with
  | none => none
  | some p =>
    if p.type ≠ PT_Invalid then
      match p.init u args s.2 with
      | Outcome.returned r => some r.1
      | Outcome.raised r _ => some (r.1.setType PT_Invalid)
    else some p

/-! ## Vocabulary of the properties -/

/-- The tag that `createParameter` maps to a class of the `Parameter_Float` family. -/
def FloatClass.tag : FloatClass → String
  | Float => PTS_Float
  | Percent => PTS_Percent
  | Frequency => PTS_Frequency
  | Time => PTS_Time
  | Pitch => PTS_Pitch

/-- The kind of a class of the `Parameter_Float` family. -/
def FloatClass.type : FloatClass → ParameterType
  | Float => PT_Float
  | Percent => PT_Percent
  | Frequency => PT_Frequency
  | Time => PT_Time
  | Pitch => PT_Pitch

/-- The seven known tags with their kinds, as the spec lists them. -/
def tagTable : List (String × ParameterType) :=
  [("float", PT_Float), ("int", PT_Int), ("bool", PT_Boolean), ("pct", PT_Percent),
   ("freq", PT_Frequency), ("time", PT_Time), ("pitch", PT_Pitch)]

/-- A list laid out as the flat value-list encoding prescribes: tag, id, display name
and the fields of the variant, each present and of the right variant. Nothing is asked
of the numbers. -/
inductive WellFormed : List ParamValue → Prop
  | flt (k : FloatClass) (i n : String) (a b c : FP) :
    WellFormed [T_String k.tag, T_String i, T_String n, T_Float a, T_Float b, T_Float c]
  | int (i n : String) (a b c : FP) :
    WellFormed [T_String PTS_Int, T_String i, T_String n, T_Float a, T_Float b, T_Float c]
  | bool (i n : String) (d : FP) :
    WellFormed [T_String PTS_Boolean, T_String i, T_String n, T_Float d]

/-- The numbers of an `int` list are `float`s in the range in which C++ defines the
conversion to `int` (outside it the result is left to the platform, `Env.outOfRange`). -/
def IntListOk (args : List ParamValue) : Prop :=
  args.head? = some (T_String PTS_Int) →
    ∀ x, T_Float x ∈ args → FP.IsFloat binary32 x ∧ IntConvertible x

/-- The members `min_`, `max_`, `def_` of an object, as far as its class has them. -/
inductive Bounds where
  | absent
  | ofFloat (min max default : FP)
  | ofBool (default : Bool)
  | ofInt (min max default : ℤ)
  deriving DecidableEq

/-- The bounds and default of an object. -/
def ParameterObj.bounds : ParameterObj → Bounds
  | ParameterObj.base _ => Bounds.absent
  | ParameterObj.flt _ p => Bounds.ofFloat p.min_ p.max_ p.def_
  | ParameterObj.boolean p => Bounds.ofBool p.def_
  | ParameterObj.int p => Bounds.ofInt p.min_ p.max_ p.def_

/-- The current value of an object is numeric, as the constructor leaves it. -/
def ParameterObj.Numeric (o : ParameterObj) : Prop := ∃ f, o.current = T_Float f

/-- The value is exactly 0.0 or exactly 1.0. -/
def ParamValue.ZeroOrOne (v : ParamValue) : Prop :=
  v = T_Float (FP.fin 0) ∨ v = T_Float (FP.fin 1)

instance (v : ParamValue) : Decidable v.ZeroOrOne := by
  unfold ParamValue.ZeroOrOne
  infer_instance

/-- The states of a Boolean parameter reachable from its construction by `init` (on any
list, from any position, whether it returns or raises) and by `change` with any
candidate. -/
inductive Parameter_Boolean.Reachable (u : Env) : Parameter_Boolean → Prop
  | fresh (t : ParameterType) : Reachable u (Parameter_Boolean.new u t)
  | byInit (p : Parameter_Boolean) (args : List ParamValue) (pos : ℕ)
      (r : Parameter_Boolean × ℕ) :
      Reachable u p → Parameter_Boolean.init u args (p, pos) = Outcome.returned r →
      Reachable u r.1
  | byInitRaised (p : Parameter_Boolean) (args : List ParamValue) (pos : ℕ)
      (r : Parameter_Boolean × ℕ) (w : String) :
      Reachable u p → Parameter_Boolean.init u args (p, pos) = Outcome.raised r w →
      Reachable u r.1
  | byChange (p : Parameter_Boolean) (c : ParamValue) :
      Reachable u p → Reachable u (p.change u c).2

/-! ## Display -/

/-- What is left of the text `sprintf` writes into `char numbuf[11]`: the text itself
when it fits with its terminator; a longer text overruns the buffer, and the result is
not defined. -/
def numbuf (s : String) : Option String := if s.length ≤ 10 then some s else none

/-- The conversion `%.1f` on a finite value other than zero: the nearest number of tenths
(ties to even), written with a sign, the whole part, and one fractional digit. (A zero is
written `0.0` or `-0.0` according to its sign, which `FP` does not keep: the callers
leave that case open.) -/
def formatTenths (q : ℚ) : String :=
  let t : ℕ := (rne (q * 10)).natAbs
  (if q < 0 then "-" else "") ++ toString (t / 10) ++ "." ++ toString (t % 10)

/-- Method `Parameter::displayValue`. -/
def Parameter.displayValue (_p : Parameter) : String := ""

/-- Method `Parameter_Float::displayValue`. Two cases are left open (`none`): a value
that is not finite, for which the text depends on the C library, and a zero, for which
the text is `0.0` or `-0.0` according to a sign that `FP` does not keep. -/
def Parameter_Float.displayValue (u : Env) (p : Parameter_Float) : Option String :=
  match p.current_.floatValue u with
  | FP.fin q => if q = 0 then none else numbuf (formatTenths q)
  | _ => none

/-- Method `Parameter_Boolean::displayValue`. -/
def Parameter_Boolean.displayValue (u : Env) (p : Parameter_Boolean) : String :=
  if FP.lt (FP.fin (1 / 2)) (p.current_.floatValue u) then "on" else "off"

/-- Method `Parameter_Int::displayValue`. -/
def Parameter_Int.displayValue (u : Env) (p : Parameter_Int) : Option String :=
  numbuf (toString (f2i u (p.current_.floatValue u)))

/-- The virtual call `p->displayValue()`. -/
def ParameterObj.displayValue (u : Env) (o : ParameterObj) : Option String :=
  match o with
  | ParameterObj.base p => some p.displayValue
  | ParameterObj.flt _ p => p.displayValue u
  | ParameterObj.boolean p => some (p.displayValue u)
  | ParameterObj.int p => p.displayValue u

/-! ## The mapped value of an Int parameter -/

/-- The `float` that `Parameter_Int::calcFloat` (and `calcMidi`, on the MIDI fraction)
converts to `int`: the expression `(f * (max() - min())) + min()`. -/
def Parameter_Int.mapFloat (p : Parameter_Int) (f : FP) : FP :=
  FP.add binary32 (FP.mul binary32 f (i2f (wrap32 (p.max_ - p.min_)))) (i2f p.min_)

/-- The `float` that `Parameter_Int::calcRelative` converts to `int`: the expression
`current_.floatValue() + (f * (max() - min()))`. -/
def Parameter_Int.mapRelative (u : Env) (p : Parameter_Int) (f : FP) : FP :=
  FP.add binary32 (p.current_.floatValue u)
    (FP.mul binary32 f (i2f (wrap32 (p.max_ - p.min_))))

/-- The order of the specification for an Int candidate: the mapped value `y` is clamped
to `[lo, hi]` first, and the result truncated to an integer. -/
def specClampThenTruncate (lo hi : ℤ) (y : ℚ) : ℤ :=
  truncQ (min (max y (lo : ℚ)) (hi : ℚ))

/-- The order of the code for an Int candidate: the mapped value `y` is truncated to an
integer first (the conversion to `int`, for a value in range), and the result clamped to
`[lo, hi]` with `std::max` and `std::min`. -/
def codeTruncateThenClamp (lo hi : ℤ) (y : ℚ) : ℤ :=
  imin (imax (truncQ y) lo) hi

/-! ## Rounding -/

theorem log2Aux_spec (fuel n : ℕ) (h1 : 1 ≤ n) (hf : n ≤ fuel) :
    2 ^ log2Aux fuel n ≤ n ∧ n < 2 ^ (log2Aux fuel n + 1) := by
  induction fuel generalizing n with
  | zero => omega
  | succ k ih =>
    unfold log2Aux
    split
    · simp only [pow_zero, zero_add, pow_one]
      omega
    · have h := ih (n / 2) (by omega) (by omega)
      constructor
      · rw [pow_succ]
        omega
      · rw [pow_succ]
        omega

theorem abs_eq_natAbs_div_den (q : ℚ) : |q| = (q.num.natAbs : ℚ) / (q.den : ℚ) := by
  conv_lhs => rw [← Rat.num_div_den q]
  rw [abs_div, Nat.abs_cast, ← Int.cast_abs, Int.abs_eq_natAbs, Int.cast_natCast]

theorem ilog2_spec (q : ℚ) (hq : q ≠ 0) :
    (2 : ℚ) ^ ilog2 q ≤ |q| ∧ |q| < (2 : ℚ) ^ (ilog2 q + 1) := by
  have ha : 1 ≤ q.num.natAbs := by
    have : q.num ≠ 0 := Rat.num_ne_zero.mpr hq
    omega
  have hd : 1 ≤ q.den := q.den_pos
  obtain ⟨ha1, ha2⟩ := log2Aux_spec q.num.natAbs q.num.natAbs ha le_rfl
  obtain ⟨hd1, hd2⟩ := log2Aux_spec q.den q.den hd le_rfl
  set la := log2Aux q.num.natAbs q.num.natAbs
  set ld := log2Aux q.den q.den
  have habs := abs_eq_natAbs_div_den q
  have hdq : (0 : ℚ) < q.den := by exact_mod_cast hd
  have ha1q : ((2 : ℚ) ^ la) ≤ (q.num.natAbs : ℚ) := by exact_mod_cast ha1
  have ha2q : (q.num.natAbs : ℚ) < (2 : ℚ) ^ (la + 1) := by exact_mod_cast ha2
  have hd1q : ((2 : ℚ) ^ ld) ≤ (q.den : ℚ) := by exact_mod_cast hd1
  have hd2q : (q.den : ℚ) < (2 : ℚ) ^ (ld + 1) := by exact_mod_cast hd2
  have hpos : ∀ k : ℕ, (0 : ℚ) < 2 ^ k := fun k => by positivity
  -- lower and upper estimates with the exponent la - ld
  have hlow : (2 : ℚ) ^ ((la : ℤ) - ld - 1) ≤ |q| := by
    have e : (2 : ℚ) ^ ((la : ℤ) - ld - 1) = 2 ^ la / 2 ^ (ld + 1) := by
      rw [show ((la : ℤ) - ld - 1) = (la : ℤ) - ((ld + 1 : ℕ) : ℤ) by push_cast; ring,
        zpow_sub₀ (by norm_num : (2 : ℚ) ≠ 0), zpow_natCast, zpow_natCast]
    rw [e, habs, div_le_div_iff₀ (hpos _) hdq]
    calc (2 : ℚ) ^ la * q.den ≤ q.num.natAbs * q.den := by
          apply mul_le_mul_of_nonneg_right ha1q hdq.le
      _ ≤ q.num.natAbs * 2 ^ (ld + 1) := by
          apply mul_le_mul_of_nonneg_left hd2q.le (by positivity)
  have hup : |q| < (2 : ℚ) ^ ((la : ℤ) - ld + 1) := by
    have e : (2 : ℚ) ^ ((la : ℤ) - ld + 1) = 2 ^ (la + 1) / 2 ^ ld := by
      rw [show ((la : ℤ) - ld + 1) = ((la + 1 : ℕ) : ℤ) - (ld : ℤ) by push_cast; ring,
        zpow_sub₀ (by norm_num : (2 : ℚ) ≠ 0), zpow_natCast, zpow_natCast]
    rw [e, habs, div_lt_div_iff₀ hdq (hpos _)]
    calc (q.num.natAbs : ℚ) * 2 ^ ld < 2 ^ (la + 1) * 2 ^ ld := by
          apply mul_lt_mul_of_pos_right ha2q (hpos _)
      _ ≤ 2 ^ (la + 1) * q.den := by
          apply mul_le_mul_of_nonneg_left hd1q (by positivity)
  unfold ilog2
  simp only
  split
  · rename_i h
    exact ⟨h, hup⟩
  · rename_i h
    refine ⟨hlow, ?_⟩
    rw [sub_add_cancel]
    exact not_le.mp h

theorem ilog2_unique (q : ℚ) (e : ℤ) (h1 : (2 : ℚ) ^ e ≤ |q|) (h2 : |q| < (2 : ℚ) ^ (e + 1)) :
    ilog2 q = e := by
  have hq : q ≠ 0 := by
    intro h
    rw [h, abs_zero] at h1
    exact absurd h1 (not_le.mpr (by positivity))
  obtain ⟨s1, s2⟩ := ilog2_spec q hq
  have two : (1 : ℚ) < 2 := by norm_num
  have a : ilog2 q < e + 1 := (zpow_lt_zpow_iff_right₀ two).mp (lt_of_le_of_lt s1 h2)
  have b : e < ilog2 q + 1 := (zpow_lt_zpow_iff_right₀ two).mp (lt_of_le_of_lt h1 s2)
  omega

theorem rne_intCast (n : ℤ) : rne (n : ℚ) = n := by
  simp [rne]

theorem truncQ_intCast (n : ℤ) : truncQ (n : ℚ) = n := by
  simp [truncQ]

theorem abs_truncQ_le (q : ℚ) : |((truncQ q : ℤ) : ℚ)| ≤ |q| := by
  unfold truncQ
  split
  · rename_i h
    have h0 : (0 : ℤ) ≤ ⌊q⌋ := Int.floor_nonneg.mpr h
    rw [abs_of_nonneg (by exact_mod_cast h0), abs_of_nonneg h]
    exact Int.floor_le q
  · rename_i h
    have hq : q < 0 := not_le.mp h
    have h0 : ⌈q⌉ ≤ (0 : ℤ) := Int.ceil_le.mpr (by simpa using hq.le)
    rw [abs_of_nonpos (by exact_mod_cast h0), abs_of_neg hq]
    have := Int.le_ceil q
    linarith

/-- A value `m * 2 ^ t` with fewer than `prec` significant bits, above the underflow
threshold and below the overflow threshold, is left unchanged by rounding. -/
theorem FP.round_scaled (F : FloatFormat) (m t : ℤ) (hm : |m| < 2 ^ F.prec)
    (ht : (1 - F.emax) - ((F.prec : ℤ) - 1) ≤ t)
    (hov : |(m : ℚ) * (2 : ℚ) ^ t| < (2 : ℚ) ^ (F.emax + 1)) :
    FP.round F ((m : ℚ) * (2 : ℚ) ^ t) = FP.fin ((m : ℚ) * (2 : ℚ) ^ t) := by
  have two : (1 : ℚ) < 2 := by norm_num
  have two0 : (2 : ℚ) ≠ 0 := by norm_num
  unfold FP.round
  split
  · rename_i h
    rw [h]
  · rename_i hq
    obtain ⟨s1, -⟩ := ilog2_spec _ hq
    set q : ℚ := (m : ℚ) * (2 : ℚ) ^ t with hqdef
    -- the exponent of q is below prec + t
    have hlt : |q| < (2 : ℚ) ^ ((F.prec : ℤ) + t) := by
      rw [hqdef, abs_mul, abs_of_pos (zpow_pos (by norm_num : (0 : ℚ) < 2) t),
        zpow_add₀ two0, zpow_natCast]
      apply mul_lt_mul_of_pos_right _ (zpow_pos (by norm_num) t)
      have : ((|m| : ℤ) : ℚ) < ((2 ^ F.prec : ℤ) : ℚ) := by exact_mod_cast hm
      simpa using this
    have he : ilog2 q < (F.prec : ℤ) + t :=
      (zpow_lt_zpow_iff_right₀ two).mp (lt_of_le_of_lt s1 hlt)
    have hT : max (ilog2 q) (1 - F.emax) - ((F.prec : ℤ) - 1) ≤ t := by
      rcases max_cases (ilog2 q) (1 - F.emax) with ⟨h, -⟩ | ⟨h, -⟩ <;> rw [h] <;> omega
    set T : ℤ := max (ilog2 q) (1 - F.emax) - ((F.prec : ℤ) - 1) with hTdef
    obtain ⟨k, hk⟩ : ∃ k : ℕ, t = T + k := ⟨(t - T).toNat, by omega⟩
    have hdiv : q / (2 : ℚ) ^ T = ((m * 2 ^ k : ℤ) : ℚ) := by
      rw [hqdef, hk, zpow_add₀ two0, zpow_natCast]
      push_cast
      field_simp
      ring
    simp only [hdiv, rne_intCast]
    have hr : ((m * 2 ^ k : ℤ) : ℚ) * (2 : ℚ) ^ T = q := by
      rw [hqdef, hk, zpow_add₀ two0, zpow_natCast]
      push_cast
      ring
    rw [hr, if_neg (not_le.mpr hov)]

theorem FP.round_int (n : ℤ) (h : |n| < 2 ^ 24) : FP.round binary32 (n : ℚ) = FP.fin n := by
  have := FP.round_scaled binary32 n 0 (by simpa [binary32] using h) (by simp [binary32])
    (by
      simp only [zpow_zero, mul_one, binary32]
      have h1 : ((|n| : ℤ) : ℚ) < ((2 ^ 24 : ℤ) : ℚ) := by exact_mod_cast h
      rw [Int.cast_abs] at h1
      refine lt_trans h1 ?_
      norm_num)
  simpa using this

/-- The truncation of a `float` is a `float`. -/
theorem FP.isFloat_truncQ (q : ℚ) (h : FP.IsFloat binary32 (FP.fin q)) :
    FP.round binary32 (truncQ q : ℤ) = FP.fin (truncQ q : ℤ) := by
  have two : (1 : ℚ) < 2 := by norm_num
  have two0 : (2 : ℚ) ≠ 0 := by norm_num
  by_cases hq : q = 0
  · subst hq
    simp [truncQ, FP.round]
  · obtain ⟨-, s2⟩ := ilog2_spec q hq
    have h' : FP.round binary32 q = FP.fin q := h
    unfold FP.round at h'
    rw [if_neg hq] at h'
    simp only at h'
    split at h'
    · split at h' <;> exact absurd h' (by simp)
    · have hr := FP.fin.inj h'
      set T : ℤ := max (ilog2 q) (1 - binary32.emax) - ((binary32.prec : ℤ) - 1) with hTdef
      by_cases hT : 0 ≤ T
      · -- q is an integer
        obtain ⟨k, hk⟩ : ∃ k : ℕ, T = k := ⟨T.toNat, by omega⟩
        have hz : q = ((rne (q / (2 : ℚ) ^ T) * 2 ^ k : ℤ) : ℚ) := by
          conv_lhs => rw [← hr]
          rw [hk, zpow_natCast]
          push_cast
          ring
        rw [hz, truncQ_intCast, ← hz]
        exact h
      · -- q is below 2 ^ 23
        have he : ilog2 q + 1 ≤ 23 := by
          have : max (ilog2 q) (1 - binary32.emax) - ((binary32.prec : ℤ) - 1) < 0 := by
            rw [← hTdef]; omega
          have h1 := le_max_left (ilog2 q) (1 - binary32.emax)
          simp only [binary32] at this h1 ⊢
          omega
        have hlt : |q| < (2 : ℚ) ^ (23 : ℤ) :=
          lt_of_lt_of_le s2 ((zpow_le_zpow_iff_right₀ two).mpr he)
        apply FP.round_int
        have h2 : |((truncQ q : ℤ) : ℚ)| < (2 : ℚ) ^ (23 : ℤ) :=
          lt_of_le_of_lt (abs_truncQ_le q) hlt
        have h3 : ((|truncQ q| : ℤ) : ℚ) < ((2 ^ 23 : ℤ) : ℚ) := by
          rw [Int.cast_abs]
          refine lt_of_lt_of_le h2 ?_
          norm_num
        have h4 : |truncQ q| < 2 ^ 23 := by exact_mod_cast h3
        omega

theorem f2i_intCast (u : Env) (n : ℤ) (h1 : INT_MIN ≤ n) (h2 : n ≤ INT_MAX) :
    f2i u (FP.fin (n : ℚ)) = n := by
  simp [f2i, truncQ_intCast, h1, h2]

theorem f2i_convertible (u : Env) (q : ℚ) (h : IntConvertible (FP.fin q)) :
    f2i u (FP.fin q) = truncQ q := by
  unfold IntConvertible at h
  simp [f2i, h]

/-! ## The update and the factory, step by step -/

theorem FP.ne_eq_false {a b : FP} (h : FP.ne a b = false) : a = b := by
  cases a <;> cases b <;> simp_all [FP.ne]

theorem FP.ne_self {a : FP} (h : a ≠ FP.nan) : FP.ne a a = false := by
  cases a <;> simp_all [FP.ne]

theorem ParamValue.ne_false_iff_eq {a b : ParamValue} (h : ParamValue.ne a b = false) : a = b := by
  cases a <;> cases b <;> simp_all [ParamValue.ne]
  exact FP.ne_eq_false h

/-- After `Parameter::change` with a numeric candidate, `current_` holds the candidate. -/
theorem Parameter.change_snd (p : Parameter) (v : FP) :
    (p.change (T_Float v)).2 = { p with current_ := T_Float v } := by
  unfold Parameter.change
  split
  · rfl
  · rename_i h
    have := ParamValue.ne_false_iff_eq (Bool.not_eq_true _ ▸ h)
    cases p
    simp_all

theorem Parameter.change_fst (p : Parameter) (c : ParamValue) :
    (p.change c).1 = ParamValue.ne p.current_ c := by
  unfold Parameter.change
  split <;> simp_all

theorem create_flt (u : Env) (k : FloatClass) (i n : String) (a b c : FP) :
    Parameter.create u
        [T_String k.tag, T_String i, T_String n, T_Float a, T_Float b, T_Float c] =
      some (ParameterObj.flt k
        { id_ := i, displayName_ := n, type_ := k.type,
          current_ := T_Float (FP.stdMin (FP.stdMax c a) b),
          min_ := a, max_ := b, def_ := c }) := by
  cases k <;>
    simp [Parameter.create, createParameter, FloatClass.tag, FloatClass.type, PTS_Float,
      PTS_Int, PTS_Boolean, PTS_Percent, PTS_Frequency, PTS_Time, PTS_Pitch,
      ParameterObj.type, ParameterObj.toParameter, Parameter_Float.new, Parameter.new,
      ParameterObj.init, Parameter_Float.init, Parameter.init, Outcome.andThen, Outcome.map,
      Parameter_Float.change, ParamValue.floatValue, Parameter.change_snd]

theorem create_int (u : Env) (i n : String) (a b c : FP) :
    Parameter.create u
        [T_String PTS_Int, T_String i, T_String n, T_Float a, T_Float b, T_Float c] =
      some (ParameterObj.int
        { id_ := i, displayName_ := n, type_ := PT_Int,
          current_ := T_Float (i2f (imin (imax (f2i u (i2f (f2i u c))) (f2i u a)) (f2i u b))),
          min_ := f2i u a, max_ := f2i u b, def_ := f2i u c }) := by
  simp [Parameter.create, createParameter, PTS_Float,
      PTS_Int, PTS_Boolean, PTS_Percent, PTS_Frequency, PTS_Time, PTS_Pitch,
      ParameterObj.type, ParameterObj.toParameter, Parameter_Int.new, Parameter.new,
      ParameterObj.init, Parameter_Int.init, Parameter.init, Outcome.andThen, Outcome.map,
      Parameter_Int.change, ParamValue.floatValue, Parameter.change_snd]

theorem b2f_gt_half (b : Bool) : FP.lt (FP.fin (1 / 2)) (b2f b) = b := by
  cases b
  · simp [b2f, FP.lt]
  · simp only [b2f, FP.lt, if_true, decide_eq_true_eq]
    norm_num

theorem create_bool (u : Env) (i n : String) (d : FP) :
    Parameter.create u [T_String PTS_Boolean, T_String i, T_String n, T_Float d] =
      some (ParameterObj.boolean
        { id_ := i, displayName_ := n, type_ := PT_Boolean,
          current_ := T_Float (b2f (FP.lt (FP.fin (1 / 2)) d)),
          def_ := FP.lt (FP.fin (1 / 2)) d }) := by
  simp only [Parameter.create, createParameter, PTS_Float,
      PTS_Int, PTS_Boolean, PTS_Percent, PTS_Frequency, PTS_Time, PTS_Pitch,
      ParameterObj.type, ParameterObj.toParameter, Parameter_Boolean.new, Parameter.new,
      ParameterObj.init, Parameter_Boolean.init, Parameter.init, Outcome.andThen, Outcome.map,
      Parameter_Boolean.change, ParamValue.floatValue, Parameter.change_snd, b2f_gt_half]
  simp
  cases FP.lt (FP.fin (1 / 2)) d <;> simp [b2f]

theorem IntConvertible.finite {x : FP} (h : IntConvertible x) : ∃ q, x = FP.fin q := by
  cases x <;> simp_all [IntConvertible]

theorem createArgs_flt (k : FloatClass) (i n : String) (cur : ParamValue) (a b c : FP) :
    (ParameterObj.flt k
        { id_ := i, displayName_ := n, type_ := k.type, current_ := cur,
          min_ := a, max_ := b, def_ := c }).createArgs [] =
      [T_String k.tag, T_String i, T_String n, T_Float a, T_Float b, T_Float c] := by
  cases k <;> rfl

theorem createArgs_int (i n : String) (cur : ParamValue) (a b c : ℤ) :
    (ParameterObj.int
        { id_ := i, displayName_ := n, type_ := PT_Int, current_ := cur,
          min_ := a, max_ := b, def_ := c }).createArgs [] =
      [T_String PTS_Int, T_String i, T_String n, T_Float (i2f a), T_Float (i2f b),
        T_Float (i2f c)] := rfl

theorem createArgs_bool (i n : String) (cur : ParamValue) (d : Bool) :
    (ParameterObj.boolean
        { id_ := i, displayName_ := n, type_ := PT_Boolean, current_ := cur,
          def_ := d }).createArgs [] =
      [T_String PTS_Boolean, T_String i, T_String n, T_Float (b2f d)] := rfl

/-- With numbers that are `float`s in the range of `int`, `Parameter_Int::init` stores
their truncations and seeds `current_` with the clamped default. -/
theorem create_int_ok (u : Env) (i n : String) (a b c : ℚ)
    (ha : FP.IsFloat binary32 (FP.fin a) ∧ IntConvertible (FP.fin a))
    (hb : FP.IsFloat binary32 (FP.fin b) ∧ IntConvertible (FP.fin b))
    (hc : FP.IsFloat binary32 (FP.fin c) ∧ IntConvertible (FP.fin c)) :
    Parameter.create u
        [T_String PTS_Int, T_String i, T_String n, T_Float (FP.fin a), T_Float (FP.fin b),
          T_Float (FP.fin c)] =
      some (ParameterObj.int
        { id_ := i, displayName_ := n, type_ := PT_Int,
          current_ := T_Float (FP.fin
            ((imin (imax (truncQ c) (truncQ a)) (truncQ b) : ℤ) : ℚ)),
          min_ := truncQ a, max_ := truncQ b, def_ := truncQ c }) := by
  have ea := FP.isFloat_truncQ a ha.1
  have eb := FP.isFloat_truncQ b hb.1
  have ec := FP.isFloat_truncQ c hc.1
  have hc2 : f2i u (FP.fin ((truncQ c : ℤ) : ℚ)) = truncQ c :=
    f2i_intCast u _ hc.2.1 hc.2.2
  rw [create_int, f2i_convertible u a ha.2, f2i_convertible u b hb.2,
    f2i_convertible u c hc.2]
  have hcur : i2f (imin (imax (f2i u (i2f (truncQ c))) (truncQ a)) (truncQ b)) =
      FP.fin ((imin (imax (truncQ c) (truncQ a)) (truncQ b) : ℤ) : ℚ) := by
    unfold i2f at *
    rw [ec, hc2]
    unfold imin imax
    split_ifs <;> assumption
  rw [hcur]

theorem FP.stdMax_fin (a b : ℚ) : FP.stdMax (FP.fin a) (FP.fin b) = FP.fin (max a b) := by
  unfold FP.stdMax
  simp only [FP.lt, decide_eq_true_eq]
  split_ifs with h
  · rw [max_eq_right h.le]
  · rw [max_eq_left (not_lt.mp h)]

theorem FP.stdMin_fin (a b : ℚ) : FP.stdMin (FP.fin a) (FP.fin b) = FP.fin (min a b) := by
  unfold FP.stdMin
  simp only [FP.lt, decide_eq_true_eq]
  split_ifs with h
  · rw [min_eq_right h.le]
  · rw [min_eq_left (not_lt.mp h)]

theorem imax_eq (a b : ℤ) : imax a b = max a b := by
  unfold imax
  split_ifs with h
  · rw [max_eq_right h.le]
  · rw [max_eq_left (not_lt.mp h)]

theorem imin_eq (a b : ℤ) : imin a b = min a b := by
  unfold imin
  split_ifs with h
  · rw [min_eq_right h.le]
  · rw [min_eq_left (not_lt.mp h)]

theorem FP.not_lt_of_le {a b : FP} (h : FP.le a b = true) : FP.lt b a = false := by
  cases a <;> cases b <;> simp_all [FP.le, FP.lt]

/-- Clamping leaves a value between the bounds unchanged. -/
theorem FP.clamp_of_le {a b d : FP} (h1 : FP.le a d = true) (h2 : FP.le d b = true) :
    FP.stdMin (FP.stdMax d a) b = d := by
  unfold FP.stdMin FP.stdMax
  rw [FP.not_lt_of_le h1]
  simp [FP.not_lt_of_le h2]

/-- The nearest integer is at most one half away. -/
theorem rne_dist (s : ℚ) : |(rne s : ℚ) - s| ≤ 1 / 2 := by
  have h1 := Int.floor_le s
  have h2 := Int.lt_floor_add_one s
  unfold rne
  rw [abs_le]
  split_ifs with a b c <;> push_cast <;> constructor <;> linarith

theorem rne_abs_le (s : ℚ) : |(rne s : ℚ)| ≤ 2 * |s| := by
  have hd := rne_dist s
  by_cases h0 : rne s = 0
  · rw [h0]
    simp
  · have h1 : (1 : ℚ) ≤ |(rne s : ℚ)| := by
      have : (1 : ℤ) ≤ |rne s| := Int.one_le_abs h0
      exact_mod_cast this
    have h2 : |(rne s : ℚ)| - |s| ≤ |(rne s : ℚ) - s| := abs_sub_abs_le_abs_sub _ _
    linarith

/-- A finite rounding result is at most twice the exact value in magnitude. -/
theorem FP.round_abs_le (F : FloatFormat) (q r : ℚ) (h : FP.round F q = FP.fin r) :
    |r| ≤ 2 * |q| := by
  unfold FP.round at h
  split at h
  · rename_i hq
    cases h
    simp
  · simp only at h
    split at h
    · split at h <;> exact absurd h (by simp)
    · cases h
      set T : ℤ := max (ilog2 q) (1 - F.emax) - ((F.prec : ℤ) - 1)
      have hp : (0 : ℚ) < (2 : ℚ) ^ T := zpow_pos (by norm_num) T
      rw [abs_mul, abs_of_pos hp]
      calc |(rne (q / 2 ^ T) : ℚ)| * 2 ^ T ≤ 2 * |q / 2 ^ T| * 2 ^ T :=
            mul_le_mul_of_nonneg_right (rne_abs_le _) hp.le
        _ = 2 * |q| := by
            rw [abs_div, abs_of_pos hp]
            field_simp

theorem wrap32_range (n : ℤ) : INT_MIN ≤ wrap32 n ∧ wrap32 n ≤ INT_MAX := by
  unfold wrap32 INT_MIN INT_MAX
  omega

theorem f2i_range (u : Env) (x : FP) : INT_MIN ≤ f2i u x ∧ f2i u x ≤ INT_MAX := by
  unfold f2i
  split
  · split_ifs with h
    · exact h
    · exact wrap32_range _
  · exact wrap32_range _

/-- The `float` of an `int` is not ten thousand million. -/
theorem i2f_ne_big (m : ℤ) (h1 : INT_MIN ≤ m) (h2 : m ≤ INT_MAX) :
    i2f m ≠ FP.fin 10000000000 := by
  intro h
  have hb := FP.round_abs_le binary32 (m : ℚ) _ h
  have hm : |(m : ℚ)| ≤ 2147483648 := by
    rw [abs_le]
    unfold INT_MIN at h1
    unfold INT_MAX at h2
    constructor
    · exact_mod_cast h1
    · have : m ≤ 2147483648 := by omega
      exact_mod_cast this
  rw [abs_of_pos (by norm_num : (0 : ℚ) < 10000000000)] at hb
  linarith

/-! ## Rounding is monotone -/

theorem FP.round_zero (F : FloatFormat) : FP.round F 0 = FP.fin 0 := by
  simp [FP.round]

theorem rne_mono {s s' : ℚ} (h : s ≤ s') : rne s ≤ rne s' := by
  by_contra hc
  have hlt : rne s' + 1 ≤ rne s := by omega
  have hq : ((rne s' : ℤ) : ℚ) + 1 ≤ ((rne s : ℤ) : ℚ) := by exact_mod_cast hlt
  have d1 := abs_le.mp (rne_dist s)
  have d2 := abs_le.mp (rne_dist s')
  have hs : s = s' := by linarith [d1.1, d1.2, d2.1, d2.2]
  subst hs
  omega

theorem rne_zero : rne 0 = 0 := by
  simpa using rne_intCast 0

/-- The exponent of the last place and the nearest value in unbounded range. -/
theorem FP.round_eq (F : FloatFormat) (q : ℚ) (hq : q ≠ 0) :
    FP.round F q =
      if (2 : ℚ) ^ (F.emax + 1) ≤ |FP.nearest F q| then (if 0 < q then FP.pinf else FP.ninf)
      else FP.fin (FP.nearest F q) := by
  unfold FP.round FP.nearest FP.quantum
  rw [if_neg hq]

theorem FP.nearest_nonneg (F : FloatFormat) {q : ℚ} (hq : 0 ≤ q) : 0 ≤ FP.nearest F q := by
  unfold FP.nearest
  have hp : (0 : ℚ) < (2 : ℚ) ^ FP.quantum F q := zpow_pos (by norm_num) _
  have h0 : (0 : ℤ) ≤ rne (q / (2 : ℚ) ^ FP.quantum F q) := by
    have := rne_mono (show (0 : ℚ) ≤ q / (2 : ℚ) ^ FP.quantum F q from div_nonneg hq hp.le)
    rwa [rne_zero] at this
  have h1 : (0 : ℚ) ≤ (rne (q / (2 : ℚ) ^ FP.quantum F q) : ℚ) := by exact_mod_cast h0
  exact mul_nonneg h1 hp.le

theorem FP.nearest_nonpos (F : FloatFormat) {q : ℚ} (hq : q ≤ 0) : FP.nearest F q ≤ 0 := by
  unfold FP.nearest
  have hp : (0 : ℚ) < (2 : ℚ) ^ FP.quantum F q := zpow_pos (by norm_num) _
  have h0 : rne (q / (2 : ℚ) ^ FP.quantum F q) ≤ (0 : ℤ) := by
    have := rne_mono (show q / (2 : ℚ) ^ FP.quantum F q ≤ (0 : ℚ) from
      div_nonpos_of_nonpos_of_nonneg hq hp.le)
    rwa [rne_zero] at this
  have h1 : (rne (q / (2 : ℚ) ^ FP.quantum F q) : ℚ) ≤ 0 := by exact_mod_cast h0
  exact mul_nonpos_of_nonpos_of_nonneg h1 hp.le

theorem rne_two_pow (k : ℕ) : rne ((2 : ℚ) ^ k) = 2 ^ k := by
  have := rne_intCast ((2 : ℤ) ^ k)
  simpa using this

theorem rne_neg_two_pow (k : ℕ) : rne (-(2 : ℚ) ^ k) = -2 ^ k := by
  have := rne_intCast (-(2 : ℤ) ^ k)
  simpa using this

/-- In magnitude, the nearest value is at most the next power of two above `q`. -/
theorem FP.nearest_abs_le (F : FloatFormat) {q : ℚ} (hq : q ≠ 0) :
    |FP.nearest F q| ≤ (2 : ℚ) ^ (max (ilog2 q) (1 - F.emax) + 1) := by
  have two : (1 : ℚ) < 2 := by norm_num
  have two0 : (2 : ℚ) ≠ 0 := by norm_num
  obtain ⟨-, s2⟩ := ilog2_spec q hq
  set E : ℤ := max (ilog2 q) (1 - F.emax) with hE
  have hqE : |q| < (2 : ℚ) ^ (E + 1) :=
    lt_of_lt_of_le s2 ((zpow_le_zpow_iff_right₀ two).mpr (by
      have := le_max_left (ilog2 q) (1 - F.emax)
      omega))
  have hT : FP.quantum F q = E - ((F.prec : ℤ) - 1) := rfl
  have hp : (0 : ℚ) < (2 : ℚ) ^ FP.quantum F q := zpow_pos (by norm_num) _
  have hsplit : (2 : ℚ) ^ (E + 1) = (2 : ℚ) ^ F.prec * (2 : ℚ) ^ FP.quantum F q := by
    rw [← zpow_natCast, ← zpow_add₀ two0, hT]
    congr 1
    ring
  have hs : |q / (2 : ℚ) ^ FP.quantum F q| < (2 : ℚ) ^ F.prec := by
    rw [abs_div, abs_of_pos hp, div_lt_iff₀ hp, ← hsplit]
    exact hqE
  obtain ⟨hs1, hs2⟩ := abs_lt.mp hs
  have hr : |(rne (q / (2 : ℚ) ^ FP.quantum F q) : ℚ)| ≤ (2 : ℚ) ^ F.prec := by
    rw [abs_le]
    constructor
    · have := rne_mono hs1.le
      rw [rne_neg_two_pow] at this
      exact_mod_cast this
    · have := rne_mono hs2.le
      rw [rne_two_pow] at this
      exact_mod_cast this
  unfold FP.nearest
  rw [abs_mul, abs_of_pos hp, hsplit]
  exact mul_le_mul_of_nonneg_right hr hp.le

/-- In the normal range, the nearest value is at least the power of two below `q`. -/
theorem FP.le_nearest_abs (F : FloatFormat) (hF : 1 ≤ F.prec) {q : ℚ} (hq : q ≠ 0)
    (hn : 1 - F.emax ≤ ilog2 q) : (2 : ℚ) ^ ilog2 q ≤ |FP.nearest F q| := by
  have two0 : (2 : ℚ) ≠ 0 := by norm_num
  obtain ⟨s1, -⟩ := ilog2_spec q hq
  have hT : FP.quantum F q = ilog2 q - ((F.prec : ℤ) - 1) := by
    unfold FP.quantum
    rw [max_eq_left hn]
  have hp : (0 : ℚ) < (2 : ℚ) ^ FP.quantum F q := zpow_pos (by norm_num) _
  obtain ⟨k, hk⟩ : ∃ k : ℕ, F.prec = k + 1 := ⟨F.prec - 1, by omega⟩
  have hsplit : (2 : ℚ) ^ ilog2 q = (2 : ℚ) ^ k * (2 : ℚ) ^ FP.quantum F q := by
    rw [← zpow_natCast, ← zpow_add₀ two0, hT, hk]
    congr 1
    push_cast
    ring
  have hs : (2 : ℚ) ^ k ≤ |q / (2 : ℚ) ^ FP.quantum F q| := by
    rw [abs_div, abs_of_pos hp, le_div_iff₀ hp, ← hsplit]
    exact s1
  have hr : (2 : ℚ) ^ k ≤ |(rne (q / (2 : ℚ) ^ FP.quantum F q) : ℚ)| := by
    rcases le_abs.mp hs with h | h
    · have := rne_mono h
      rw [rne_two_pow] at this
      have h2 : ((2 : ℚ) ^ k) ≤ (rne (q / (2 : ℚ) ^ FP.quantum F q) : ℚ) := by
        exact_mod_cast this
      exact le_trans h2 (le_abs_self _)
    · have h' : q / (2 : ℚ) ^ FP.quantum F q ≤ -(2 : ℚ) ^ k := by linarith
      have := rne_mono h'
      rw [rne_neg_two_pow] at this
      have h2 : (rne (q / (2 : ℚ) ^ FP.quantum F q) : ℚ) ≤ -((2 : ℚ) ^ k) := by
        exact_mod_cast this
      exact le_trans (by linarith) (neg_le_abs _)
  unfold FP.nearest
  rw [abs_mul, abs_of_pos hp, hsplit]
  exact mul_le_mul_of_nonneg_right hr hp.le

theorem ilog2_mono_abs {a b : ℚ} (ha : a ≠ 0) (hb : b ≠ 0) (h : |a| ≤ |b|) :
    ilog2 a ≤ ilog2 b := by
  obtain ⟨a1, -⟩ := ilog2_spec a ha
  obtain ⟨-, b2⟩ := ilog2_spec b hb
  have two : (1 : ℚ) < 2 := by norm_num
  have := (zpow_lt_zpow_iff_right₀ two).mp (lt_of_le_of_lt (le_trans a1 h) b2)
  omega

/-- In magnitude, the nearest value grows with the magnitude of the argument. -/
theorem FP.nearest_abs_mono (F : FloatFormat) (hF : 1 ≤ F.prec) {a b : ℚ} (ha : a ≠ 0)
    (hb : b ≠ 0) (hs : 0 < a ↔ 0 < b) (h : |a| ≤ |b|) :
    |FP.nearest F a| ≤ |FP.nearest F b| := by
  have two : (1 : ℚ) < 2 := by norm_num
  have he := ilog2_mono_abs ha hb h
  by_cases hT : FP.quantum F a = FP.quantum F b
  · -- same last place: the nearest integer is monotone
    have hp : (0 : ℚ) < (2 : ℚ) ^ FP.quantum F b := zpow_pos (by norm_num) _
    unfold FP.nearest
    rw [hT, abs_mul, abs_mul, abs_of_pos hp]
    apply mul_le_mul_of_nonneg_right _ hp.le
    by_cases hpos : 0 < a
    · have hbpos := hs.mp hpos
      rw [abs_of_pos hpos, abs_of_pos hbpos] at h
      have h1 : a / (2 : ℚ) ^ FP.quantum F b ≤ b / (2 : ℚ) ^ FP.quantum F b :=
        div_le_div_of_nonneg_right h hp.le
      have h0 : (0 : ℚ) ≤ a / (2 : ℚ) ^ FP.quantum F b := div_nonneg hpos.le hp.le
      have m1 := rne_mono h1
      have m0 := rne_mono h0
      rw [rne_zero] at m0
      have c1 : (rne (a / (2 : ℚ) ^ FP.quantum F b) : ℚ) ≤
          (rne (b / (2 : ℚ) ^ FP.quantum F b) : ℚ) := by exact_mod_cast m1
      have c0 : (0 : ℚ) ≤ (rne (a / (2 : ℚ) ^ FP.quantum F b) : ℚ) := by exact_mod_cast m0
      rw [abs_of_nonneg c0, abs_of_nonneg (le_trans c0 c1)]
      exact c1
    · have haneg : a < 0 := lt_of_le_of_ne (not_lt.mp hpos) ha
      have hbneg : b < 0 := lt_of_le_of_ne (not_lt.mp (fun hb' => hpos (hs.mpr hb'))) hb
      rw [abs_of_neg haneg, abs_of_neg hbneg] at h
      have h1 : b / (2 : ℚ) ^ FP.quantum F b ≤ a / (2 : ℚ) ^ FP.quantum F b :=
        div_le_div_of_nonneg_right (by linarith) hp.le
      have h0 : a / (2 : ℚ) ^ FP.quantum F b ≤ (0 : ℚ) :=
        div_nonpos_of_nonpos_of_nonneg haneg.le hp.le
      have m1 := rne_mono h1
      have m0 := rne_mono h0
      rw [rne_zero] at m0
      have c1 : (rne (b / (2 : ℚ) ^ FP.quantum F b) : ℚ) ≤
          (rne (a / (2 : ℚ) ^ FP.quantum F b) : ℚ) := by exact_mod_cast m1
      have c0 : (rne (a / (2 : ℚ) ^ FP.quantum F b) : ℚ) ≤ (0 : ℚ) := by exact_mod_cast m0
      rw [abs_of_nonpos c0, abs_of_nonpos (le_trans c1 c0)]
      linarith
  · -- different last places: a power of two lies between
    have hlt : max (ilog2 a) (1 - F.emax) < max (ilog2 b) (1 - F.emax) := by
      have hle : max (ilog2 a) (1 - F.emax) ≤ max (ilog2 b) (1 - F.emax) :=
        max_le_max he le_rfl
      rcases lt_or_eq_of_le hle with h1 | h1
      · exact h1
      · exfalso
        apply hT
        unfold FP.quantum
        rw [h1]
    have hbn : 1 - F.emax < ilog2 b := by
      by_contra hc
      rw [max_eq_right (not_lt.mp hc)] at hlt
      exact absurd (le_max_right (ilog2 a) (1 - F.emax)) (not_le.mpr hlt)
    have hEb : max (ilog2 b) (1 - F.emax) = ilog2 b := max_eq_left hbn.le
    rw [hEb] at hlt
    calc |FP.nearest F a| ≤ (2 : ℚ) ^ (max (ilog2 a) (1 - F.emax) + 1) :=
          FP.nearest_abs_le F ha
      _ ≤ (2 : ℚ) ^ ilog2 b := (zpow_le_zpow_iff_right₀ two).mpr (by omega)
      _ ≤ |FP.nearest F b| := FP.le_nearest_abs F hF hb hbn.le

/-- Rounding is monotone. -/
theorem FP.round_mono (F : FloatFormat) (hF : 1 ≤ F.prec) {a b : ℚ} (h : a ≤ b) :
    FP.le (FP.round F a) (FP.round F b) = true := by
  rcases lt_trichotomy a 0 with ha | ha | ha
  · -- a negative
    have hna := FP.nearest_nonpos F ha.le
    rcases lt_trichotomy b 0 with hb | hb | hb
    · have hnb := FP.nearest_nonpos F hb.le
      have habs : |FP.nearest F b| ≤ |FP.nearest F a| :=
        FP.nearest_abs_mono F hF hb.ne ha.ne
          ⟨fun h0 => absurd h0 (not_lt.mpr hb.le), fun h0 => absurd h0 (not_lt.mpr ha.le)⟩
          (by rw [abs_of_neg ha, abs_of_neg hb]; linarith)
      rw [FP.round_eq F a ha.ne, FP.round_eq F b hb.ne, if_neg (not_lt.mpr ha.le),
        if_neg (not_lt.mpr hb.le)]
      by_cases h1 : (2 : ℚ) ^ (F.emax + 1) ≤ |FP.nearest F a|
      · rw [if_pos h1]
        split_ifs <;> simp [FP.le]
      · rw [if_neg h1, if_neg (fun h2 => h1 (le_trans h2 habs))]
        rw [abs_of_nonpos hna, abs_of_nonpos hnb] at habs
        simp only [FP.le, decide_eq_true_eq]
        linarith
    · subst hb
      rw [FP.round_eq F a ha.ne, FP.round_zero, if_neg (not_lt.mpr ha.le)]
      split_ifs
      · simp [FP.le]
      · simpa [FP.le] using hna
    · have hnb := FP.nearest_nonneg F hb.le
      rw [FP.round_eq F a ha.ne, FP.round_eq F b hb.ne', if_neg (not_lt.mpr ha.le),
        if_pos hb]
      split_ifs <;> simp [FP.le]
      linarith
  · subst ha
    rcases lt_or_eq_of_le h with hb | hb
    · have hnb := FP.nearest_nonneg F hb.le
      rw [FP.round_eq F b hb.ne', FP.round_zero, if_pos hb]
      split_ifs
      · simp [FP.le]
      · simpa [FP.le] using hnb
    · rw [← hb, FP.round_zero]
      simp [FP.le]
  · -- a positive, so b positive
    have hb : 0 < b := lt_of_lt_of_le ha h
    have hna := FP.nearest_nonneg F ha.le
    have hnb := FP.nearest_nonneg F hb.le
    have habs : |FP.nearest F a| ≤ |FP.nearest F b| :=
      FP.nearest_abs_mono F hF ha.ne' hb.ne' ⟨fun _ => hb, fun _ => ha⟩
        (by rw [abs_of_pos ha, abs_of_pos hb]; exact h)
    rw [FP.round_eq F a ha.ne', FP.round_eq F b hb.ne', if_pos ha, if_pos hb]
    by_cases h1 : (2 : ℚ) ^ (F.emax + 1) ≤ |FP.nearest F b|
    · rw [if_pos h1]
      split_ifs <;> simp [FP.le]
    · rw [if_neg h1, if_neg (fun h2 => h1 (le_trans h2 habs))]
      rw [abs_of_nonneg hna, abs_of_nonneg hnb] at habs
      simpa [FP.le] using habs

/-- The conversion from `int` to `float` is monotone. -/
theorem i2f_mono {m n : ℤ} (h : m ≤ n) : FP.le (i2f m) (i2f n) = true :=
  FP.round_mono binary32 (by decide) (by exact_mod_cast h)

/-! ## Clamping -/

theorem FP.le_self_of {a : FP} (h : a ≠ FP.nan) : FP.le a a = true := by
  cases a <;> simp_all [FP.le]

theorem FP.le_of_not_lt {a b : FP} (ha : a ≠ FP.nan) (hb : b ≠ FP.nan)
    (h : FP.lt b a = false) : FP.le a b = true := by
  cases a <;> cases b <;> simp_all [FP.le, FP.lt]

theorem FP.ne_nan_of_le {a b : FP} (h : FP.le a b = true) : a ≠ FP.nan ∧ b ≠ FP.nan := by
  cases a <;> cases b <;> simp_all [FP.le]

theorem FP.ne_nan_of_lt {a b : FP} (h : FP.lt a b = true) : a ≠ FP.nan ∧ b ≠ FP.nan := by
  cases a <;> cases b <;> simp_all [FP.lt]

theorem FP.not_lt_of_le_of_lt {a b x : FP} (h1 : FP.le a b = true) (h2 : FP.lt b x = true) :
    FP.lt x a = false := by
  cases a <;> cases b <;> cases x <;> simp_all [FP.le, FP.lt]
  linarith

/-- The clamp of a number between ordered bounds lies between the bounds. -/
theorem FP.clamp_mem {a b x : FP} (hab : FP.le a b = true) (hx : x ≠ FP.nan) :
    FP.le a (FP.stdMin (FP.stdMax x a) b) = true ∧
      FP.le (FP.stdMin (FP.stdMax x a) b) b = true := by
  obtain ⟨ha, hb⟩ := FP.ne_nan_of_le hab
  unfold FP.stdMin FP.stdMax
  by_cases h1 : FP.lt x a = true
  · rw [if_pos h1, FP.not_lt_of_le hab]
    exact ⟨FP.le_self_of ha, hab⟩
  · rw [if_neg h1]
    have h1' : FP.lt x a = false := by simpa using h1
    by_cases h2 : FP.lt b x = true
    · rw [if_pos h2]
      exact ⟨hab, FP.le_self_of hb⟩
    · rw [if_neg h2]
      have h2' : FP.lt b x = false := by simpa using h2
      exact ⟨FP.le_of_not_lt ha hx h1', FP.le_of_not_lt hx hb h2'⟩

/-- The clamp of a number is a number. -/
theorem FP.clamp_ne_nan {a b x : FP} (hx : x ≠ FP.nan) :
    FP.stdMin (FP.stdMax x a) b ≠ FP.nan := by
  unfold FP.stdMin
  by_cases h : FP.lt b (FP.stdMax x a) = true
  · rw [if_pos h]
    exact (FP.ne_nan_of_lt h).1
  · rw [if_neg h]
    unfold FP.stdMax
    by_cases h1 : FP.lt x a = true
    · rw [if_pos h1]
      exact (FP.ne_nan_of_lt h1).2
    · rw [if_neg h1]
      exact hx

theorem FP.round_ne_nan (F : FloatFormat) (q : ℚ) : FP.round F q ≠ FP.nan := by
  unfold FP.round
  split
  · simp
  · simp only
    split
    · split <;> simp
    · simp

/-- State after `Parameter_Float::change` on an object whose `current_` is numeric. -/
theorem Parameter_Float.float_change_snd (u : Env) (p : Parameter_Float) (c : ParamValue)
    (h : ∃ f, p.current_ = T_Float f) :
    (p.change u c).2 =
      { p with current_ :=
        T_Float (FP.stdMin (FP.stdMax (c.floatValue u) p.min_) p.max_) } := by
  obtain ⟨f, hf⟩ := h
  unfold Parameter_Float.change
  rw [hf]
  simp only [Parameter.change_snd]

/-- State after `Parameter_Int::change` on an object whose `current_` is numeric. -/
theorem Parameter_Int.int_change_snd (u : Env) (p : Parameter_Int) (c : ParamValue)
    (h : ∃ f, p.current_ = T_Float f) :
    (p.change u c).2 =
      { p with current_ :=
        T_Float (i2f (imin (imax (f2i u (c.floatValue u)) p.min_) p.max_)) } := by
  obtain ⟨f, hf⟩ := h
  unfold Parameter_Int.change
  rw [hf]
  simp only [Parameter.change_snd]

/-! ## Change semantics -/

theorem FP.ne_iff_of_ne_nan (a v : FP) (hv : v ≠ FP.nan) : FP.ne a v = true ↔ v ≠ a := by
  cases a <;> cases v <;> simp_all [FP.ne]
  exact ne_comm

/-- `Parameter::change` with a number reports exactly whether `current_` changed. -/
theorem Parameter.change_iff (p : Parameter) (v : FP) (hv : v ≠ FP.nan) :
    (p.change (T_Float v)).1 = true ↔ (p.change (T_Float v)).2.current_ ≠ p.current_ := by
  rw [Parameter.change_fst, Parameter.change_snd]
  cases hc : p.current_ with
  | T_Float a =>
    simp only [ParamValue.ne, ne_eq, ParamValue.T_Float.injEq]
    exact FP.ne_iff_of_ne_nan a v hv
  | T_String s => simp [ParamValue.ne]

/-- `Parameter::change` with the number that `current_` holds changes nothing. -/
theorem Parameter.change_same (p : Parameter) (v : FP) (hv : v ≠ FP.nan)
    (h : p.current_ = T_Float v) : p.change (T_Float v) = (false, p) := by
  unfold Parameter.change
  rw [h]
  simp [ParamValue.ne, FP.ne_self hv]

theorem Parameter_Float.float_change_sem (u : Env) (p : Parameter_Float) (x : FP)
    (hx : x ≠ FP.nan) :
    ((p.change u (T_Float x)).1 = true ↔
      (p.change u (T_Float x)).2.current_ ≠ p.current_) ∧
    (p.change u (T_Float x)).2.change u (T_Float x) =
      (false, (p.change u (T_Float x)).2) := by
  have hv : FP.stdMin (FP.stdMax x p.min_) p.max_ ≠ FP.nan := FP.clamp_ne_nan hx
  cases hc : p.current_ with
  | T_String s =>
    have e : p.change u (T_Float x) = (false, p) := by
      unfold Parameter_Float.change
      rw [hc]
    rw [e]
    simp [e, hc]
  | T_Float a =>
    have e : p.change u (T_Float x) =
        ((p.toParameter.change (T_Float (FP.stdMin (FP.stdMax x p.min_) p.max_))).1,
          { p with toParameter :=
            (p.toParameter.change (T_Float (FP.stdMin (FP.stdMax x p.min_) p.max_))).2 }) := by
      unfold Parameter_Float.change
      rw [hc]
      rfl
    rw [e]
    constructor
    · rw [← hc]
      exact Parameter.change_iff p.toParameter _ hv
    · unfold Parameter_Float.change
      simp only [Parameter.change_snd, ParamValue.floatValue]
      rw [Parameter.change_same _ _ hv rfl]

theorem Parameter_Int.int_change_sem (u : Env) (p : Parameter_Int) (c : ParamValue) :
    ((p.change u c).1 = true ↔ (p.change u c).2.current_ ≠ p.current_) ∧
    (p.change u c).2.change u c = (false, (p.change u c).2) := by
  have hv : i2f (imin (imax (f2i u (c.floatValue u)) p.min_) p.max_) ≠ FP.nan :=
    FP.round_ne_nan _ _
  cases hc : p.current_ with
  | T_String s =>
    have e : p.change u c = (false, p) := by
      unfold Parameter_Int.change
      rw [hc]
    rw [e]
    simp [e, hc]
  | T_Float a =>
    have e : p.change u c =
        ((p.toParameter.change
            (T_Float (i2f (imin (imax (f2i u (c.floatValue u)) p.min_) p.max_)))).1,
          { p with toParameter :=
            (p.toParameter.change
              (T_Float (i2f (imin (imax (f2i u (c.floatValue u)) p.min_) p.max_)))).2 }) := by
      unfold Parameter_Int.change
      rw [hc]
    rw [e]
    constructor
    · rw [← hc]
      exact Parameter.change_iff p.toParameter _ hv
    · unfold Parameter_Int.change
      simp only [Parameter.change_snd]
      rw [Parameter.change_same _ _ hv rfl]

theorem Parameter_Boolean.bool_change_sem (u : Env) (p : Parameter_Boolean) (c : ParamValue) :
    ((p.change u c).1 = true ↔ (p.change u c).2.current_ ≠ p.current_) ∧
    (p.change u c).2.change u c = (false, (p.change u c).2) := by
  have hv : (if FP.lt (FP.fin (1 / 2)) (c.floatValue u) then FP.fin 1 else FP.fin 0) ≠
      FP.nan := by
    split_ifs <;> simp
  cases hc : p.current_ with
  | T_String s =>
    have e : p.change u c = (false, p) := by
      unfold Parameter_Boolean.change
      rw [hc]
    rw [e]
    simp [e, hc]
  | T_Float a =>
    have e : p.change u c =
        ((p.toParameter.change
            (T_Float (if FP.lt (FP.fin (1 / 2)) (c.floatValue u) then FP.fin 1
              else FP.fin 0))).1,
          { p with toParameter :=
            (p.toParameter.change
              (T_Float (if FP.lt (FP.fin (1 / 2)) (c.floatValue u) then FP.fin 1
                else FP.fin 0))).2 }) := by
      unfold Parameter_Boolean.change
      rw [hc]
    rw [e]
    constructor
    · rw [← hc]
      exact Parameter.change_iff p.toParameter _ hv
    · unfold Parameter_Boolean.change
      simp only [Parameter.change_snd]
      rw [Parameter.change_same _ _ hv rfl]

/-! ## The factory on malformed lists -/

/-- Sequencing two steps that return keeps returning. -/
theorem Outcome.andThen_returned {σ : Type} {P Q : σ → Prop} (o : Outcome σ)
    (k : σ → Outcome σ) (ho : ∃ r, o = Outcome.returned r ∧ P r)
    (hk : ∀ s, P s → ∃ r, k s = Outcome.returned r ∧ Q r) :
    ∃ r, o.andThen k = Outcome.returned r ∧ Q r := by
  obtain ⟨r, rfl, hr⟩ := ho
  exact hk r hr

/-- `Parameter::init` always returns (nothing is ever thrown) and keeps `type_` and
`current_`. -/
theorem Parameter.init_returned (args : List ParamValue) (s : Parameter × ℕ) :
    ∃ r, Parameter.init args s = Outcome.returned r ∧ r.1.type_ = s.1.type_ ∧
      r.1.current_ = s.1.current_ := by
  unfold Parameter.init throwError_
  refine Outcome.andThen_returned
    (P := fun r => r.1.type_ = s.1.type_ ∧ r.1.current_ = s.1.current_) _ _ ?_ ?_
  · split <;> exact ⟨_, rfl, rfl, rfl⟩
  · intro r hr
    split <;> exact ⟨_, rfl, hr⟩

theorem Parameter.change_type (p : Parameter) (c : ParamValue) :
    (p.change c).2.type_ = p.type_ := by
  unfold Parameter.change
  split <;> rfl

theorem Parameter_Float.float_change_type (u : Env) (p : Parameter_Float) (c : ParamValue) :
    (p.change u c).2.type_ = p.type_ := by
  unfold Parameter_Float.change
  split
  · exact Parameter.change_type _ _
  · rfl

theorem Parameter_Boolean.bool_change_type (u : Env) (p : Parameter_Boolean)
    (c : ParamValue) : (p.change u c).2.type_ = p.type_ := by
  unfold Parameter_Boolean.change
  split
  · exact Parameter.change_type _ _
  · rfl

theorem Parameter_Int.int_change_type (u : Env) (p : Parameter_Int) (c : ParamValue) :
    (p.change u c).2.type_ = p.type_ := by
  unfold Parameter_Int.change
  split
  · exact Parameter.change_type _ _
  · rfl

/-- State after `Parameter_Boolean::change` on an object whose `current_` is numeric. -/
theorem Parameter_Boolean.bool_change_snd (u : Env) (p : Parameter_Boolean) (c : ParamValue)
    (h : ∃ f, p.current_ = T_Float f) :
    (p.change u c).2 =
      { p with current_ :=
        T_Float (if FP.lt (FP.fin (1 / 2)) (c.floatValue u) then FP.fin 1 else FP.fin 0) } := by
  obtain ⟨f, hf⟩ := h
  unfold Parameter_Boolean.change
  rw [hf]
  simp only [Parameter.change_snd]

theorem Parameter_Float.float_change_numeric (u : Env) (p : Parameter_Float)
    (c : ParamValue) (h : ∃ f, p.current_ = T_Float f) :
    ∃ f, (p.change u c).2.current_ = T_Float f := by
  rw [Parameter_Float.float_change_snd u p c h]
  exact ⟨_, rfl⟩

theorem Parameter_Boolean.bool_change_numeric (u : Env) (p : Parameter_Boolean)
    (c : ParamValue) (h : ∃ f, p.current_ = T_Float f) :
    ∃ f, (p.change u c).2.current_ = T_Float f := by
  rw [Parameter_Boolean.bool_change_snd u p c h]
  exact ⟨_, rfl⟩

theorem Parameter_Int.int_change_numeric (u : Env) (p : Parameter_Int)
    (c : ParamValue) (h : ∃ f, p.current_ = T_Float f) :
    ∃ f, (p.change u c).2.current_ = T_Float f := by
  rw [Parameter_Int.int_change_snd u p c h]
  exact ⟨_, rfl⟩

theorem Parameter_Float.float_init_returned (u : Env) (args : List ParamValue)
    (s : Parameter_Float × ℕ) :
    ∃ r, Parameter_Float.init u args s = Outcome.returned r ∧ r.1.type_ = s.1.type_ ∧
      ((∃ f, s.1.current_ = T_Float f) → ∃ f, r.1.current_ = T_Float f) := by
  obtain ⟨r, hr, ht, hc⟩ := Parameter.init_returned args (s.1.toParameter, s.2)
  unfold Parameter_Float.init throwError_
  rw [hr]
  simp only [Outcome.map]
  refine Outcome.andThen_returned
    (P := fun r => r.1.type_ = s.1.type_ ∧ r.1.current_ = s.1.current_) _ _ ?_ ?_
  · refine Outcome.andThen_returned
      (P := fun r => r.1.type_ = s.1.type_ ∧ r.1.current_ = s.1.current_) _ _ ?_ ?_
    · refine Outcome.andThen_returned
        (P := fun r => r.1.type_ = s.1.type_ ∧ r.1.current_ = s.1.current_) _ _ ?_ ?_
      · refine Outcome.andThen_returned
          (P := fun r => r.1.type_ = s.1.type_ ∧ r.1.current_ = s.1.current_) _ _
          ⟨_, rfl, ht, hc⟩ ?_
        intro r hr
        split <;> exact ⟨_, rfl, hr⟩
      · intro r hr
        split <;> exact ⟨_, rfl, hr⟩
    · intro r hr
      split <;> exact ⟨_, rfl, hr⟩
  · intro r hr
    refine ⟨_, rfl, by rw [Parameter_Float.float_change_type]; exact hr.1, fun hn => ?_⟩
    exact Parameter_Float.float_change_numeric u r.1 _ (by rw [hr.2]; exact hn)

theorem Parameter_Int.int_init_returned (u : Env) (args : List ParamValue)
    (s : Parameter_Int × ℕ) :
    ∃ r, Parameter_Int.init u args s = Outcome.returned r ∧ r.1.type_ = s.1.type_ ∧
      ((∃ f, s.1.current_ = T_Float f) → ∃ f, r.1.current_ = T_Float f) := by
  obtain ⟨r, hr, ht, hc⟩ := Parameter.init_returned args (s.1.toParameter, s.2)
  unfold Parameter_Int.init throwError_
  rw [hr]
  simp only [Outcome.map]
  refine Outcome.andThen_returned
    (P := fun r => r.1.type_ = s.1.type_ ∧ r.1.current_ = s.1.current_) _ _ ?_ ?_
  · refine Outcome.andThen_returned
      (P := fun r => r.1.type_ = s.1.type_ ∧ r.1.current_ = s.1.current_) _ _ ?_ ?_
    · refine Outcome.andThen_returned
        (P := fun r => r.1.type_ = s.1.type_ ∧ r.1.current_ = s.1.current_) _ _ ?_ ?_
      · refine Outcome.andThen_returned
          (P := fun r => r.1.type_ = s.1.type_ ∧ r.1.current_ = s.1.current_) _ _
          ⟨_, rfl, ht, hc⟩ ?_
        intro r hr
        split <;> exact ⟨_, rfl, hr⟩
      · intro r hr
        split <;> exact ⟨_, rfl, hr⟩
    · intro r hr
      split <;> exact ⟨_, rfl, hr⟩
  · intro r hr
    refine ⟨_, rfl, by rw [Parameter_Int.int_change_type]; exact hr.1, fun hn => ?_⟩
    exact Parameter_Int.int_change_numeric u r.1 _ (by rw [hr.2]; exact hn)

theorem Parameter_Boolean.bool_init_returned (u : Env) (args : List ParamValue)
    (s : Parameter_Boolean × ℕ) :
    ∃ r, Parameter_Boolean.init u args s = Outcome.returned r ∧ r.1.type_ = s.1.type_ ∧
      ((∃ f, s.1.current_ = T_Float f) → ∃ f, r.1.current_ = T_Float f) := by
  obtain ⟨r, hr, ht, hc⟩ := Parameter.init_returned args (s.1.toParameter, s.2)
  unfold Parameter_Boolean.init throwError_
  rw [hr]
  simp only [Outcome.map]
  refine Outcome.andThen_returned
    (P := fun r => r.1.type_ = s.1.type_ ∧ r.1.current_ = s.1.current_) _ _
    ⟨_, rfl, ht, hc⟩ ?_
  intro r hr
  split
  · refine ⟨_, rfl, by rw [Parameter_Boolean.bool_change_type]; exact hr.1, fun hn => ?_⟩
    exact Parameter_Boolean.bool_change_numeric u _ _ (by rw [hr.2]; exact hn)
  · exact ⟨_, rfl, hr.1, fun hn => by rw [hr.2]; exact hn⟩

/-- The virtual `init` always returns, keeps the kind, and leaves `current_` numeric. -/
theorem ParameterObj.obj_init_returned (u : Env) (args : List ParamValue) (o : ParameterObj)
    (pos : ℕ) :
    ∃ r, o.init u args pos = Outcome.returned r ∧ r.1.type = o.type ∧
      (o.Numeric → r.1.Numeric) := by
  cases o with
  | base p =>
    obtain ⟨r, hr, ht, hc⟩ := Parameter.init_returned args (p, pos)
    exact ⟨(ParameterObj.base r.1, r.2), by simp only [ParameterObj.init, hr, Outcome.map],
      ht, fun hn => by
        obtain ⟨f, hf⟩ := hn
        exact ⟨f, hc.trans hf⟩⟩
  | flt k p =>
    obtain ⟨r, hr, ht, hc⟩ := Parameter_Float.float_init_returned u args (p, pos)
    exact ⟨(ParameterObj.flt k r.1, r.2), by simp only [ParameterObj.init, hr, Outcome.map],
      ht, hc⟩
  | boolean p =>
    obtain ⟨r, hr, ht, hc⟩ := Parameter_Boolean.bool_init_returned u args (p, pos)
    exact ⟨(ParameterObj.boolean r.1, r.2),
      by simp only [ParameterObj.init, hr, Outcome.map], ht, hc⟩
  | int p =>
    obtain ⟨r, hr, ht, hc⟩ := Parameter_Int.int_init_returned u args (p, pos)
    exact ⟨(ParameterObj.int r.1, r.2), by simp only [ParameterObj.init, hr, Outcome.map],
      ht, hc⟩

theorem createParameter_numeric (u : Env) (t : String) : (createParameter u t).Numeric := by
  unfold createParameter
  split_ifs <;> exact ⟨_, rfl⟩

/-- On a list that starts with a text `t`, the factory returns an object of the kind
that `createParameter` gave it, its `current_` numeric. -/
theorem create_kind (u : Env) (t : String) (rest : List ParamValue) :
    ∃ p, Parameter.create u (T_String t :: rest) = some p ∧
      p.type = (createParameter u t).type ∧ p.Numeric := by
  obtain ⟨r, hr, ht, hn⟩ := ParameterObj.obj_init_returned u (T_String t :: rest)
    (createParameter u t) 1
  unfold Parameter.create
  simp only [List.getElem?_cons_zero, zero_add]
  split_ifs with h
  · rw [hr]
    exact ⟨_, rfl, ht, hn (createParameter_numeric u t)⟩
  · exact ⟨_, rfl, rfl, createParameter_numeric u t⟩

/-- Every object the factory returns has a numeric `current_`. -/
theorem create_numeric (u : Env) (args : List ParamValue) (p : ParameterObj)
    (h : Parameter.create u args = some p) : p.Numeric := by
  match args, h with
  | [], h => simp [Parameter.create] at h
  | T_Float x :: rest, h => simp [Parameter.create] at h
  | T_String t :: rest, h =>
    obtain ⟨q, hq, -, hn⟩ := create_kind u t rest
    rw [hq] at h
    cases h
    exact hn

/-- The virtual `change` keeps `current_` numeric. -/
theorem ParameterObj.change_numeric (u : Env) (o : ParameterObj) (c : FP)
    (h : o.Numeric) : (o.change u (T_Float c)).2.Numeric := by
  cases o with
  | base p =>
    exact ⟨c, by
      simp only [ParameterObj.change, ParameterObj.current, ParameterObj.toParameter,
        Parameter.change_snd]⟩
  | flt k p => exact Parameter_Float.float_change_numeric u p _ h
  | boolean p => exact Parameter_Boolean.bool_change_numeric u p _ h
  | int p => exact Parameter_Int.int_change_numeric u p _ h

theorem createParameter_table (u : Env) (k : String × ParameterType) (hk : k ∈ tagTable) :
    (createParameter u k.1).type = k.2 := by
  simp only [tagTable, List.mem_cons, List.mem_singleton, List.not_mem_nil, or_false] at hk
  rcases hk with rfl | rfl | rfl | rfl | rfl | rfl | rfl <;> rfl

/-! ## MIDI endpoints -/

/-- The `float` of an `int` is finite. -/
theorem i2f_finite (n : ℤ) (h1 : INT_MIN ≤ n) (h2 : n ≤ INT_MAX) : ∃ r, i2f n = FP.fin r := by
  have two : (1 : ℚ) < 2 := by norm_num
  by_cases h0 : (n : ℚ) = 0
  · exact ⟨0, by rw [i2f, h0, FP.round_zero]⟩
  · have hn : |(n : ℚ)| < (2 : ℚ) ^ ((31 : ℤ) + 1) := by
      rw [abs_lt]
      unfold INT_MIN at h1
      unfold INT_MAX at h2
      constructor
      · have : (-4294967296 : ℤ) < n := by omega
        have h3 : ((-4294967296 : ℤ) : ℚ) < (n : ℚ) := by exact_mod_cast this
        norm_num at h3 ⊢
        exact h3
      · have : n < (4294967296 : ℤ) := by omega
        have h3 : (n : ℚ) < ((4294967296 : ℤ) : ℚ) := by exact_mod_cast this
        norm_num at h3 ⊢
        exact h3
    obtain ⟨s1, -⟩ := ilog2_spec (n : ℚ) h0
    have he : ilog2 (n : ℚ) < 31 + 1 := (zpow_lt_zpow_iff_right₀ two).mp (lt_of_le_of_lt s1 hn)
    have hb := FP.nearest_abs_le binary32 h0
    have hE : max (ilog2 (n : ℚ)) (1 - binary32.emax) + 1 ≤ 32 := by
      have : (1 - binary32.emax) + 1 ≤ 32 := by simp [binary32]
      rcases max_cases (ilog2 (n : ℚ)) (1 - binary32.emax) with ⟨h, -⟩ | ⟨h, -⟩ <;>
        rw [h] <;> omega
    have hlt : |FP.nearest binary32 (n : ℚ)| < (2 : ℚ) ^ (binary32.emax + 1) :=
      lt_of_le_of_lt (le_trans hb ((zpow_le_zpow_iff_right₀ two).mpr hE))
        ((zpow_lt_zpow_iff_right₀ two).mpr (by simp [binary32]))
    exact ⟨_, by rw [i2f, FP.round_eq binary32 _ h0, if_neg (not_le.mpr hlt)]⟩

theorem midiFraction_zero : midiFraction 0 = FP.fin 0 := by decide!

theorem midiFraction_full : midiFraction 127 = FP.fin 1 := by decide!

theorem wrap32_of_range (n : ℤ) (h1 : INT_MIN ≤ n) (h2 : n ≤ INT_MAX) : wrap32 n = n := by
  unfold wrap32
  unfold INT_MIN at h1
  unfold INT_MAX at h2
  omega

/-! ## Rounded values belong to the format -/

/-- The significand chosen by rounding has at most `prec` bits, the bound included. -/
theorem FP.rne_quantum_le (F : FloatFormat) {q : ℚ} (hq : q ≠ 0) :
    |rne (q / (2 : ℚ) ^ FP.quantum F q)| ≤ 2 ^ F.prec := by
  have two : (1 : ℚ) < 2 := by norm_num
  have two0 : (2 : ℚ) ≠ 0 := by norm_num
  obtain ⟨-, s2⟩ := ilog2_spec q hq
  set E : ℤ := max (ilog2 q) (1 - F.emax) with hE
  have hqE : |q| < (2 : ℚ) ^ (E + 1) :=
    lt_of_lt_of_le s2 ((zpow_le_zpow_iff_right₀ two).mpr (by
      have := le_max_left (ilog2 q) (1 - F.emax)
      omega))
  have hT : FP.quantum F q = E - ((F.prec : ℤ) - 1) := rfl
  have hp : (0 : ℚ) < (2 : ℚ) ^ FP.quantum F q := zpow_pos (by norm_num) _
  have hsplit : (2 : ℚ) ^ (E + 1) = (2 : ℚ) ^ F.prec * (2 : ℚ) ^ FP.quantum F q := by
    rw [← zpow_natCast, ← zpow_add₀ two0, hT]
    congr 1
    ring
  have hs : |q / (2 : ℚ) ^ FP.quantum F q| < (2 : ℚ) ^ F.prec := by
    rw [abs_div, abs_of_pos hp, div_lt_iff₀ hp, ← hsplit]
    exact hqE
  obtain ⟨hs1, hs2⟩ := abs_lt.mp hs
  rw [abs_le]
  constructor
  · have := rne_mono hs1.le
    rwa [rne_neg_two_pow] at this
  · have := rne_mono hs2.le
    rwa [rne_two_pow] at this

/-- Rounding is idempotent: a rounded value is a value of the format. -/
theorem FP.round_idem (F : FloatFormat) (hF : 1 ≤ F.prec) {q r : ℚ}
    (h : FP.round F q = FP.fin r) : FP.round F r = FP.fin r := by
  have two0 : (2 : ℚ) ≠ 0 := by norm_num
  by_cases hq : q = 0
  · subst hq
    rw [FP.round_zero] at h
    rw [← FP.fin.inj h, FP.round_zero]
  · rw [FP.round_eq F q hq] at h
    split at h
    · split at h <;> exact absurd h (by simp)
    · rename_i hov
      have hr : FP.nearest F q = r := FP.fin.inj h
      have hov2 : |FP.nearest F q| < (2 : ℚ) ^ (F.emax + 1) := not_le.mp hov
      have hk := FP.rne_quantum_le F hq
      have ht : (1 - F.emax) - ((F.prec : ℤ) - 1) ≤ FP.quantum F q := by
        unfold FP.quantum
        have := le_max_right (ilog2 q) (1 - F.emax)
        omega
      rw [← hr]
      unfold FP.nearest at hov2 ⊢
      set k : ℤ := rne (q / (2 : ℚ) ^ FP.quantum F q) with hkdef
      set T : ℤ := FP.quantum F q with hTdef
      rcases lt_or_eq_of_le hk with hlt | heq
      · exact FP.round_scaled F k T hlt ht hov2
      · have one : |(1 : ℤ)| < 2 ^ F.prec := by
          rw [abs_one]
          exact one_lt_pow₀ (by norm_num) (by omega)
        have mone : |(-1 : ℤ)| < 2 ^ F.prec := by
          rw [abs_neg]
          exact one
        have ht2 : (1 - F.emax) - ((F.prec : ℤ) - 1) ≤ (F.prec : ℤ) + T := by omega
        rcases abs_eq (by positivity : (0 : ℤ) ≤ 2 ^ F.prec) |>.mp heq with h1 | h1
        · have e : (k : ℚ) * (2 : ℚ) ^ T = ((1 : ℤ) : ℚ) * (2 : ℚ) ^ ((F.prec : ℤ) + T) := by
            rw [h1, zpow_add₀ two0, zpow_natCast]
            push_cast
            ring
          rw [e] at hov2 ⊢
          exact FP.round_scaled F 1 _ one ht2 hov2
        · have e : (k : ℚ) * (2 : ℚ) ^ T = ((-1 : ℤ) : ℚ) * (2 : ℚ) ^ ((F.prec : ℤ) + T) := by
            rw [h1, zpow_add₀ two0, zpow_natCast]
            push_cast
            ring
          rw [e] at hov2 ⊢
          exact FP.round_scaled F (-1) _ mone ht2 hov2

theorem FP.isFloat_round (F : FloatFormat) (hF : 1 ≤ F.prec) (q : ℚ) :
    FP.IsFloat F (FP.round F q) := by
  cases h : FP.round F q with
  | fin r => exact FP.round_idem F hF h
  | _ => trivial

theorem i2f_isFloat (n : ℤ) : FP.IsFloat binary32 (i2f n) :=
  FP.isFloat_round binary32 (by decide) _

/-! ## Order -/

theorem FP.le_fin_iff (a b : ℚ) : FP.le (FP.fin a) (FP.fin b) = true ↔ a ≤ b := by
  simp [FP.le]

theorem FP.lt_fin_iff (a b : ℚ) : FP.lt (FP.fin a) (FP.fin b) = true ↔ a < b := by
  simp [FP.lt]

theorem FP.ninf_le {z : FP} (h : z ≠ FP.nan) : FP.le FP.ninf z = true := by
  cases z <;> simp_all [FP.le]

theorem FP.le_pinf {z : FP} (h : z ≠ FP.nan) : FP.le z FP.pinf = true := by
  cases z <;> simp_all [FP.le]

theorem FP.le_trans {a b c : FP} (h1 : FP.le a b = true) (h2 : FP.le b c = true) :
    FP.le a c = true := by
  cases a <;> cases b <;> cases c <;> simp_all [FP.le]
  exact h1.trans h2

theorem FP.lt_of_lt_of_le {a b c : FP} (h1 : FP.lt a b = true) (h2 : FP.le b c = true) :
    FP.lt a c = true := by
  cases a <;> cases b <;> cases c <;> simp_all [FP.le, FP.lt]
  exact h1.trans_le h2

theorem FP.not_lt_of_le_of_not_lt {a b c : FP} (h1 : FP.le a b = true)
    (h2 : FP.lt c b = false) (hc : c ≠ FP.nan) : FP.lt c a = false := by
  cases a <;> cases b <;> cases c <;> simp_all [FP.le, FP.lt]
  exact h1.trans h2

/-- A datum between two finite values is finite. -/
theorem FP.between_fin {a b : ℚ} {x : FP} (h1 : FP.le (FP.fin a) x = true)
    (h2 : FP.le x (FP.fin b) = true) : ∃ q, x = FP.fin q ∧ a ≤ q ∧ q ≤ b := by
  cases x with
  | fin q => exact ⟨q, rfl, (FP.le_fin_iff _ _).mp h1, (FP.le_fin_iff _ _).mp h2⟩
  | _ => simp_all [FP.le]

/-! ## The operations are monotone -/

theorem FP.cvt_mono (F : FloatFormat) (hF : 1 ≤ F.prec) {a b : FP}
    (h : FP.le a b = true) : FP.le (FP.cvt F a) (FP.cvt F b) = true := by
  cases a <;> cases b <;> simp_all [FP.le, FP.cvt]
  · exact FP.ninf_le (FP.round_ne_nan F _)
  · exact FP.le_pinf (FP.round_ne_nan F _)
  · exact FP.round_mono F hF h

theorem FP.div127_mono {a b : FP} (h : FP.le a b = true) :
    FP.le (FP.div127 a) (FP.div127 b) = true := by
  cases a <;> cases b <;> simp_all [FP.le, FP.div127]
  · exact FP.ninf_le (FP.round_ne_nan _ _)
  · exact FP.le_pinf (FP.round_ne_nan _ _)
  · exact FP.round_mono binary64 (by decide) (by linarith)

theorem midiFraction_mono {m n : ℤ} (h : m ≤ n) :
    FP.le (midiFraction m) (midiFraction n) = true :=
  FP.cvt_mono binary32 (by decide) (FP.div127_mono (i2f_mono h))

/-- For a MIDI value in `[0, 127]` the fraction is a finite number in `[0, 1]`. -/
theorem midiFraction_range {m : ℤ} (h0 : 0 ≤ m) (h1 : m ≤ 127) :
    ∃ q, midiFraction m = FP.fin q ∧ 0 ≤ q ∧ q ≤ 1 := by
  have a := midiFraction_mono h0
  have b := midiFraction_mono h1
  rw [midiFraction_zero] at a
  rw [midiFraction_full] at b
  exact FP.between_fin a b

theorem FP.mul_mono_left (F : FloatFormat) (hF : 1 ≤ F.prec) {a b d : ℚ} (hd : 0 ≤ d)
    (h : a ≤ b) : FP.le (FP.mul F (FP.fin a) (FP.fin d)) (FP.mul F (FP.fin b) (FP.fin d)) = true := by
  simp only [FP.mul]
  exact FP.round_mono F hF (mul_le_mul_of_nonneg_right h hd)

theorem FP.add_mono_left (F : FloatFormat) (hF : 1 ≤ F.prec) {x y : FP} (c : ℚ)
    (h : FP.le x y = true) : FP.le (FP.add F x (FP.fin c)) (FP.add F y (FP.fin c)) = true := by
  cases x <;> cases y <;> simp_all [FP.le, FP.add]
  · exact FP.ninf_le (FP.round_ne_nan F _)
  · exact FP.le_pinf (FP.round_ne_nan F _)
  · exact FP.round_mono F hF (by linarith)

theorem FP.add_mono_right (F : FloatFormat) (hF : 1 ≤ F.prec) {x y : FP} (c : ℚ)
    (h : FP.le x y = true) : FP.le (FP.add F (FP.fin c) x) (FP.add F (FP.fin c) y) = true := by
  cases x <;> cases y <;> simp_all [FP.le, FP.add]
  · exact FP.ninf_le (FP.round_ne_nan F _)
  · exact FP.le_pinf (FP.round_ne_nan F _)
  · exact FP.round_mono F hF (by linarith)

theorem FP.lt_of_le_of_lt {a b c : FP} (h1 : FP.le a b = true) (h2 : FP.lt b c = true) :
    FP.lt a c = true := by
  cases a <;> cases b <;> cases c <;> simp_all [FP.le, FP.lt]
  exact h1.trans_lt h2

theorem FP.stdMax_mono {x y a : FP} (ha : a ≠ FP.nan) (h : FP.le x y = true) :
    FP.le (FP.stdMax x a) (FP.stdMax y a) = true := by
  obtain ⟨hx, hy⟩ := FP.ne_nan_of_le h
  unfold FP.stdMax
  by_cases h1 : FP.lt x a = true
  · rw [if_pos h1]
    by_cases h2 : FP.lt y a = true
    · rw [if_pos h2]
      exact FP.le_self_of ha
    · rw [if_neg h2]
      exact FP.le_of_not_lt ha hy (by simpa using h2)
  · rw [if_neg h1]
    by_cases h2 : FP.lt y a = true
    · exact absurd (FP.lt_of_le_of_lt h h2) h1
    · rw [if_neg h2]
      exact h

theorem FP.stdMin_mono {x y a : FP} (ha : a ≠ FP.nan) (h : FP.le x y = true) :
    FP.le (FP.stdMin x a) (FP.stdMin y a) = true := by
  obtain ⟨hx, hy⟩ := FP.ne_nan_of_le h
  unfold FP.stdMin
  by_cases h1 : FP.lt a x = true
  · rw [if_pos h1, if_pos (FP.lt_of_lt_of_le h1 h)]
    exact FP.le_self_of ha
  · rw [if_neg h1]
    by_cases h2 : FP.lt a y = true
    · rw [if_pos h2]
      exact FP.le_of_not_lt hx ha (by simpa using h1)
    · rw [if_neg h2]
      exact h

theorem truncQ_mono {a b : ℚ} (h : a ≤ b) : truncQ a ≤ truncQ b := by
  unfold truncQ
  split <;> split
  · exact Int.floor_le_floor h
  · linarith
  · rename_i h1 h2
    have h3 : a < 0 := not_le.mp h1
    have : ⌈a⌉ ≤ 0 := Int.ceil_le.mpr (by exact_mod_cast h3.le)
    have : 0 ≤ ⌊b⌋ := Int.floor_nonneg.mpr h2
    omega
  · exact Int.ceil_le_ceil h

/-! ## MIDI values in order -/

/-- The candidate of `Parameter_Float::calcFloat` grows with the fraction, when the
bounds are finite and ordered and their difference is finite. -/
theorem Parameter_Float.calcFloat_mono (u : Env) (p : Parameter_Float) (a b d q1 q2 : ℚ)
    (hmin : p.min_ = FP.fin a) (hmax : p.max_ = FP.fin b) (hab : a ≤ b)
    (hd : FP.sub binary32 (FP.fin b) (FP.fin a) = FP.fin d) (h : q1 ≤ q2) :
    FP.le ((p.calcFloat (FP.fin q1)).floatValue u)
      ((p.calcFloat (FP.fin q2)).floatValue u) = true := by
  have hd0 : 0 ≤ d := by
    have h0 := FP.round_mono binary32 (by decide) (show (0 : ℚ) ≤ b + -a by linarith)
    have e : FP.round binary32 (b + -a) = FP.fin d := hd
    rw [FP.round_zero, e] at h0
    exact (FP.le_fin_iff _ _).mp h0
  simp only [Parameter_Float.calcFloat, ParamValue.floatValue, hmin, hmax, hd]
  exact FP.stdMin_mono (by simp) (FP.stdMax_mono (by simp)
    (FP.add_mono_left _ (by decide) _ (FP.mul_mono_left _ (by decide) hd0 h)))

theorem i2f_zero : i2f 0 = FP.fin 0 := by
  simp [i2f, FP.round_zero]

/-- The candidate of `Parameter_Int::calcMidi` grows with the MIDI value, when
`max_ - min_` does not overflow and the value mapped at 127 converts to `int`. -/
theorem Parameter_Int.calcMidi_mono (u : Env) (p : Parameter_Int) (m1 m2 : ℤ)
    (h0 : 0 ≤ m1) (h12 : m1 ≤ m2) (h127 : m2 ≤ 127)
    (hle : p.min_ ≤ p.max_) (h1 : INT_MIN ≤ p.min_) (h2 : p.max_ ≤ INT_MAX)
    (h3 : p.max_ - p.min_ ≤ INT_MAX)
    (htop : IntConvertible (FP.add binary32
      (FP.mul binary32 (FP.fin 1) (i2f (p.max_ - p.min_))) (i2f p.min_))) :
    FP.le ((p.calcMidi u m1).floatValue u) ((p.calcMidi u m2).floatValue u) = true := by
  obtain ⟨q1, e1, a1, b1⟩ := midiFraction_range h0 (h12.trans h127)
  obtain ⟨q2, e2, a2, b2⟩ := midiFraction_range (h0.trans h12) h127
  have hq : q1 ≤ q2 := by
    have := midiFraction_mono h12
    rw [e1, e2] at this
    exact (FP.le_fin_iff _ _).mp this
  have hw : wrap32 (p.max_ - p.min_) = p.max_ - p.min_ :=
    wrap32_of_range _ (by unfold INT_MIN; omega) h3
  obtain ⟨dq, hdq⟩ := i2f_finite (p.max_ - p.min_) (by unfold INT_MIN; omega) h3
  obtain ⟨mq, hmq⟩ := i2f_finite p.min_ h1 (hle.trans h2)
  have hd0 : 0 ≤ dq := by
    have := i2f_mono (show (0 : ℤ) ≤ p.max_ - p.min_ by omega)
    rw [hdq, i2f_zero] at this
    exact (FP.le_fin_iff _ _).mp this
  have hmlow : ((INT_MIN : ℤ) : ℚ) ≤ mq := by
    have := i2f_mono h1
    have z : i2f INT_MIN = FP.fin ((INT_MIN : ℤ) : ℚ) := by decide!
    rw [hmq, z] at this
    exact (FP.le_fin_iff _ _).mp this
  have ymono : ∀ {x y : ℚ}, x ≤ y →
      FP.le (FP.add binary32 (FP.mul binary32 (FP.fin x) (FP.fin dq)) (FP.fin mq))
        (FP.add binary32 (FP.mul binary32 (FP.fin y) (FP.fin dq)) (FP.fin mq)) = true :=
    fun h => FP.add_mono_left _ (by decide) _ (FP.mul_mono_left _ (by decide) hd0 h)
  have y0 : FP.add binary32 (FP.mul binary32 (FP.fin 0) (FP.fin dq)) (FP.fin mq) =
      FP.fin mq := by
    simp only [FP.mul, zero_mul, FP.round_zero, FP.add, zero_add]
    exact FP.round_idem binary32 (by decide) hmq
  rw [hdq, hmq] at htop
  obtain ⟨tq, htq⟩ := IntConvertible.finite htop
  rw [htq] at htop
  have conv : ∀ q : ℚ, 0 ≤ q → q ≤ 1 → ∃ r,
      FP.add binary32 (FP.mul binary32 (FP.fin q) (FP.fin dq)) (FP.fin mq) = FP.fin r ∧
        IntConvertible (FP.fin r) := by
    intro q hq0 hq1
    have l := ymono hq0
    have r := ymono hq1
    rw [y0] at l
    rw [htq] at r
    obtain ⟨r', hr', lo, hi⟩ := FP.between_fin l r
    refine ⟨r', hr', ?_, ?_⟩
    · have := truncQ_mono (hmlow.trans lo)
      rwa [truncQ_intCast] at this
    · exact (truncQ_mono hi).trans htop.2
  obtain ⟨r1, hr1, c1⟩ := conv q1 a1 b1
  obtain ⟨r2, hr2, c2⟩ := conv q2 a2 b2
  have hr : r1 ≤ r2 := by
    have := ymono hq
    rw [hr1, hr2] at this
    exact (FP.le_fin_iff _ _).mp this
  simp only [Parameter_Int.calcMidi, ParamValue.floatValue, e1, e2, hw, hdq, hmq, hr1, hr2,
    f2i_convertible u _ c1, f2i_convertible u _ c2, imax_eq, imin_eq]
  exact i2f_mono (min_le_min (max_le_max (truncQ_mono hr) le_rfl) le_rfl)

/-! ## The threshold of the Boolean nudge -/

/-- A `float` with exponent `e` in the normal range is a multiple of `2 ^ (e - 23)`. -/
theorem FP.isFloat_grid (q : ℚ) (h : FP.IsFloat binary32 (FP.fin q)) (e : ℤ)
    (h1 : (2 : ℚ) ^ e ≤ |q|) (h2 : |q| < (2 : ℚ) ^ (e + 1)) (he : -126 ≤ e) :
    ∃ k : ℤ, q = (k : ℚ) * (2 : ℚ) ^ (e - 23) := by
  have hq : q ≠ 0 := by
    intro h0
    rw [h0, abs_zero] at h1
    exact absurd h1 (not_le.mpr (zpow_pos (by norm_num) e))
  have hl : ilog2 q = e := ilog2_unique q e h1 h2
  have h' : FP.round binary32 q = FP.fin q := h
  rw [FP.round_eq binary32 q hq] at h'
  split at h'
  · split at h' <;> exact absurd h' (by simp)
  · have hn : FP.nearest binary32 q = q := FP.fin.inj h'
    have hT : FP.quantum binary32 q = e - 23 := by
      unfold FP.quantum
      rw [hl]
      simp only [binary32]
      rw [max_eq_left (by omega)]
      norm_num
    unfold FP.nearest at hn
    rw [hT] at hn
    exact ⟨_, hn.symm⟩

theorem epsilon_eq : epsilon = FP.fin (7378697629483821 / 73786976294838206464) := by
  decide!

/-- No `float` lies strictly between the two `float`s next to 0.0001, on either side of
zero. -/
theorem float_gap (q : ℚ) (h : FP.IsFloat binary32 (FP.fin q)) :
    (q ≤ 13743895 / 137438953472 ∨ 13743896 / 137438953472 ≤ q) ∧
      (q ≤ -(13743896 / 137438953472) ∨ -(13743895 / 137438953472) ≤ q) := by
  have p14 : (2 : ℚ) ^ (-14 : ℤ) = 1 / 16384 := by
    rw [zpow_neg]
    norm_num
  have p13 : (2 : ℚ) ^ ((-14 : ℤ) + 1) = 1 / 8192 := by
    rw [show ((-14 : ℤ) + 1) = -13 by norm_num, zpow_neg]
    norm_num
  have p37 : (2 : ℚ) ^ ((-14 : ℤ) - 23) = 1 / 137438953472 := by
    rw [show ((-14 : ℤ) - 23) = -37 by norm_num, zpow_neg]
    norm_num
  rcases lt_or_le |q| ((2 : ℚ) ^ (-14 : ℤ)) with hs | h1
  · rw [p14] at hs
    obtain ⟨a, b⟩ := abs_lt.mp hs
    exact ⟨Or.inl (by linarith), Or.inr (by linarith)⟩
  · rcases le_or_lt ((2 : ℚ) ^ ((-14 : ℤ) + 1)) |q| with hb | h2
    · rw [p13] at hb
      rcases le_abs.mp hb with hp | hn
      · exact ⟨Or.inr (by linarith), Or.inr (by linarith)⟩
      · exact ⟨Or.inl (by linarith), Or.inl (by linarith)⟩
    · obtain ⟨k, hk⟩ := FP.isFloat_grid q h (-14) h1 h2 (by norm_num)
      rw [p37] at hk
      constructor
      · rcases le_or_lt k 13743895 with hc | hc
        · have : (k : ℚ) ≤ 13743895 := by exact_mod_cast hc
          exact Or.inl (by rw [hk]; linarith)
        · have : (13743896 : ℚ) ≤ k := by exact_mod_cast hc
          exact Or.inr (by rw [hk]; linarith)
      · rcases le_or_lt k (-13743896) with hc | hc
        · have : (k : ℚ) ≤ -13743896 := by exact_mod_cast hc
          exact Or.inl (by rw [hk]; linarith)
        · have : (-13743895 : ℚ) ≤ k := by exact_mod_cast hc
          exact Or.inr (by rw [hk]; linarith)

/-- On `float`s, comparing with the `double` literal 0.0001 is comparing with the decimal
number 0.0001. -/
theorem lt_epsilon (d : FP) (hd : FP.IsFloat binary32 d) :
    FP.lt epsilon d = FP.lt (FP.fin (1 / 10000)) d := by
  rw [epsilon_eq]
  cases d with
  | fin q =>
    obtain ⟨g, -⟩ := float_gap q hd
    simp only [FP.lt]
    apply decide_eq_decide.mpr
    constructor <;> intro hlt <;> rcases g with g | g <;> linarith
  | _ => rfl

theorem lt_neg_epsilon (d : FP) (hd : FP.IsFloat binary32 d) :
    FP.lt d (FP.neg epsilon) = FP.lt d (FP.fin (-(1 / 10000))) := by
  rw [epsilon_eq]
  cases d with
  | fin q =>
    obtain ⟨-, g⟩ := float_gap q hd
    simp only [FP.lt, FP.neg]
    apply decide_eq_decide.mpr
    constructor <;> intro hlt <;> rcases g with g | g <;> linarith
  | _ => rfl

theorem FP.le_eq_not_lt {a b : FP} (ha : a ≠ FP.nan) (hb : b ≠ FP.nan) :
    FP.le a b = !FP.lt b a := by
  cases a <;> cases b <;> simp_all [FP.le, FP.lt]
  rw [← decide_not]
  exact decide_eq_decide.mpr not_lt.symm

/-! ## The Boolean value -/

theorem Parameter_Boolean.bool_change_zero_one (u : Env) (p : Parameter_Boolean)
    (c : ParamValue) (h : ∃ f, p.current_ = T_Float f) :
    (p.change u c).2.current_.ZeroOrOne := by
  rw [Parameter_Boolean.bool_change_snd u p c h]
  unfold ParamValue.ZeroOrOne
  simp only
  split
  · exact Or.inr rfl
  · exact Or.inl rfl

theorem ParamValue.ZeroOrOne.numeric {v : ParamValue} (h : v.ZeroOrOne) :
    ∃ f, v = T_Float f := by
  rcases h with h | h <;> exact ⟨_, h⟩

/-- `Parameter_Boolean::init` returns, with `current_` exactly 0.0 or 1.0 if it was. -/
theorem Parameter_Boolean.bool_init_zero_one (u : Env) (args : List ParamValue)
    (s : Parameter_Boolean × ℕ) (h : s.1.current_.ZeroOrOne) :
    ∃ r, Parameter_Boolean.init u args s = Outcome.returned r ∧ r.1.current_.ZeroOrOne := by
  obtain ⟨r, hr, -, hc⟩ := Parameter.init_returned args (s.1.toParameter, s.2)
  unfold Parameter_Boolean.init throwError_
  rw [hr]
  simp only [Outcome.map]
  refine Outcome.andThen_returned (P := fun r => r.1.current_ = s.1.current_) _ _
    ⟨_, rfl, hc⟩ ?_
  intro r hr
  split
  · refine ⟨_, rfl, ?_⟩
    exact Parameter_Boolean.bool_change_zero_one u _ _ (by
      obtain ⟨f, hf⟩ := h.numeric
      exact ⟨f, by rw [← hf, ← hr]⟩)
  · exact ⟨_, rfl, by rw [hr]; exact h⟩

/-- A growing map of the MIDI value that passes one half between 63 and 64 passes it
exactly there. -/
theorem half_threshold (g : ℤ → FP) (mono : ∀ a b : ℤ, a ≤ b → FP.le (g a) (g b) = true)
    (h64 : FP.lt (FP.fin (1 / 2)) (g 64) = true)
    (h63 : FP.lt (FP.fin (1 / 2)) (g 63) = false) (m : ℤ) :
    FP.lt (FP.fin (1 / 2)) (g m) = decide (63 < m) := by
  by_cases h : 63 < m
  · rw [decide_eq_true h]
    exact FP.lt_of_lt_of_le h64 (mono 64 m (by omega))
  · rw [decide_eq_false h]
    exact FP.not_lt_of_le_of_not_lt (mono m 63 (by omega)) h63 (by simp)

/-! ## Truncation and clamping of Int candidates -/

theorem Parameter_Int.calcFloat_eq (u : Env) (p : Parameter_Int) (f : FP) :
    p.calcFloat u f = T_Float (i2f (imin (imax (f2i u (p.mapFloat f)) p.min_) p.max_)) :=
  rfl

theorem Parameter_Int.calcMidi_eq (u : Env) (p : Parameter_Int) (m : ℤ) :
    p.calcMidi u m =
      T_Float (i2f (imin (imax (f2i u (p.mapFloat (midiFraction m))) p.min_) p.max_)) :=
  rfl

theorem Parameter_Int.calcRelative_eq (u : Env) (p : Parameter_Int) (f : FP) :
    p.calcRelative u f =
      T_Float (i2f (imin (imax (f2i u (p.mapRelative u f)) p.min_) p.max_)) :=
  rfl

theorem truncQ_monotone : Monotone truncQ := fun _ _ h => truncQ_mono h

/-- Truncation commutes with clamping between integer bounds. -/
theorem clamp_truncate_comm (lo hi : ℤ) (y : ℚ) :
    codeTruncateThenClamp lo hi y = specClampThenTruncate lo hi y := by
  unfold codeTruncateThenClamp specClampThenTruncate
  rw [imax_eq, imin_eq, truncQ_monotone.map_min, truncQ_monotone.map_max, truncQ_intCast,
    truncQ_intCast]

theorem truncQ_floor {y : ℚ} (h : 0 ≤ y) : truncQ y = ⌊y⌋ := by
  unfold truncQ
  rw [if_pos h]

theorem truncQ_ceil {y : ℚ} (h : y < 0) : truncQ y = ⌈y⌉ := by
  unfold truncQ
  rw [if_neg (not_le.mpr h)]

/-! ## Candidates and the update -/

/-- The `float` of an `int` is a whole number. -/
theorem i2f_whole (n : ℤ) {r : ℚ} (h : i2f n = FP.fin r) :
    ∃ k : ℤ, r = (k : ℚ) := by
  have two : (1 : ℚ) < 2 := by norm_num
  unfold i2f at h
  by_cases hs : |n| < 2 ^ 24
  · rw [FP.round_int n hs] at h
    exact ⟨n, (FP.fin.inj h).symm⟩
  · have hbig : (2 : ℚ) ^ (24 : ℤ) ≤ |(n : ℚ)| := by
      have h1 : (2 : ℤ) ^ 24 ≤ |n| := not_lt.mp hs
      have h2 : (((2 : ℤ) ^ 24 : ℤ) : ℚ) ≤ ((|n| : ℤ) : ℚ) := by exact_mod_cast h1
      rw [Int.cast_abs] at h2
      refine le_trans ?_ h2
      norm_num
    have hq : (n : ℚ) ≠ 0 := by
      intro h0
      rw [h0, abs_zero] at hbig
      exact absurd hbig (not_le.mpr (zpow_pos (by norm_num) _))
    obtain ⟨-, s2⟩ := ilog2_spec (n : ℚ) hq
    have he : (24 : ℤ) < ilog2 (n : ℚ) + 1 :=
      (zpow_lt_zpow_iff_right₀ two).mp (lt_of_le_of_lt hbig s2)
    rw [FP.round_eq binary32 _ hq] at h
    split at h
    · split at h <;> exact absurd h (by simp)
    · have hn : FP.nearest binary32 (n : ℚ) = r := FP.fin.inj h
      have hT : 0 ≤ FP.quantum binary32 (n : ℚ) := by
        unfold FP.quantum
        have := le_max_left (ilog2 (n : ℚ)) (1 - binary32.emax)
        simp only [binary32] at this ⊢
        push_cast
        omega
      obtain ⟨t, ht⟩ : ∃ t : ℕ, FP.quantum binary32 (n : ℚ) = t :=
        ⟨(FP.quantum binary32 (n : ℚ)).toNat, by omega⟩
      unfold FP.nearest at hn
      rw [ht, zpow_natCast] at hn
      exact ⟨rne ((n : ℚ) / 2 ^ t) * 2 ^ t, by rw [← hn]; push_cast; ring⟩

theorem FP.add_ne_nan_left (F : FloatFormat) {x : FP} (a : ℚ) (hx : x ≠ FP.nan) :
    FP.add F x (FP.fin a) ≠ FP.nan := by
  cases x <;> simp_all [FP.add]
  exact FP.round_ne_nan F _

theorem FP.add_ne_nan_right (F : FloatFormat) {x : FP} (a : ℚ) (hx : x ≠ FP.nan) :
    FP.add F (FP.fin a) x ≠ FP.nan := by
  cases x <;> simp_all [FP.add]
  exact FP.round_ne_nan F _

/-- A clamped number lies between ordered finite bounds, and `change` stores it as it
is. -/
theorem Parameter_Float.float_candidate_fixed (u : Env) (p : Parameter_Float) (a b : ℚ)
    (hmin : p.min_ = FP.fin a) (hmax : p.max_ = FP.fin b) (hab : a ≤ b)
    (hcur : ∃ f, p.current_ = T_Float f) (y : FP) (hy : y ≠ FP.nan) :
    FP.le p.min_ (FP.stdMin (FP.stdMax y p.min_) p.max_) = true ∧
      FP.le (FP.stdMin (FP.stdMax y p.min_) p.max_) p.max_ = true ∧
      (p.change u (T_Float (FP.stdMin (FP.stdMax y p.min_) p.max_))).2.current_ =
        T_Float (FP.stdMin (FP.stdMax y p.min_) p.max_) := by
  have hle : FP.le p.min_ p.max_ = true := by
    rw [hmin, hmax]
    exact (FP.le_fin_iff _ _).mpr hab
  obtain ⟨h1, h2⟩ := FP.clamp_mem hle hy
  refine ⟨h1, h2, ?_⟩
  rw [Parameter_Float.float_change_snd u p _ hcur]
  simp only [ParamValue.floatValue]
  rw [FP.clamp_of_le h1 h2]

/-- The `float` of a clamped `int` is a whole number between the bounds, when these are
`float`s, and `change` stores it as it is. -/
theorem Parameter_Int.int_candidate_fixed (u : Env) (p : Parameter_Int)
    (hle : p.min_ ≤ p.max_) (h1 : INT_MIN ≤ p.min_) (h2 : p.max_ ≤ INT_MAX)
    (hfa : FP.IsFloat binary32 (FP.fin p.min_)) (hfb : FP.IsFloat binary32 (FP.fin p.max_))
    (hcur : ∃ f, p.current_ = T_Float f) (v0 : ℤ) :
    ∃ n : ℤ, i2f (imin (imax v0 p.min_) p.max_) = FP.fin n ∧ p.min_ ≤ n ∧ n ≤ p.max_ ∧
      (p.change u (T_Float (i2f (imin (imax v0 p.min_) p.max_)))).2.current_ =
        T_Float (i2f (imin (imax v0 p.min_) p.max_)) := by
  rw [imax_eq, imin_eq]
  set v : ℤ := min (max v0 p.min_) p.max_ with hv
  have hv1 : p.min_ ≤ v := le_min (le_max_right _ _) hle
  have hv2 : v ≤ p.max_ := min_le_right _ _
  obtain ⟨r, hr⟩ := i2f_finite v (h1.trans hv1) (hv2.trans h2)
  obtain ⟨n, hn⟩ := i2f_whole v hr
  subst hn
  have ea : i2f p.min_ = FP.fin p.min_ := hfa
  have eb : i2f p.max_ = FP.fin p.max_ := hfb
  have l1 := i2f_mono hv1
  have l2 := i2f_mono hv2
  rw [hr, ea] at l1
  rw [hr, eb] at l2
  have n1 : p.min_ ≤ n := by exact_mod_cast (FP.le_fin_iff _ _).mp l1
  have n2 : n ≤ p.max_ := by exact_mod_cast (FP.le_fin_iff _ _).mp l2
  refine ⟨n, hr, n1, n2, ?_⟩
  rw [Parameter_Int.int_change_snd u p _ hcur]
  simp only [ParamValue.floatValue]
  rw [hr, f2i_intCast u n (h1.trans n1) (n2.trans h2), imax_eq, imin_eq, max_eq_left n1,
    min_eq_left n2]
  exact congrArg T_Float (FP.round_idem binary32 (by decide) hr)

/-- The MIDI fraction of an `int` is finite. -/
theorem midiFraction_finite (m : ℤ) (h1 : INT_MIN ≤ m) (h2 : m ≤ INT_MAX) :
    ∃ q, midiFraction m = FP.fin q := by
  have lo : FP.le (FP.fin (-2147483648)) (midiFraction INT_MIN) = true := by decide!
  have hi : FP.le (midiFraction INT_MAX) (FP.fin 2147483648) = true := by decide!
  obtain ⟨q, hq, -, -⟩ := FP.between_fin (FP.le_trans lo (midiFraction_mono h1))
    (FP.le_trans (midiFraction_mono h2) hi)
  exact ⟨q, hq⟩

/-! ## The properties -/

/-- C1: round trip of the definition. For every object `p` that `Parameter::create`
builds from a well-formed list (the numbers of an `int` list being `float`s in the range
of `int`, where C++ defines the conversion that `init` performs), and whatever value `c`
its `current_` holds at run time, `create(p.createArgs())` succeeds with an object `q`
of the same kind, id and display name and the same `min`, `max` and default. -/
theorem round_trip_definition (u u' : Env) (args : List ParamValue) (p : ParameterObj)
    (c : ParamValue) (hwf : WellFormed args) (hnum : IntListOk args)
    (hp : Parameter.create u args = some p) :
    ∃ q, Parameter.create u' ((p.withCurrent c).createArgs []) = some q ∧
      q.type = p.type ∧ q.id = p.id ∧ q.displayName = p.displayName ∧
      q.bounds = p.bounds := by
  refine ⟨p, ?_, rfl, rfl, rfl, rfl⟩
  cases hwf with
  | flt k i n a b d =>
    rw [create_flt] at hp
    cases hp
    simp only [ParameterObj.withCurrent]
    rw [createArgs_flt, create_flt]
  | int i n a b d =>
    have h := hnum rfl
    have ha := h a (by simp)
    have hb := h b (by simp)
    have hd := h d (by simp)
    obtain ⟨qa, rfl⟩ := IntConvertible.finite ha.2
    obtain ⟨qb, rfl⟩ := IntConvertible.finite hb.2
    obtain ⟨qd, rfl⟩ := IntConvertible.finite hd.2
    rw [create_int_ok u i n qa qb qd ha hb hd] at hp
    cases hp
    simp only [ParameterObj.withCurrent]
    rw [createArgs_int]
    unfold i2f
    rw [FP.isFloat_truncQ qa ha.1, FP.isFloat_truncQ qb hb.1, FP.isFloat_truncQ qd hd.1]
    rw [create_int_ok u' i n]
    · simp only [truncQ_intCast]
    · exact ⟨FP.isFloat_truncQ qa ha.1, by simpa [IntConvertible, truncQ_intCast] using ha.2⟩
    · exact ⟨FP.isFloat_truncQ qb hb.1, by simpa [IntConvertible, truncQ_intCast] using hb.2⟩
    · exact ⟨FP.isFloat_truncQ qd hd.1, by simpa [IntConvertible, truncQ_intCast] using hd.2⟩
  | bool i n d =>
    rw [create_bool] at hp
    cases hp
    simp only [ParameterObj.withCurrent]
    rw [createArgs_bool, create_bool, b2f_gt_half]

/-- C1, witness: the `int` parameter built from `["int", "steps", "Steps", 0, 10, 5.5]`,
taken when its current value has become 9, is rebuilt from its own serialisation with
the same kind, id, display name and bounds. -/
theorem round_trip_definition_witness :
    ∃ q, Parameter.create Env.sample
        ((ParameterObj.withCurrent (T_Float (FP.fin 9))
          (ParameterObj.int
            { id_ := "steps", displayName_ := "Steps", type_ := PT_Int,
              current_ := T_Float (FP.fin 5), min_ := 0, max_ := 10, def_ := 5 })).createArgs
          []) = some q ∧
      q.type = PT_Int ∧ q.id = "steps" ∧ q.displayName = "Steps" ∧
      q.bounds = Bounds.ofInt 0 10 5 :=
  round_trip_definition Env.sample Env.sample
    [T_String PTS_Int, T_String "steps", T_String "Steps", T_Float (FP.fin 0),
      T_Float (FP.fin 10), T_Float (FP.fin (11 / 2))]
    _ (T_Float (FP.fin 9))
    (WellFormed.int "steps" "Steps" (FP.fin 0) (FP.fin 10) (FP.fin (11 / 2)))
    (by
      intro _ x hx
      simp at hx
      rcases hx with rfl | rfl | rfl <;> exact ⟨by decide!, by decide!⟩)
    (by decide!)

/-- C2, counterexample: the well-formed list `["int", "n", "N", 0, 10, 5.5]` has
`min ≤ default ≤ max`, so the claim promises `current == default == 5.5`, the clamp
`min(max(5.5, 0), 10)`; on every platform `create` seeds `current` with 5. -/
theorem seed_current_int_counterexample :
    (∀ u : Env, ∃ p,
      Parameter.create u
        [T_String "int", T_String "n", T_String "N", T_Float (FP.fin 0), T_Float (FP.fin 10),
          T_Float (FP.fin (11 / 2))] = some p ∧
      p.type = PT_Int ∧ p.current = T_Float (FP.fin 5)) ∧
    FP.le (FP.fin 0) (FP.fin (11 / 2)) = true ∧
    FP.le (FP.fin (11 / 2)) (FP.fin 10) = true ∧
    FP.stdMin (FP.stdMax (FP.fin (11 / 2)) (FP.fin 0)) (FP.fin 10) = FP.fin (11 / 2) ∧
    T_Float (FP.fin 5) ≠ T_Float (FP.fin (11 / 2)) := by
  refine ⟨fun u => ⟨_, create_int_ok u "n" "N" 0 10 (11 / 2) ⟨by decide!, by decide!⟩
    ⟨by decide!, by decide!⟩ ⟨by decide!, by decide!⟩, rfl, ?_⟩, by decide!, by decide!,
    by decide!, by decide!⟩
  simp only [ParameterObj.current, ParameterObj.toParameter]
  decide!

/-- C2 (amended): seeding of `current` at construction. For every well-formed list
`[tag, id, displayName, min, max, default]`, ordered or not:
* with a tag of the Float family (float, pct, freq, time, pitch), `create` returns a
  parameter of the kind of the tag, never Invalid, and `current` is
  `std::min(std::max(default, min), max)`; for finite numbers this is the clamp
  `min (max default min) max`, and it is `default` whenever `min ≤ default ≤ max`;
* with the tag int and `float`s in the range of `int`, the three numbers are truncated
  toward zero and `current` is `min (max (trunc default) (trunc min)) (trunc max)`,
  which is `trunc default` whenever `trunc min ≤ trunc default ≤ trunc max`;
* for a bool list, `current` is 1.0 when `default > 0.5` and else 0.0, so it is
  `default` when that is 1.0 or 0.0. -/
theorem seed_current (u : Env) (i n : String) :
    (∀ (k : FloatClass) (a b d : FP), ∃ p,
      Parameter.create u
        [T_String k.tag, T_String i, T_String n, T_Float a, T_Float b, T_Float d] = some p ∧
      p.type = k.type ∧ p.type ≠ PT_Invalid ∧
      p.current = T_Float (FP.stdMin (FP.stdMax d a) b) ∧
      (FP.le a d = true → FP.le d b = true → p.current = T_Float d)) ∧
    (∀ (k : FloatClass) (a b d : ℚ), ∃ p,
      Parameter.create u
        [T_String k.tag, T_String i, T_String n, T_Float (FP.fin a), T_Float (FP.fin b),
          T_Float (FP.fin d)] = some p ∧
      p.current = T_Float (FP.fin (min (max d a) b))) ∧
    (∀ (a b d : ℚ),
      FP.IsFloat binary32 (FP.fin a) ∧ IntConvertible (FP.fin a) →
      FP.IsFloat binary32 (FP.fin b) ∧ IntConvertible (FP.fin b) →
      FP.IsFloat binary32 (FP.fin d) ∧ IntConvertible (FP.fin d) →
      ∃ p,
        Parameter.create u
          [T_String PTS_Int, T_String i, T_String n, T_Float (FP.fin a), T_Float (FP.fin b),
            T_Float (FP.fin d)] = some p ∧
        p.type = PT_Int ∧
        p.bounds = Bounds.ofInt (truncQ a) (truncQ b) (truncQ d) ∧
        p.current = T_Float (FP.fin ((min (max (truncQ d) (truncQ a)) (truncQ b) : ℤ) : ℚ)) ∧
        (truncQ a ≤ truncQ d → truncQ d ≤ truncQ b →
          p.current = T_Float (FP.fin ((truncQ d : ℤ) : ℚ)))) ∧
    (∀ d : FP, ∃ p,
      Parameter.create u [T_String PTS_Boolean, T_String i, T_String n, T_Float d] = some p ∧
      p.type = PT_Boolean ∧
      p.current = T_Float (if FP.lt (FP.fin (1 / 2)) d then FP.fin 1 else FP.fin 0) ∧
      (d = FP.fin 0 ∨ d = FP.fin 1 → p.current = T_Float d)) := by
  refine ⟨?_, ?_, ?_, ?_⟩
  · intro k a b d
    refine ⟨_, create_flt u k i n a b d, rfl, ?_, rfl, ?_⟩
    · cases k <;> simp [ParameterObj.type, ParameterObj.toParameter, FloatClass.type]
    · intro h1 h2
      simp only [ParameterObj.current, ParameterObj.toParameter]
      rw [FP.clamp_of_le h1 h2]
  · intro k a b d
    refine ⟨_, create_flt u k i n _ _ _, ?_⟩
    simp only [ParameterObj.current, ParameterObj.toParameter]
    rw [FP.stdMax_fin, FP.stdMin_fin]
  · intro a b d ha hb hd
    refine ⟨_, create_int_ok u i n a b d ha hb hd, rfl, rfl, ?_, ?_⟩
    · simp only [ParameterObj.current, ParameterObj.toParameter]
      rw [imax_eq, imin_eq]
    · intro h1 h2
      simp only [ParameterObj.current, ParameterObj.toParameter]
      rw [imax_eq, imin_eq, max_eq_left h1, min_eq_left h2]
  · intro d
    refine ⟨_, create_bool u i n d, rfl, ?_, ?_⟩
    · simp only [ParameterObj.current, ParameterObj.toParameter, b2f]
    · intro h
      simp only [ParameterObj.current, ParameterObj.toParameter, b2f]
      rcases h with rfl | rfl
      · simp [FP.lt]
      · norm_num [FP.lt]

/-- C2, witness: the out-of-order list `["float", "a", "A", 10, 0, 5]` is not rejected
and `current` is seeded with 0; `["int", "n", "N", 0, 10, 5.5]` seeds 5; a bool list
with default 1 seeds 1. -/
theorem seed_current_witness :
    (∃ p, Parameter.create Env.sample
        [T_String "float", T_String "a", T_String "A", T_Float (FP.fin 10),
          T_Float (FP.fin 0), T_Float (FP.fin 5)] = some p ∧
      p.type = PT_Float ∧ p.current = T_Float (FP.fin 0)) ∧
    (∃ p, Parameter.create Env.sample
        [T_String "int", T_String "a", T_String "A", T_Float (FP.fin 0),
          T_Float (FP.fin 10), T_Float (FP.fin (11 / 2))] = some p ∧
      p.type = PT_Int ∧ p.current = T_Float (FP.fin 5)) ∧
    (∃ p, Parameter.create Env.sample
        [T_String "bool", T_String "a", T_String "A", T_Float (FP.fin 1)] = some p ∧
      p.type = PT_Boolean ∧ p.current = T_Float (FP.fin 1)) := by
  obtain ⟨h1, -, h3, h4⟩ := seed_current Env.sample "a" "A"
  refine ⟨?_, ?_, ?_⟩
  · obtain ⟨p, hp, ht, -, hc, -⟩ := h1 FloatClass.Float (FP.fin 10) (FP.fin 0) (FP.fin 5)
    exact ⟨p, hp, ht, hc.trans (by decide!)⟩
  · obtain ⟨p, hp, ht, -, hc, -⟩ := h3 0 10 (11 / 2) ⟨by decide!, by decide!⟩
      ⟨by decide!, by decide!⟩ ⟨by decide!, by decide!⟩
    exact ⟨p, hp, ht, hc.trans (by decide!)⟩
  · obtain ⟨p, hp, ht, -, hc⟩ := h4 (FP.fin 1)
    exact ⟨p, hp, ht, hc (Or.inr rfl)⟩

/-- C3, counterexample: `["int", "n", "N", 0, 10000000000, 0]` is a well-formed `int`
list of whole numbers, and on no platform does `createArgs` on `create(args)` return
it: no `int` holds ten thousand million. -/
theorem createArgs_mirrors_init_counterexample :
    WellFormed
      [T_String PTS_Int, T_String "n", T_String "N", T_Float (FP.fin 0),
        T_Float (FP.fin 10000000000), T_Float (FP.fin 0)] ∧
    FP.IsFloat binary32 (FP.fin 10000000000) ∧
    ¬ ∃ (u : Env) (p : ParameterObj),
      Parameter.create u
        [T_String PTS_Int, T_String "n", T_String "N", T_Float (FP.fin 0),
          T_Float (FP.fin 10000000000), T_Float (FP.fin 0)] = some p ∧
      p.createArgs [] =
        [T_String PTS_Int, T_String "n", T_String "N", T_Float (FP.fin 0),
          T_Float (FP.fin 10000000000), T_Float (FP.fin 0)] := by
  refine ⟨WellFormed.int _ _ _ _ _, by decide!, ?_⟩
  rintro ⟨u, p, hp, hargs⟩
  rw [create_int] at hp
  cases hp
  rw [createArgs_int] at hargs
  simp only [List.cons.injEq, ParamValue.T_Float.injEq, true_and, and_true] at hargs
  exact i2f_ne_big _ (f2i_range u _).1 (f2i_range u _).2 hargs.2.1

/-- C3 (amended): `createArgs` mirrors the consumption order of `init`. For every
well-formed list `args = [tag, id, displayName, min, max, default]` with a tag of the
Float family and any numbers, for the tag int with whole numbers within the range of
`int` (from -2147483648 to 2147483647), and for `args = ["bool", id, displayName, d]`
with `d` either 0.0 or 1.0, `createArgs` on `create(args)` with an empty output
sequence yields exactly `args`. -/
theorem createArgs_mirrors_init (u : Env) (i n : String) :
    (∀ (k : FloatClass) (a b d : FP), ∃ p,
      Parameter.create u
        [T_String k.tag, T_String i, T_String n, T_Float a, T_Float b, T_Float d] = some p ∧
      p.createArgs [] =
        [T_String k.tag, T_String i, T_String n, T_Float a, T_Float b, T_Float d]) ∧
    (∀ (a b d : ℤ),
      FP.IsFloat binary32 (FP.fin a) → FP.IsFloat binary32 (FP.fin b) →
      FP.IsFloat binary32 (FP.fin d) →
      INT_MIN ≤ a ∧ a ≤ INT_MAX → INT_MIN ≤ b ∧ b ≤ INT_MAX → INT_MIN ≤ d ∧ d ≤ INT_MAX →
      ∃ p,
        Parameter.create u
          [T_String "int", T_String i, T_String n, T_Float (FP.fin a), T_Float (FP.fin b),
            T_Float (FP.fin d)] = some p ∧
        p.createArgs [] =
          [T_String "int", T_String i, T_String n, T_Float (FP.fin a), T_Float (FP.fin b),
            T_Float (FP.fin d)]) ∧
    (∀ d : FP, d = FP.fin 0 ∨ d = FP.fin 1 → ∃ p,
      Parameter.create u [T_String "bool", T_String i, T_String n, T_Float d] = some p ∧
      p.createArgs [] = [T_String "bool", T_String i, T_String n, T_Float d]) := by
  refine ⟨?_, ?_, ?_⟩
  · intro k a b d
    exact ⟨_, create_flt u k i n a b d, createArgs_flt k i n _ a b d⟩
  · intro a b d fa fb fd ha hb hd
    have ca : IntConvertible (FP.fin (a : ℚ)) := by
      simpa [IntConvertible, truncQ_intCast] using ha
    have cb : IntConvertible (FP.fin (b : ℚ)) := by
      simpa [IntConvertible, truncQ_intCast] using hb
    have cd : IntConvertible (FP.fin (d : ℚ)) := by
      simpa [IntConvertible, truncQ_intCast] using hd
    refine ⟨_, create_int_ok u i n a b d ⟨fa, ca⟩ ⟨fb, cb⟩ ⟨fd, cd⟩, ?_⟩
    rw [createArgs_int]
    simp only [truncQ_intCast]
    have ea : i2f a = FP.fin a := fa
    have eb : i2f b = FP.fin b := fb
    have ed : i2f d = FP.fin d := fd
    rw [ea, eb, ed]
    rfl
  · intro d hd
    refine ⟨_, create_bool u i n d, ?_⟩
    rw [createArgs_bool]
    rcases hd with rfl | rfl
    · have : FP.lt (FP.fin (1 / 2)) (FP.fin 0) = false := by decide!
      rw [this]
      rfl
    · have : FP.lt (FP.fin (1 / 2)) (FP.fin 1) = true := by decide!
      rw [this]
      rfl

/-- C3, witness: `["int", "n", "N", -3, 12, 4]` and `["bool", "b", "B", 1]` are
returned unchanged. -/
theorem createArgs_mirrors_init_witness :
    (∃ p,
      Parameter.create Env.sample
        [T_String "int", T_String "n", T_String "N", T_Float (FP.fin (-3)),
          T_Float (FP.fin 12), T_Float (FP.fin 4)] = some p ∧
      p.createArgs [] =
        [T_String "int", T_String "n", T_String "N", T_Float (FP.fin (-3)),
          T_Float (FP.fin 12), T_Float (FP.fin 4)]) ∧
    (∃ p,
      Parameter.create Env.sample
        [T_String "bool", T_String "n", T_String "N", T_Float (FP.fin 1)] = some p ∧
      p.createArgs [] = [T_String "bool", T_String "n", T_String "N", T_Float (FP.fin 1)]) := by
  obtain ⟨-, h2, h3⟩ := createArgs_mirrors_init Env.sample "n" "N"
  refine ⟨?_, h3 (FP.fin 1) (Or.inr rfl)⟩
  have := h2 (-3) 12 4 (by decide!) (by decide!) (by decide!) (by decide) (by decide)
    (by decide)
  simpa using this

/-- C4, counterexample: the Factory builds a Float parameter from the out-of-order list
`["float", "a", "A", 10, 0, 5]` (min 10, max 0); after `change(5)` its `current` is 0,
and `min ≤ current` fails. -/
theorem clamping_counterexample :
    (∀ u : Env, ∃ p,
      Parameter.create u
        [T_String "float", T_String "a", T_String "A", T_Float (FP.fin 10),
          T_Float (FP.fin 0), T_Float (FP.fin 5)] = some p ∧
      p.bounds = Bounds.ofFloat (FP.fin 10) (FP.fin 0) (FP.fin 5) ∧
      (p.change u (T_Float (FP.fin 5))).2.current = T_Float (FP.fin 0)) ∧
    FP.le (FP.fin 10) (FP.fin 0) = false := by
  refine ⟨fun u => ⟨_, create_flt u FloatClass.Float "a" "A" _ _ _, rfl, ?_⟩, by decide!⟩
  simp only [ParameterObj.change, ParameterObj.current, ParameterObj.toParameter]
  rw [Parameter_Float.float_change_snd _ _ _ ⟨_, rfl⟩]
  simp only [ParamValue.floatValue]
  decide!

/-- C4 (amended): clamping. For every bounded numeric parameter with `min ≤ max` (its
`current` numeric, as `create_numeric` and `ParameterObj.change_numeric` show it to be
from construction on): after `change(x)` with a number `x`, the
`current` of a parameter of the Float family satisfies `min ≤ current ≤ max`; and the
`current` of an Int parameter, after `change` with any candidate, is the `float` of an
`int` `v` with `min ≤ v ≤ max`, so that `min ≤ current ≤ max` holds as C++ compares an
`int` with a `float`. -/
theorem clamping (u : Env) :
    (∀ (k : FloatClass) (p : Parameter_Float) (x : FP),
      (ParameterObj.flt k p).Numeric → FP.le p.min_ p.max_ = true → x ≠ FP.nan →
      ∃ v, ((ParameterObj.flt k p).change u (T_Float x)).2.current = T_Float v ∧
        FP.le p.min_ v = true ∧ FP.le v p.max_ = true) ∧
    (∀ (p : Parameter_Int) (c : ParamValue),
      (ParameterObj.int p).Numeric → p.min_ ≤ p.max_ →
      ∃ v : ℤ, ((ParameterObj.int p).change u c).2.current = T_Float (i2f v) ∧
        p.min_ ≤ v ∧ v ≤ p.max_ ∧
        FP.le (i2f p.min_) (i2f v) = true ∧ FP.le (i2f v) (i2f p.max_) = true) := by
  constructor
  · intro k p x hn hle hx
    refine ⟨FP.stdMin (FP.stdMax x p.min_) p.max_, ?_, FP.clamp_mem hle hx⟩
    simp only [ParameterObj.change, ParameterObj.current, ParameterObj.toParameter]
    rw [Parameter_Float.float_change_snd u p _ hn]
    rfl
  · intro p c hn hle
    have h1 : p.min_ ≤ imin (imax (f2i u (c.floatValue u)) p.min_) p.max_ := by
      rw [imin_eq, imax_eq]
      exact le_min (le_max_right _ _) hle
    have h2 : imin (imax (f2i u (c.floatValue u)) p.min_) p.max_ ≤ p.max_ := by
      rw [imin_eq]
      exact min_le_right _ _
    refine ⟨imin (imax (f2i u (c.floatValue u)) p.min_) p.max_, ?_, h1, h2, i2f_mono h1,
      i2f_mono h2⟩
    simp only [ParameterObj.change, ParameterObj.current, ParameterObj.toParameter]
    rw [Parameter_Int.int_change_snd u p _ hn]

/-- C4, witness: a Float parameter with bounds 20 and 20000 after `change(25000)`, and
an Int parameter with bounds 0 and 10 after `change(-7.5)`. -/
theorem clamping_witness :
    (∃ v, ((ParameterObj.flt FloatClass.Float
        { id_ := "cutoff", displayName_ := "Cutoff", type_ := PT_Float,
          current_ := T_Float (FP.fin 1000), min_ := FP.fin 20, max_ := FP.fin 20000,
          def_ := FP.fin 1000 }).change Env.sample (T_Float (FP.fin 25000))).2.current =
        T_Float v ∧
      FP.le (FP.fin 20) v = true ∧ FP.le v (FP.fin 20000) = true) ∧
    (∃ v : ℤ, ((ParameterObj.int
        { id_ := "steps", displayName_ := "Steps", type_ := PT_Int,
          current_ := T_Float (FP.fin 5), min_ := 0, max_ := 10,
          def_ := 5 }).change Env.sample (T_Float (FP.fin (-15 / 2)))).2.current =
        T_Float (i2f v) ∧
      0 ≤ v ∧ v ≤ 10 ∧ FP.le (i2f 0) (i2f v) = true ∧ FP.le (i2f v) (i2f 10) = true) :=
  ⟨(clamping Env.sample).1 FloatClass.Float _ (FP.fin 25000) ⟨_, rfl⟩ (by decide!)
      (by decide),
    (clamping Env.sample).2 _ (T_Float (FP.fin (-15 / 2))) ⟨_, rfl⟩ (by decide)⟩

/-- C5: exact clamp result. For every parameter of the Float family with `min ≤ max`
(its `current` numeric, as `create_numeric` and `ParameterObj.change_numeric` show it to
be from construction on) and every `x`: after `change(x)` the
`current` is exactly `x` when `min ≤ x ≤ max`, exactly `min` when `x < min`, and exactly
`max` when `x > max`. -/
theorem exact_clamp (u : Env) (k : FloatClass) (p : Parameter_Float) (x : FP)
    (hn : (ParameterObj.flt k p).Numeric) (hle : FP.le p.min_ p.max_ = true) :
    (FP.le p.min_ x = true → FP.le x p.max_ = true →
      ((ParameterObj.flt k p).change u (T_Float x)).2.current = T_Float x) ∧
    (FP.lt x p.min_ = true →
      ((ParameterObj.flt k p).change u (T_Float x)).2.current = T_Float p.min_) ∧
    (FP.lt p.max_ x = true →
      ((ParameterObj.flt k p).change u (T_Float x)).2.current = T_Float p.max_) := by
  have hcur : ((ParameterObj.flt k p).change u (T_Float x)).2.current =
      T_Float (FP.stdMin (FP.stdMax x p.min_) p.max_) := by
    simp only [ParameterObj.change, ParameterObj.current, ParameterObj.toParameter]
    rw [Parameter_Float.float_change_snd u p _ hn]
    rfl
  rw [hcur]
  refine ⟨fun h1 h2 => by rw [FP.clamp_of_le h1 h2], fun h => ?_, fun h => ?_⟩
  · unfold FP.stdMin FP.stdMax
    rw [if_pos h, FP.not_lt_of_le hle]
    simp
  · unfold FP.stdMin FP.stdMax
    rw [FP.not_lt_of_le_of_lt hle h]
    simp [h]

/-- C5, witness: with `min = 20` and `max = 20000`, `change(25000)` stores exactly
20000. -/
theorem exact_clamp_witness :
    ((ParameterObj.flt FloatClass.Float
        { id_ := "cutoff", displayName_ := "Cutoff", type_ := PT_Float,
          current_ := T_Float (FP.fin 1000), min_ := FP.fin 20, max_ := FP.fin 20000,
          def_ := FP.fin 1000 }).change Env.sample (T_Float (FP.fin 25000))).2.current =
      T_Float (FP.fin 20000) :=
  (exact_clamp Env.sample FloatClass.Float
    { id_ := "cutoff", displayName_ := "Cutoff", type_ := PT_Float,
      current_ := T_Float (FP.fin 1000), min_ := FP.fin 20, max_ := FP.fin 20000,
      def_ := FP.fin 1000 } (FP.fin 25000) ⟨_, rfl⟩ (by decide!)).2.2 (by decide!)

/-- C6, counterexample: the candidate NaN is a `float`, and `NaN != NaN` holds. On the
Float parameter with bounds 20 and 20000 and current 1000, `change(NaN)` returns true and
stores NaN (`std::max` and `std::min` let it through), and a second `change(NaN)` right
afterwards returns true again. The code produces such a candidate itself: with `min` and
`max` the least and the greatest finite `float`, `calcMidi(0)` is NaN, and `change` of it
returns true twice in a row. -/
theorem change_semantics_counterexample :
    FP.IsFloat binary32 FP.nan ∧
    (∀ u : Env,
      ((ParameterObj.flt FloatClass.Float
        { id_ := "cutoff", displayName_ := "Cutoff", type_ := PT_Float,
          current_ := T_Float (FP.fin 1000), min_ := FP.fin 20, max_ := FP.fin 20000,
          def_ := FP.fin 1000 }).change u (T_Float FP.nan) =
        (true, ParameterObj.flt FloatClass.Float
          { id_ := "cutoff", displayName_ := "Cutoff", type_ := PT_Float,
            current_ := T_Float FP.nan, min_ := FP.fin 20, max_ := FP.fin 20000,
            def_ := FP.fin 1000 })) ∧
      ((ParameterObj.flt FloatClass.Float
        { id_ := "cutoff", displayName_ := "Cutoff", type_ := PT_Float,
          current_ := T_Float FP.nan, min_ := FP.fin 20, max_ := FP.fin 20000,
          def_ := FP.fin 1000 }).change u (T_Float FP.nan)).1 = true) ∧
    (∀ u : Env, ∃ p,
      Parameter.create u
        [T_String "float", T_String "a", T_String "A",
          T_Float (FP.fin (-340282346638528859811704183484516925440)),
          T_Float (FP.fin 340282346638528859811704183484516925440),
          T_Float (FP.fin 0)] = some p ∧
      p.calcMidi u 0 = T_Float FP.nan ∧
      (p.change u (p.calcMidi u 0)).1 = true ∧
      ((p.change u (p.calcMidi u 0)).2.change u (p.calcMidi u 0)).1 = true) := by
  refine ⟨trivial, fun u => ⟨?_, ?_⟩,
    fun u => ⟨_, create_flt u FloatClass.Float "a" "A" _ _ _, ?_⟩⟩
  · simp only [ParameterObj.change, Parameter_Float.change, ParamValue.floatValue]
    decide!
  · simp only [ParameterObj.change, Parameter_Float.change, ParamValue.floatValue]
    decide!
  · have e : Parameter_Float.calcMidi
        { id_ := "a", displayName_ := "A", type_ := FloatClass.Float.type,
          current_ := T_Float (FP.stdMin
            (FP.stdMax (FP.fin 0) (FP.fin (-340282346638528859811704183484516925440)))
            (FP.fin 340282346638528859811704183484516925440)),
          min_ := FP.fin (-340282346638528859811704183484516925440),
          max_ := FP.fin 340282346638528859811704183484516925440, def_ := FP.fin 0 } 0 =
        T_Float FP.nan := by decide!
    simp only [ParameterObj.calcMidi, ParameterObj.change, e, Parameter_Float.change,
      ParamValue.floatValue]
    decide!

/-- C6 (amended): change semantics. For every parameter (of the Float family, Int or
Boolean, and the base class as well) and every numeric candidate `x` that is a number
(not NaN), `change(x)` returns true if and only if `current` after the call differs from
`current` before it, and a second `change(x)` right afterwards returns false and leaves
the object, so its `current`, unchanged. -/
theorem change_semantics (u : Env) (o : ParameterObj) (x : FP) (hx : x ≠ FP.nan) :
    ((o.change u (T_Float x)).1 = true ↔
      (o.change u (T_Float x)).2.current ≠ o.current) ∧
    ((o.change u (T_Float x)).2.change u (T_Float x)).1 = false ∧
    ((o.change u (T_Float x)).2.change u (T_Float x)).2 = (o.change u (T_Float x)).2 := by
  cases o with
  | base p =>
    simp only [ParameterObj.change, ParameterObj.current, ParameterObj.toParameter]
    refine ⟨Parameter.change_iff p x hx, ?_, ?_⟩ <;>
      rw [Parameter.change_same _ x hx (by rw [Parameter.change_snd])]
  | flt k p =>
    obtain ⟨h1, h2⟩ := Parameter_Float.float_change_sem u p x hx
    simp only [ParameterObj.change, ParameterObj.current, ParameterObj.toParameter]
    exact ⟨h1, by rw [h2], by rw [h2]⟩
  | boolean p =>
    obtain ⟨h1, h2⟩ := Parameter_Boolean.bool_change_sem u p (T_Float x)
    simp only [ParameterObj.change, ParameterObj.current, ParameterObj.toParameter]
    exact ⟨h1, by rw [h2], by rw [h2]⟩
  | int p =>
    obtain ⟨h1, h2⟩ := Parameter_Int.int_change_sem u p (T_Float x)
    simp only [ParameterObj.change, ParameterObj.current, ParameterObj.toParameter]
    exact ⟨h1, by rw [h2], by rw [h2]⟩

/-- C6, witness: on the Float parameter with bounds 20 and 20000 and current value
1000, `change(25000)` returns true and stores 20000; the same call again returns false
and leaves the parameter as it is. -/
theorem change_semantics_witness :
    (((ParameterObj.flt FloatClass.Float
        { id_ := "cutoff", displayName_ := "Cutoff", type_ := PT_Float,
          current_ := T_Float (FP.fin 1000), min_ := FP.fin 20, max_ := FP.fin 20000,
          def_ := FP.fin 1000 }).change Env.sample (T_Float (FP.fin 25000))).1 = true ↔
      ((ParameterObj.flt FloatClass.Float
        { id_ := "cutoff", displayName_ := "Cutoff", type_ := PT_Float,
          current_ := T_Float (FP.fin 1000), min_ := FP.fin 20, max_ := FP.fin 20000,
          def_ := FP.fin 1000 }).change Env.sample (T_Float (FP.fin 25000))).2.current ≠
        T_Float (FP.fin 1000)) ∧
    ((((ParameterObj.flt FloatClass.Float
        { id_ := "cutoff", displayName_ := "Cutoff", type_ := PT_Float,
          current_ := T_Float (FP.fin 1000), min_ := FP.fin 20, max_ := FP.fin 20000,
          def_ := FP.fin 1000 }).change Env.sample (T_Float (FP.fin 25000))).2.change
        Env.sample (T_Float (FP.fin 25000))).1 = false) ∧
    ((((ParameterObj.flt FloatClass.Float
        { id_ := "cutoff", displayName_ := "Cutoff", type_ := PT_Float,
          current_ := T_Float (FP.fin 1000), min_ := FP.fin 20, max_ := FP.fin 20000,
          def_ := FP.fin 1000 }).change Env.sample (T_Float (FP.fin 25000))).2.change
        Env.sample (T_Float (FP.fin 25000))).2 =
      ((ParameterObj.flt FloatClass.Float
        { id_ := "cutoff", displayName_ := "Cutoff", type_ := PT_Float,
          current_ := T_Float (FP.fin 1000), min_ := FP.fin 20, max_ := FP.fin 20000,
          def_ := FP.fin 1000 }).change Env.sample (T_Float (FP.fin 25000))).2) :=
  change_semantics Env.sample _ (FP.fin 25000) (by decide)

/-- C7 (the code departs from the claim): a list with a known tag and a missing or
wrongly typed field does not yield kind Invalid. `throwError` never throws, so `init`
runs to its end and the handler that would set `PT_Invalid` is never entered: on every
list that starts with one of the seven tags the factory returns an object of the kind
of the tag; `["float", "id1"]` gives a Float parameter with id `id1` and an empty
display name, `["bool", "id1", "Name", "x"]` a Boolean parameter. -/
theorem missing_field_keeps_kind :
    (∀ (u : Env) (k : String × ParameterType) (rest : List ParamValue), k ∈ tagTable →
      ∃ p, Parameter.create u (T_String k.1 :: rest) = some p ∧ p.type = k.2 ∧
        p.type ≠ PT_Invalid) ∧
    (∀ u : Env, ∃ p,
      Parameter.create u [T_String "float", T_String "id1"] = some p ∧
      p.type = PT_Float ∧ p.id = "id1" ∧ p.displayName = "") ∧
    (∀ u : Env, ∃ p,
      Parameter.create u
        [T_String "bool", T_String "id1", T_String "Name", T_String "x"] = some p ∧
      p.type = PT_Boolean ∧ p.id = "id1" ∧ p.displayName = "Name") := by
  refine ⟨?_, ?_, ?_⟩
  · intro u k rest hk
    obtain ⟨p, hp, ht, -⟩ := create_kind u k.1 rest
    rw [createParameter_table u k hk] at ht
    refine ⟨p, hp, ht, ?_⟩
    rw [ht]
    simp only [tagTable, List.mem_cons, List.mem_singleton, List.not_mem_nil, or_false] at hk
    rcases hk with rfl | rfl | rfl | rfl | rfl | rfl | rfl <;> simp
  · intro u
    refine ⟨ParameterObj.flt FloatClass.Float
      { id_ := "id1", displayName_ := "", type_ := PT_Float,
        current_ := T_Float (FP.stdMin (FP.stdMax u.fdef u.fmin) u.fmax),
        min_ := u.fmin, max_ := u.fmax, def_ := u.fdef }, ?_, rfl, rfl, rfl⟩
    simp [Parameter.create, createParameter, PTS_Float, ParameterObj.type,
      ParameterObj.toParameter, Parameter_Float.new, Parameter.new, ParameterObj.init,
      Parameter_Float.init, Parameter.init, Outcome.andThen, Outcome.map, throwError_,
      Parameter_Float.change, ParamValue.floatValue, Parameter.change_snd]
  · intro u
    refine ⟨ParameterObj.boolean
      { id_ := "id1", displayName_ := "Name", type_ := PT_Boolean,
        current_ := T_Float (FP.fin 0), def_ := u.bdef }, ?_, rfl, rfl, rfl⟩
    simp [Parameter.create, createParameter, PTS_Float, PTS_Int, PTS_Boolean,
      ParameterObj.type, ParameterObj.toParameter, Parameter_Boolean.new, Parameter.new,
      ParameterObj.init, Parameter_Boolean.init, Parameter.init, Outcome.andThen,
      Outcome.map, throwError_]

/-- C8 (the code departs from the claim): on the empty list and on a list whose first
element is not a text, the pointer `p` is never set and `p->type()` is evaluated on the
null pointer: `Parameter::create` yields no parameter at all, not one of kind Invalid. -/
theorem missing_tag_no_result :
    (∀ u : Env, Parameter.create u [] = none) ∧
    (∀ (u : Env) (x : FP) (rest : List ParamValue),
      Parameter.create u (T_Float x :: rest) = none) :=
  ⟨fun _ => rfl, fun _ _ _ => by simp [Parameter.create]⟩

/-- C9: unknown type. For every list whose first element is a text that is none of the
seven tags, `Parameter::create` returns the object `createParameter` makes for it: of
the base class, kind Invalid, id and display name empty, nothing of the list consumed.
And each of the seven tags yields its own kind, from `createParameter` and from
`create`. -/
theorem unknown_type (u : Env) (t : String) (rest : List ParamValue)
    (h : ∀ k ∈ tagTable, t ≠ k.1) :
    Parameter.create u (T_String t :: rest) =
      some (ParameterObj.base
        { id_ := "", displayName_ := "", type_ := PT_Invalid,
          current_ := T_Float (FP.fin 0) }) ∧
    (∀ k ∈ tagTable, (createParameter u k.1).type = k.2 ∧
      ∀ rest', ∃ p, Parameter.create u (T_String k.1 :: rest') = some p ∧ p.type = k.2) := by
  constructor
  · have h1 := h ("float", PT_Float) (by simp [tagTable])
    have h2 := h ("int", PT_Int) (by simp [tagTable])
    have h3 := h ("bool", PT_Boolean) (by simp [tagTable])
    have h4 := h ("pct", PT_Percent) (by simp [tagTable])
    have h5 := h ("freq", PT_Frequency) (by simp [tagTable])
    have h6 := h ("time", PT_Time) (by simp [tagTable])
    have h7 := h ("pitch", PT_Pitch) (by simp [tagTable])
    simp only [ne_eq] at h1 h2 h3 h4 h5 h6 h7
    simp [Parameter.create, createParameter, PTS_Float, PTS_Int, PTS_Boolean, PTS_Percent,
      PTS_Frequency, PTS_Time, PTS_Pitch, h1, h2, h3, h4, h5, h6, h7, ParameterObj.type,
      ParameterObj.toParameter, Parameter.new]
  · intro k hk
    refine ⟨createParameter_table u k hk, fun rest' => ?_⟩
    obtain ⟨p, hp, ht, -⟩ := create_kind u k.1 rest'
    exact ⟨p, hp, ht.trans (createParameter_table u k hk)⟩

/-- C9, witness: `["bogus", "id1", "Name"]` yields an Invalid parameter with empty id
and display name. -/
theorem unknown_type_witness :
    Parameter.create Env.sample [T_String "bogus", T_String "id1", T_String "Name"] =
      some (ParameterObj.base
        { id_ := "", displayName_ := "", type_ := PT_Invalid,
          current_ := T_Float (FP.fin 0) }) :=
  (unknown_type Env.sample "bogus" [T_String "id1", T_String "Name"] (by decide)).1

/-- C10, counterexample: the Float parameter built from
`["float", "a", "A", -1, 16777216, 0]` has `min ≤ max`, both `float`s; the difference
`max - min = 16777217` is not a `float` and rounds to 16777216, so `calcMidi(127)`
returns `16777216 - 1 = 16777215`, not `max`. And with `min` and `max` the least and the
greatest finite `float`, `max - min` overflows to infinity and `calcMidi(0)` returns
`0 * inf + min`, which is not a number, not `min`. -/
theorem midi_endpoints_counterexample :
    (∀ u : Env, ∃ p,
      Parameter.create u
        [T_String "float", T_String "a", T_String "A", T_Float (FP.fin (-1)),
          T_Float (FP.fin 16777216), T_Float (FP.fin 0)] = some p ∧
      p.bounds = Bounds.ofFloat (FP.fin (-1)) (FP.fin 16777216) (FP.fin 0) ∧
      p.calcMidi u 127 = T_Float (FP.fin 16777215)) ∧
    FP.le (FP.fin (-1)) (FP.fin 16777216) = true ∧
    FP.IsFloat binary32 (FP.fin (-1)) ∧ FP.IsFloat binary32 (FP.fin 16777216) ∧
    T_Float (FP.fin 16777215) ≠ T_Float (FP.fin 16777216) ∧
    (∀ u : Env, ∃ p,
      Parameter.create u
        [T_String "float", T_String "a", T_String "A",
          T_Float (FP.fin (-340282346638528859811704183484516925440)),
          T_Float (FP.fin 340282346638528859811704183484516925440),
          T_Float (FP.fin 0)] = some p ∧
      p.calcMidi u 0 = T_Float FP.nan) ∧
    FP.IsFloat binary32 (FP.fin (-340282346638528859811704183484516925440)) ∧
    FP.IsFloat binary32 (FP.fin 340282346638528859811704183484516925440) := by
  refine ⟨fun u => ⟨_, create_flt u FloatClass.Float "a" "A" _ _ _, rfl, ?_⟩, by decide!,
    by decide!, by decide!, by decide!,
    fun u => ⟨_, create_flt u FloatClass.Float "a" "A" _ _ _, ?_⟩, by decide!, by decide!⟩
  · simp only [ParameterObj.calcMidi]
    decide!
  · simp only [ParameterObj.calcMidi]
    decide!

/-- C10 (amended): MIDI endpoints. For every parameter of the Float family with
`min ≤ max`, both `float`s: `calcMidi(0)` returns `min` when the difference `max - min`
is finite, and `calcMidi(127)` returns `max` when `max - min` is computed exactly (it
is a `float`). For every Int parameter with `min ≤ max` and `min` exactly representable
as a `float`: `calcMidi(0)` returns `min`, and `calcMidi(127)` returns `max` when
`max - min` does not overflow `int` and `max` and `max - min` are exactly representable
as `float`s. -/
theorem midi_endpoints (u : Env) :
    (∀ (k : FloatClass) (p : Parameter_Float) (a b : ℚ),
      p.min_ = FP.fin a → p.max_ = FP.fin b → a ≤ b →
      FP.IsFloat binary32 (FP.fin a) → FP.IsFloat binary32 (FP.fin b) →
      ((∃ d, FP.sub binary32 (FP.fin b) (FP.fin a) = FP.fin d) →
        (ParameterObj.flt k p).calcMidi u 0 = T_Float (FP.fin a)) ∧
      (FP.IsFloat binary32 (FP.fin (b - a)) →
        (ParameterObj.flt k p).calcMidi u 127 = T_Float (FP.fin b))) ∧
    (∀ (p : Parameter_Int),
      p.min_ ≤ p.max_ → INT_MIN ≤ p.min_ → p.max_ ≤ INT_MAX →
      FP.IsFloat binary32 (FP.fin p.min_) →
      (ParameterObj.int p).calcMidi u 0 = T_Float (FP.fin p.min_) ∧
      (p.max_ - p.min_ ≤ INT_MAX → FP.IsFloat binary32 (FP.fin p.max_) →
        FP.IsFloat binary32 (FP.fin ((p.max_ - p.min_ : ℤ) : ℚ)) →
        (ParameterObj.int p).calcMidi u 127 = T_Float (FP.fin p.max_))) := by
  constructor
  · intro k p a b hmin hmax hab fa fb
    have ra : FP.round binary32 a = FP.fin a := fa
    have rb : FP.round binary32 b = FP.fin b := fb
    simp only [ParameterObj.calcMidi, Parameter_Float.calcMidi, Parameter_Float.calcFloat,
      midiFraction_zero, midiFraction_full, hmin, hmax]
    constructor
    · rintro ⟨d, hd⟩
      rw [hd]
      simp only [FP.mul, zero_mul, FP.round_zero, FP.add, zero_add, ra, FP.stdMax_fin,
        FP.stdMin_fin, max_self, min_eq_left hab]
    · intro fd
      have rd : FP.round binary32 (b - a) = FP.fin (b - a) := fd
      have hsub : FP.sub binary32 (FP.fin b) (FP.fin a) = FP.fin (b - a) := by
        simp only [FP.sub, FP.neg, FP.add, ← sub_eq_add_neg, rd]
      rw [hsub]
      simp only [FP.mul, FP.add, one_mul, sub_add_cancel, rd, rb, FP.stdMax_fin,
        FP.stdMin_fin, max_eq_left hab, min_self]
  · intro p hle h1 h2 fa
    have ra : i2f p.min_ = FP.fin p.min_ := fa
    have hminr : p.min_ ≤ INT_MAX := le_trans hle h2
    have hmaxr : INT_MIN ≤ p.max_ := le_trans h1 hle
    simp only [ParameterObj.calcMidi, Parameter_Int.calcMidi, midiFraction_zero,
      midiFraction_full, ra]
    constructor
    · obtain ⟨r, hr⟩ := i2f_finite (wrap32 (p.max_ - p.min_)) (wrap32_range _).1
        (wrap32_range _).2
      have e : FP.add binary32 (FP.mul binary32 (FP.fin 0) (i2f (wrap32 (p.max_ - p.min_))))
          (FP.fin p.min_) = FP.fin p.min_ := by
        rw [hr]
        simp only [FP.mul, FP.add, zero_mul]
        rw [FP.round_zero]
        simp only [FP.add, zero_add]
        exact fa
      rw [e, f2i_intCast u _ h1 hminr, imax_eq, imin_eq, max_self, min_eq_left hle, ra]
    · intro h3 fb fd
      have rb : FP.round binary32 (p.max_ : ℚ) = FP.fin p.max_ := fb
      have hw : wrap32 (p.max_ - p.min_) = p.max_ - p.min_ :=
        wrap32_of_range _ (by unfold INT_MIN; omega) h3
      have rd : i2f (p.max_ - p.min_) = FP.fin ((p.max_ - p.min_ : ℤ) : ℚ) := fd
      have e : FP.add binary32 (FP.mul binary32 (FP.fin 1)
          (FP.fin ((p.max_ - p.min_ : ℤ) : ℚ))) (FP.fin p.min_) = FP.fin p.max_ := by
        simp only [FP.mul, FP.add, one_mul]
        have : FP.round binary32 ((p.max_ - p.min_ : ℤ) : ℚ) =
            FP.fin ((p.max_ - p.min_ : ℤ) : ℚ) := fd
        rw [this]
        simp only [FP.add]
        have e2 : (((p.max_ - p.min_ : ℤ) : ℚ) + (p.min_ : ℚ)) = (p.max_ : ℚ) := by
          push_cast
          ring
        rw [e2, rb]
      rw [hw, rd, e, f2i_intCast u _ hmaxr h2, imax_eq, imin_eq, max_eq_left hle, min_self,
        show i2f p.max_ = FP.fin p.max_ from fb]

/-- C10, witness: with bounds 20 and 20000 (difference 19980) `calcMidi(0)` is 20 and
`calcMidi(127)` is 20000; for the Int parameter with bounds 0 and 10 they are 0 and 10. -/
theorem midi_endpoints_witness :
    ((ParameterObj.flt FloatClass.Float
        { id_ := "cutoff", displayName_ := "Cutoff", type_ := PT_Float,
          current_ := T_Float (FP.fin 1000), min_ := FP.fin 20, max_ := FP.fin 20000,
          def_ := FP.fin 1000 }).calcMidi Env.sample 0 = T_Float (FP.fin 20) ∧
      (ParameterObj.flt FloatClass.Float
        { id_ := "cutoff", displayName_ := "Cutoff", type_ := PT_Float,
          current_ := T_Float (FP.fin 1000), min_ := FP.fin 20, max_ := FP.fin 20000,
          def_ := FP.fin 1000 }).calcMidi Env.sample 127 = T_Float (FP.fin 20000)) ∧
    ((ParameterObj.int
        { id_ := "steps", displayName_ := "Steps", type_ := PT_Int,
          current_ := T_Float (FP.fin 5), min_ := 0, max_ := 10,
          def_ := 5 }).calcMidi Env.sample 0 = T_Float (FP.fin ((0 : ℤ) : ℚ)) ∧
      (ParameterObj.int
        { id_ := "steps", displayName_ := "Steps", type_ := PT_Int,
          current_ := T_Float (FP.fin 5), min_ := 0, max_ := 10,
          def_ := 5 }).calcMidi Env.sample 127 = T_Float (FP.fin ((10 : ℤ) : ℚ))) :=
  ⟨⟨((midi_endpoints Env.sample).1 FloatClass.Float _ 20 20000 rfl rfl (by norm_num)
        (by decide!) (by decide!)).1 ⟨19980, by decide!⟩,
      ((midi_endpoints Env.sample).1 FloatClass.Float _ 20 20000 rfl rfl (by norm_num)
        (by decide!) (by decide!)).2 (by decide!)⟩,
    ⟨((midi_endpoints Env.sample).2 _ (by decide) (by decide) (by decide) (by decide!)).1,
      ((midi_endpoints Env.sample).2 _ (by decide) (by decide) (by decide) (by decide!)).2
        (by decide) (by decide!) (by decide!)⟩⟩

/-- C11, counterexample: with `min` and `max` the least and the greatest finite
`float`, `max - min` overflows to infinity, `calcMidi(0)` returns `0 * inf + min`, which
is not a number, while `calcMidi(1)` returns `max`: `calcMidi(0) ≤ calcMidi(1)` is false. And with conversions out of
range giving `INT_MIN`, the Int parameter built from `["int", "a", "A", -64, 2147483520, 0]`
has `calcMidi(126) = 2130574336` but `calcMidi(127) = -64`: the value mapped at 127 rounds
to `2 ^ 31`, which is outside the range of `int`. -/
theorem midi_monotone_counterexample :
    (∀ u : Env, ∃ p,
      Parameter.create u
        [T_String "float", T_String "a", T_String "A",
          T_Float (FP.fin (-340282346638528859811704183484516925440)),
          T_Float (FP.fin 340282346638528859811704183484516925440),
          T_Float (FP.fin 0)] = some p ∧
      p.calcMidi u 0 = T_Float FP.nan ∧
      p.calcMidi u 1 = T_Float (FP.fin 340282346638528859811704183484516925440)) ∧
    FP.le FP.nan (FP.fin 340282346638528859811704183484516925440) = false ∧
    FP.IsFloat binary32 (FP.fin (-340282346638528859811704183484516925440)) ∧
    FP.IsFloat binary32 (FP.fin 340282346638528859811704183484516925440) ∧
    (∃ p,
      Parameter.create Env.sample
        [T_String "int", T_String "a", T_String "A", T_Float (FP.fin (-64)),
          T_Float (FP.fin 2147483520), T_Float (FP.fin 0)] = some p ∧
      p.bounds = Bounds.ofInt (-64) 2147483520 0 ∧
      p.calcMidi Env.sample 126 = T_Float (FP.fin 2130574336) ∧
      p.calcMidi Env.sample 127 = T_Float (FP.fin (-64)) ∧
      FP.le ((p.calcMidi Env.sample 126).floatValue Env.sample)
        ((p.calcMidi Env.sample 127).floatValue Env.sample) = false) := by
  refine ⟨fun u => ⟨_, create_flt u FloatClass.Float "a" "A" _ _ _, ?_, ?_⟩, rfl,
    by decide!, by decide!,
    ⟨_, create_int_ok Env.sample "a" "A" (-64) 2147483520 0 (by decide!) (by decide!)
      (by decide!), by decide!, ?_, ?_, ?_⟩⟩
  · simp only [ParameterObj.calcMidi]
    decide!
  · simp only [ParameterObj.calcMidi]
    decide!
  · simp only [ParameterObj.calcMidi]
    decide!
  · simp only [ParameterObj.calcMidi]
    decide!
  · simp only [ParameterObj.calcMidi, ParamValue.floatValue]
    decide!

/-- C11 (amended): MIDI monotonicity. For all integers `m1 ≤ m2` in `[0, 127]`: for
every parameter of the Float family with finite bounds `min ≤ max` whose difference
`max - min` is finite (does not overflow the `float` range), the value of `calcMidi(m1)`
is `≤` the value of `calcMidi(m2)`; and so it is for every Int parameter with `min ≤ max`
for which `max - min` does not overflow `int` and the value mapped at 127,
`1 * (max - min) + min` as computed in `float`, converts to `int` (the returned values
are those after truncation toward zero and clamping). -/
theorem midi_monotone (u : Env) (m1 m2 : ℤ) (h0 : 0 ≤ m1) (h12 : m1 ≤ m2)
    (h127 : m2 ≤ 127) :
    (∀ (k : FloatClass) (p : Parameter_Float) (a b d : ℚ),
      p.min_ = FP.fin a → p.max_ = FP.fin b → a ≤ b →
      FP.sub binary32 (FP.fin b) (FP.fin a) = FP.fin d →
      FP.le (((ParameterObj.flt k p).calcMidi u m1).floatValue u)
        (((ParameterObj.flt k p).calcMidi u m2).floatValue u) = true) ∧
    (∀ p : Parameter_Int,
      p.min_ ≤ p.max_ → INT_MIN ≤ p.min_ → p.max_ ≤ INT_MAX →
      p.max_ - p.min_ ≤ INT_MAX →
      IntConvertible (FP.add binary32
        (FP.mul binary32 (FP.fin 1) (i2f (p.max_ - p.min_))) (i2f p.min_)) →
      FP.le (((ParameterObj.int p).calcMidi u m1).floatValue u)
        (((ParameterObj.int p).calcMidi u m2).floatValue u) = true) := by
  constructor
  · intro k p a b d hmin hmax hab hd
    obtain ⟨q1, e1, a1, b1⟩ := midiFraction_range h0 (h12.trans h127)
    obtain ⟨q2, e2, a2, b2⟩ := midiFraction_range (h0.trans h12) h127
    have hq : q1 ≤ q2 := by
      have := midiFraction_mono h12
      rw [e1, e2] at this
      exact (FP.le_fin_iff _ _).mp this
    simp only [ParameterObj.calcMidi, Parameter_Float.calcMidi, e1, e2]
    exact Parameter_Float.calcFloat_mono u p a b d q1 q2 hmin hmax hab hd hq
  · intro p hle h1 h2 h3 htop
    exact Parameter_Int.calcMidi_mono u p m1 m2 h0 h12 h127 hle h1 h2 h3 htop

/-- C11, witness: for the Float parameter with bounds 20 and 20000 and for the Int
parameter with bounds 0 and 10, `calcMidi(10) ≤ calcMidi(64)`. -/
theorem midi_monotone_witness :
    FP.le (((ParameterObj.flt FloatClass.Float
        { id_ := "cutoff", displayName_ := "Cutoff", type_ := PT_Float,
          current_ := T_Float (FP.fin 1000), min_ := FP.fin 20, max_ := FP.fin 20000,
          def_ := FP.fin 1000 }).calcMidi Env.sample 10).floatValue Env.sample)
      (((ParameterObj.flt FloatClass.Float
        { id_ := "cutoff", displayName_ := "Cutoff", type_ := PT_Float,
          current_ := T_Float (FP.fin 1000), min_ := FP.fin 20, max_ := FP.fin 20000,
          def_ := FP.fin 1000 }).calcMidi Env.sample 64).floatValue Env.sample) = true ∧
    FP.le (((ParameterObj.int
        { id_ := "steps", displayName_ := "Steps", type_ := PT_Int,
          current_ := T_Float (FP.fin 5), min_ := 0, max_ := 10,
          def_ := 5 }).calcMidi Env.sample 10).floatValue Env.sample)
      (((ParameterObj.int
        { id_ := "steps", displayName_ := "Steps", type_ := PT_Int,
          current_ := T_Float (FP.fin 5), min_ := 0, max_ := 10,
          def_ := 5 }).calcMidi Env.sample 64).floatValue Env.sample) = true :=
  ⟨(midi_monotone Env.sample 10 64 (by decide) (by decide) (by decide)).1
      FloatClass.Float _ 20 20000 19980 rfl rfl (by norm_num) (by decide!),
    (midi_monotone Env.sample 10 64 (by decide) (by decide) (by decide)).2 _
      (by decide) (by decide) (by decide) (by decide) (by decide!)⟩

/-- C12: Boolean hysteresis. For every Boolean parameter whose current value is a number
and every `float` delta, `calcRelative(delta)` returns 0.0 when current is true (`> 0.5`)
and `delta < -0.0001`, returns 1.0 when current is false and `delta > 0.0001`, and
otherwise returns current unchanged. The thresholds are the decimal numbers: the code
compares with the `double` literals, and no `float` lies between the two. -/
theorem boolean_hysteresis (u : Env) (p : Parameter_Boolean) (x d : FP)
    (hc : p.current_ = T_Float x) (hx : x ≠ FP.nan) (hd : FP.IsFloat binary32 d) :
    (FP.lt (FP.fin (1 / 2)) x = true → FP.lt d (FP.fin (-(1 / 10000))) = true →
      p.calcRelative u d = T_Float (FP.fin 0)) ∧
    (FP.lt (FP.fin (1 / 2)) x = false → FP.lt (FP.fin (1 / 10000)) d = true →
      p.calcRelative u d = T_Float (FP.fin 1)) ∧
    ((FP.lt (FP.fin (1 / 2)) x = true → FP.lt d (FP.fin (-(1 / 10000))) = false) →
      (FP.lt (FP.fin (1 / 2)) x = false → FP.lt (FP.fin (1 / 10000)) d = false) →
      p.calcRelative u d = p.current_) := by
  have hle : FP.le x (FP.fin (1 / 2)) = !FP.lt (FP.fin (1 / 2)) x :=
    FP.le_eq_not_lt hx (by simp)
  simp only [Parameter_Boolean.calcRelative, hc, ParamValue.floatValue, lt_epsilon d hd,
    lt_neg_epsilon d hd, hle]
  cases FP.lt (FP.fin (1 / 2)) x <;> cases FP.lt d (FP.fin (-(1 / 10000))) <;>
    cases FP.lt (FP.fin (1 / 10000)) d <;> simp

/-- C12, witness: from current 0, `calcRelative(+0.2)` yields 1.0; from current 1,
`calcRelative(-0.2)` yields 0.0; from current 0, `calcRelative(-0.2)` yields 0.0 (the
`float`s nearest to 0.2 and -0.2 being passed). -/
theorem boolean_hysteresis_witness :
    ({ id_ := "mute", displayName_ := "Mute", type_ := PT_Boolean,
        current_ := T_Float (FP.fin 0), def_ := false } : Parameter_Boolean).calcRelative
      Env.sample (FP.round binary32 (1 / 5)) = T_Float (FP.fin 1) ∧
    ({ id_ := "mute", displayName_ := "Mute", type_ := PT_Boolean,
        current_ := T_Float (FP.fin 1), def_ := false } : Parameter_Boolean).calcRelative
      Env.sample (FP.round binary32 (-(1 / 5))) = T_Float (FP.fin 0) ∧
    ({ id_ := "mute", displayName_ := "Mute", type_ := PT_Boolean,
        current_ := T_Float (FP.fin 0), def_ := false } : Parameter_Boolean).calcRelative
      Env.sample (FP.round binary32 (-(1 / 5))) = T_Float (FP.fin 0) :=
  ⟨(boolean_hysteresis Env.sample _ (FP.fin 0) _ rfl (by simp)
      (FP.isFloat_round binary32 (by decide) _)).2.1 (by decide!) (by decide!),
    (boolean_hysteresis Env.sample _ (FP.fin 1) _ rfl (by simp)
      (FP.isFloat_round binary32 (by decide) _)).1 (by decide!) (by decide!),
    (boolean_hysteresis Env.sample _ (FP.fin 0) _ rfl (by simp)
      (FP.isFloat_round binary32 (by decide) _)).2.2 (by decide!) (by decide!)⟩

/-- C13: Boolean value invariant. In every state of a Boolean parameter reachable from
construction by `init` and any sequence of `change` calls (any candidates), current is
exactly 0.0 or exactly 1.0; and in such a state every candidate returned by `calcFloat`,
`calcMidi` and `calcRelative` is exactly 0.0 or 1.0. -/
theorem boolean_invariant (u : Env) (p : Parameter_Boolean)
    (h : Parameter_Boolean.Reachable u p) :
    p.current_.ZeroOrOne ∧
      ∀ (f : FP) (m : ℤ), (p.calcFloat f).ZeroOrOne ∧ (p.calcMidi m).ZeroOrOne ∧
        (p.calcRelative u f).ZeroOrOne := by
  have inv : p.current_.ZeroOrOne := by
    induction h with
    | fresh t => exact Or.inl rfl
    | byInit p args pos r _ hr ih =>
      obtain ⟨r', e, z⟩ := Parameter_Boolean.bool_init_zero_one u args (p, pos) ih
      rw [e] at hr
      rw [← Outcome.returned.inj hr]
      exact z
    | byInitRaised p args pos r w _ hr ih =>
      obtain ⟨r', e, -⟩ := Parameter_Boolean.bool_init_zero_one u args (p, pos) ih
      rw [e] at hr
      exact absurd hr (by simp)
    | byChange p c _ ih => exact Parameter_Boolean.bool_change_zero_one u p c ih.numeric
  refine ⟨inv, fun f m => ⟨?_, ?_, ?_⟩⟩
  · unfold Parameter_Boolean.calcFloat ParamValue.ZeroOrOne
    split
    · exact Or.inr rfl
    · exact Or.inl rfl
  · unfold Parameter_Boolean.calcMidi ParamValue.ZeroOrOne
    split
    · exact Or.inr rfl
    · exact Or.inl rfl
  · unfold Parameter_Boolean.calcRelative
    split
    · exact Or.inl rfl
    · split
      · exact Or.inr rfl
      · exact inv

/-- C13, witness: the Boolean parameter constructed, then changed with the candidate
0.75, is in a reachable state; its current is 1.0. -/
theorem boolean_invariant_witness :
    Parameter_Boolean.Reachable Env.sample
        ((Parameter_Boolean.new Env.sample PT_Boolean).change Env.sample
          (T_Float (FP.fin (3 / 4)))).2 ∧
      ((Parameter_Boolean.new Env.sample PT_Boolean).change Env.sample
          (T_Float (FP.fin (3 / 4)))).2.current_ = T_Float (FP.fin 1) ∧
      ((Parameter_Boolean.new Env.sample PT_Boolean).change Env.sample
          (T_Float (FP.fin (3 / 4)))).2.current_.ZeroOrOne :=
  ⟨Parameter_Boolean.Reachable.byChange _ _ (Parameter_Boolean.Reachable.fresh _),
    by decide!,
    (boolean_invariant Env.sample _
      (Parameter_Boolean.Reachable.byChange _ _ (Parameter_Boolean.Reachable.fresh _))).1⟩

/-- C18: the Boolean `calcMidi` agrees with `calcFloat` on the normalised input. For
every integer `m`, `Parameter_Boolean::calcMidi(m)` returns what
`Parameter_Boolean::calcFloat` returns on `m/127`, whether the quotient is computed as
the other `calcMidi` methods do (`(float) m / 127.0`), is the `float` nearest to `m/127`,
or is the exact quotient: `m > 63` holds exactly when `m/127 > 0.5`. -/
theorem boolean_midi_agrees (p : Parameter_Boolean) (m : ℤ) :
    p.calcMidi m = p.calcFloat (midiFraction m) ∧
      p.calcMidi m = p.calcFloat (FP.round binary32 ((m : ℚ) / 127)) ∧
      p.calcMidi m = p.calcFloat (FP.fin ((m : ℚ) / 127)) ∧
      (63 < m ↔ FP.lt (FP.fin (1 / 2)) (midiFraction m) = true) ∧
      (63 < m ↔ FP.lt (FP.fin (1 / 2)) (FP.fin ((m : ℚ) / 127)) = true) := by
  have e1 := half_threshold midiFraction (fun a b h => midiFraction_mono h) (by decide!)
    (by decide!) m
  have e2 := half_threshold (fun k : ℤ => FP.round binary32 ((k : ℚ) / 127))
    (fun a b h => FP.round_mono binary32 (by decide) (by
      have : (a : ℚ) ≤ b := by exact_mod_cast h
      linarith)) (by decide!) (by decide!) m
  have e3 := half_threshold (fun k : ℤ => FP.fin ((k : ℚ) / 127))
    (fun a b h => (FP.le_fin_iff _ _).mpr (by
      have : (a : ℚ) ≤ b := by exact_mod_cast h
      linarith)) (by decide!) (by decide!) m
  simp only at e2 e3
  refine ⟨?_, ?_, ?_, ?_, ?_⟩
  · simp only [Parameter_Boolean.calcMidi, Parameter_Boolean.calcFloat, e1, decide_eq_true_eq]
  · simp only [Parameter_Boolean.calcMidi, Parameter_Boolean.calcFloat, e2, decide_eq_true_eq]
  · simp only [Parameter_Boolean.calcMidi, Parameter_Boolean.calcFloat, e3, decide_eq_true_eq]
  · rw [e1, decide_eq_true_eq]
  · rw [e3, decide_eq_true_eq]

/-- C14, counterexample: a text candidate is not rejected. `change` reads it through
`floatValue()` and applies the number. Where `floatValue()` of a text is 0: on the Float
parameter with bounds 0 and 10 and current 5, `change("abc")` returns true and leaves
current 0, and so it does on the Int parameter with the same numbers. And whatever
`floatValue()` of a text is: of the two Float parameters with bounds 0 and 10 and current
2 and 7, at least one returns true on `change("abc")`. -/
theorem text_candidate_counterexample :
    ((ParameterObj.flt FloatClass.Float
        { id_ := "a", displayName_ := "A", type_ := PT_Float,
          current_ := T_Float (FP.fin 5), min_ := FP.fin 0, max_ := FP.fin 10,
          def_ := FP.fin 5 }).change Env.sample (T_String "abc") =
      (true, ParameterObj.flt FloatClass.Float
        { id_ := "a", displayName_ := "A", type_ := PT_Float,
          current_ := T_Float (FP.fin 0), min_ := FP.fin 0, max_ := FP.fin 10,
          def_ := FP.fin 5 })) ∧
    ((ParameterObj.int
        { id_ := "a", displayName_ := "A", type_ := PT_Int,
          current_ := T_Float (FP.fin 5), min_ := 0, max_ := 10,
          def_ := 5 }).change Env.sample (T_String "abc") =
      (true, ParameterObj.int
        { id_ := "a", displayName_ := "A", type_ := PT_Int,
          current_ := T_Float (FP.fin 0), min_ := 0, max_ := 10, def_ := 5 })) ∧
    (∀ u : Env,
      ((ParameterObj.flt FloatClass.Float
        { id_ := "a", displayName_ := "A", type_ := PT_Float,
          current_ := T_Float (FP.fin 2), min_ := FP.fin 0, max_ := FP.fin 10,
          def_ := FP.fin 5 }).change u (T_String "abc")).1 = true ∨
      ((ParameterObj.flt FloatClass.Float
        { id_ := "a", displayName_ := "A", type_ := PT_Float,
          current_ := T_Float (FP.fin 7), min_ := FP.fin 0, max_ := FP.fin 10,
          def_ := FP.fin 5 }).change u (T_String "abc")).1 = true) := by
  refine ⟨by decide!, by decide!, fun u => ?_⟩
  simp only [ParameterObj.change, Parameter_Float.change, Parameter.change_fst,
    ParamValue.floatValue, ParamValue.ne]
  by_contra hc
  rw [not_or] at hc
  have h2 := FP.ne_eq_false (Bool.not_eq_true _ ▸ hc.1)
  have h7 := FP.ne_eq_false (Bool.not_eq_true _ ▸ hc.2)
  rw [← h2] at h7
  exact absurd (FP.fin.inj h7) (by norm_num)

/-- C14 (amended): text candidates are not rejected. For every parameter of the Float
family and every Int parameter, `change` on a text candidate does exactly what `change`
does on the number that `floatValue()` yields for that text; when current is numeric, the
number is clamped (for Int: truncated, then clamped) and stored as current. (`change`
returns false without looking at the candidate only when the parameter's own current is
a text.) -/
theorem text_candidate (u : Env) (s : String) :
    (∀ (k : FloatClass) (p : Parameter_Float),
      (ParameterObj.flt k p).change u (T_String s) =
        (ParameterObj.flt k p).change u (T_Float (u.textFloat s))) ∧
    (∀ p : Parameter_Int,
      (ParameterObj.int p).change u (T_String s) =
        (ParameterObj.int p).change u (T_Float (u.textFloat s))) ∧
    (∀ (k : FloatClass) (p : Parameter_Float) (c : FP), p.current_ = T_Float c →
      ((ParameterObj.flt k p).change u (T_String s)).2.current =
        T_Float (FP.stdMin (FP.stdMax (u.textFloat s) p.min_) p.max_)) ∧
    (∀ (p : Parameter_Int) (c : FP), p.current_ = T_Float c →
      ((ParameterObj.int p).change u (T_String s)).2.current =
        T_Float (i2f (imin (imax (f2i u (u.textFloat s)) p.min_) p.max_))) ∧
    (∀ (k : FloatClass) (p : Parameter_Float) (t : String) (c : ParamValue),
      p.current_ = T_String t →
      (ParameterObj.flt k p).change u c = (false, ParameterObj.flt k p)) ∧
    (∀ (p : Parameter_Int) (t : String) (c : ParamValue), p.current_ = T_String t →
      (ParameterObj.int p).change u c = (false, ParameterObj.int p)) := by
  refine ⟨fun k p => rfl, fun p => rfl, fun k p c hc => ?_, fun p c hc => ?_,
    fun k p t c hc => ?_, fun p t c hc => ?_⟩
  · simp only [ParameterObj.change, ParameterObj.current, ParameterObj.toParameter]
    rw [Parameter_Float.float_change_snd u p _ ⟨c, hc⟩]
    rfl
  · simp only [ParameterObj.change, ParameterObj.current, ParameterObj.toParameter]
    rw [Parameter_Int.int_change_snd u p _ ⟨c, hc⟩]
    rfl
  · simp only [ParameterObj.change, Parameter_Float.change, hc]
  · simp only [ParameterObj.change, Parameter_Int.change, hc]

/-- C14, witness: where `floatValue()` of a text is 0, `change("abc")` on the Float
parameter with bounds 20 and 20000 and current 1000 stores the clamp of 0, which is 20. -/
theorem text_candidate_witness :
    ((ParameterObj.flt FloatClass.Float
        { id_ := "cutoff", displayName_ := "Cutoff", type_ := PT_Float,
          current_ := T_Float (FP.fin 1000), min_ := FP.fin 20, max_ := FP.fin 20000,
          def_ := FP.fin 1000 }).change Env.sample (T_String "abc")).2.current =
      T_Float (FP.stdMin (FP.stdMax (FP.fin 0) (FP.fin 20)) (FP.fin 20000)) ∧
    FP.stdMin (FP.stdMax (FP.fin 0) (FP.fin 20)) (FP.fin 20000) = FP.fin 20 :=
  ⟨(text_candidate Env.sample "abc").2.2.1 FloatClass.Float _ (FP.fin 1000) rfl,
    by decide!⟩

/-- C15, counterexample: for the Float parameter created from
`["float", "cutoff", "Cutoff", 20, 20000, 1000]`, `calcMidi(64)` returns the `float`
10088.6611328125 (that is 10330789/1024); stored by `change`, `displayValue` shows it as
`10088.7`, not `10089.3`. The exact number `20 + (64/127)*19980` is 10088.66..., too: its
nearest number of tenths is 100887, and it is not 10330789/1024 (it is not a `float`). -/
theorem cutoff_scenario_counterexample :
    (∀ u : Env, ∃ p,
      Parameter.create u
        [T_String "float", T_String "cutoff", T_String "Cutoff", T_Float (FP.fin 20),
          T_Float (FP.fin 20000), T_Float (FP.fin 1000)] = some p ∧
      p.calcMidi u 64 = T_Float (FP.fin (10330789 / 1024)) ∧
      ((p.change u (p.calcMidi u 64)).2.displayValue u = some "10088.7")) ∧
    rne ((10330789 / 1024 : ℚ) * 10) = 100887 ∧
    rne ((20 + 64 / 127 * 19980 : ℚ) * 10) = 100887 ∧
    (10330789 / 1024 : ℚ) ≠ 20 + 64 / 127 * 19980 ∧
    (100887 : ℤ) ≠ 100893 := by
  refine ⟨fun u => ⟨_, create_flt u FloatClass.Float "cutoff" "Cutoff" _ _ _, ?_, ?_⟩,
    by decide!, by decide!, by norm_num, by decide⟩
  · simp only [ParameterObj.calcMidi]
    decide!
  · have e : Parameter_Float.calcMidi
        { id_ := "cutoff", displayName_ := "Cutoff", type_ := FloatClass.Float.type,
          current_ := T_Float (FP.stdMin (FP.stdMax (FP.fin 1000) (FP.fin 20)) (FP.fin 20000)),
          min_ := FP.fin 20, max_ := FP.fin 20000, def_ := FP.fin 1000 } 64 =
        T_Float (FP.fin (10330789 / 1024)) := by decide!
    simp only [ParameterObj.calcMidi, ParameterObj.change, ParameterObj.displayValue, e]
    rw [Parameter_Float.float_change_snd u _ _ ⟨_, rfl⟩]
    simp only [Parameter_Float.displayValue, ParamValue.floatValue]
    decide!

/-- C15 (amended): concrete Float scenario. For the Float parameter created from
`["float", "cutoff", name, 20, 20000, 1000]`, `calcMidi(64)` returns the `float`
10088.6611328125, which is `20 + (64/127)*19980` as computed in `float` arithmetic and is
within 0.001 of the exact number; this value lies within `[20, 20000]`, and at one
fractional digit (the precision `displayValue` shows, once the value is stored) it is
`10088.7`. -/
theorem cutoff_scenario (u : Env) (name : String) :
    ∃ p,
      Parameter.create u
        [T_String "float", T_String "cutoff", T_String name, T_Float (FP.fin 20),
          T_Float (FP.fin 20000), T_Float (FP.fin 1000)] = some p ∧
      p.calcMidi u 64 = T_Float (FP.fin (10330789 / 1024)) ∧
      FP.le (FP.fin 20) (FP.fin (10330789 / 1024)) = true ∧
      FP.le (FP.fin (10330789 / 1024)) (FP.fin 20000) = true ∧
      |(10330789 / 1024 : ℚ) - (20 + 64 / 127 * 19980)| < 1 / 1000 ∧
      (p.change u (p.calcMidi u 64)).2.displayValue u = some "10088.7" := by
  refine ⟨_, create_flt u FloatClass.Float "cutoff" name _ _ _, ?_, by decide!, by decide!,
    by norm_num [abs_lt], ?_⟩
  · simp only [ParameterObj.calcMidi, Parameter_Float.calcMidi, Parameter_Float.calcFloat]
    decide!
  · have e : Parameter_Float.calcMidi
        { id_ := "cutoff", displayName_ := name, type_ := FloatClass.Float.type,
          current_ := T_Float (FP.stdMin (FP.stdMax (FP.fin 1000) (FP.fin 20)) (FP.fin 20000)),
          min_ := FP.fin 20, max_ := FP.fin 20000, def_ := FP.fin 1000 } 64 =
        T_Float (FP.fin (10330789 / 1024)) := by
      simp only [Parameter_Float.calcMidi, Parameter_Float.calcFloat]
      decide!
    simp only [ParameterObj.calcMidi, ParameterObj.change, ParameterObj.displayValue, e]
    rw [Parameter_Float.float_change_snd u _ _ ⟨_, rfl⟩]
    simp only [Parameter_Float.displayValue, ParamValue.floatValue]
    decide!

/-- C16, counterexample: on the Int parameter with bounds 0 and 10, `calcFloat(1e9)` maps
to `1e9 * 10 + 0 = 1e10`; truncated toward zero and clamped to `[0, 10]` that would be 10.
But 1e10 is outside the range of `int`, the conversion yields what the platform yields,
and where that is `INT_MIN` (as on x86) `calcFloat` returns 0. -/
theorem int_truncation_counterexample :
    FP.IsFloat binary32 (FP.fin 1000000000) ∧
    ({ id_ := "steps", displayName_ := "Steps", type_ := PT_Int,
        current_ := T_Float (FP.fin 5), min_ := 0, max_ := 10,
        def_ := 5 } : Parameter_Int).mapFloat (FP.fin 1000000000) = FP.fin 10000000000 ∧
    imin (imax (truncQ 10000000000) 0) 10 = 10 ∧
    (ParameterObj.int
        { id_ := "steps", displayName_ := "Steps", type_ := PT_Int,
          current_ := T_Float (FP.fin 5), min_ := 0, max_ := 10,
          def_ := 5 }).calcFloat Env.sample (FP.fin 1000000000) = T_Float (FP.fin 0) ∧
    T_Float (FP.fin 0) ≠ T_Float (FP.fin 10) := by
  refine ⟨by decide!, by decide!, by decide!, ?_, by decide!⟩
  simp only [ParameterObj.calcFloat]
  decide!

/-- C16 (amended): Int truncation toward zero. For every Int parameter and every `f`
whose mapped value `y = f*(max-min)+min`, as computed in `float` (the difference in
`int`), is within the range of `int`, `calcFloat(f)` returns the integer obtained by
truncating `y` toward zero and then clamping to `[min, max]`; the truncation is the floor
of `y` for `y ≥ 0` and the ceiling of `y` for `y < 0`, so not the nearest integer and,
below zero, not the floor. -/
theorem int_truncation (u : Env) (p : Parameter_Int) (f : FP) (y : ℚ)
    (hy : p.mapFloat f = FP.fin y) (hr : IntConvertible (FP.fin y)) :
    (ParameterObj.int p).calcFloat u f =
        T_Float (i2f (min (max (truncQ y) p.min_) p.max_)) ∧
      (0 ≤ y → truncQ y = ⌊y⌋) ∧ (y < 0 → truncQ y = ⌈y⌉) ∧
      |((truncQ y : ℤ) : ℚ)| ≤ |y| := by
  refine ⟨?_, truncQ_floor, truncQ_ceil, abs_truncQ_le y⟩
  simp only [ParameterObj.calcFloat, Parameter_Int.calcFloat_eq, hy, f2i_convertible u y hr,
    imax_eq, imin_eq]

/-- C16, witness: with `min = 0`, `max = 10`, `calcFloat(0.55)` computes 5.5 and returns
5; with `min = -10`, `max = 0`, `calcFloat(0.55)` computes -4.5 and returns -4 (0.55 being
the `float` nearest to it). -/
theorem int_truncation_witness :
    (({ id_ := "steps", displayName_ := "Steps", type_ := PT_Int,
        current_ := T_Float (FP.fin 5), min_ := 0, max_ := 10,
        def_ := 5 } : Parameter_Int).mapFloat (FP.round binary32 (55 / 100)) =
        FP.fin (11 / 2) ∧
      (ParameterObj.int
        { id_ := "steps", displayName_ := "Steps", type_ := PT_Int,
          current_ := T_Float (FP.fin 5), min_ := 0, max_ := 10,
          def_ := 5 }).calcFloat Env.sample (FP.round binary32 (55 / 100)) =
        T_Float (i2f (min (max (truncQ (11 / 2)) 0) 10)) ∧
      i2f (min (max (truncQ (11 / 2)) 0) 10) = FP.fin 5) ∧
    (({ id_ := "steps", displayName_ := "Steps", type_ := PT_Int,
        current_ := T_Float (FP.fin (-5)), min_ := -10, max_ := 0,
        def_ := -5 } : Parameter_Int).mapFloat (FP.round binary32 (55 / 100)) =
        FP.fin (-(9 / 2)) ∧
      (ParameterObj.int
        { id_ := "steps", displayName_ := "Steps", type_ := PT_Int,
          current_ := T_Float (FP.fin (-5)), min_ := -10, max_ := 0,
          def_ := -5 }).calcFloat Env.sample (FP.round binary32 (55 / 100)) =
        T_Float (i2f (min (max (truncQ (-(9 / 2))) (-10)) 0)) ∧
      i2f (min (max (truncQ (-(9 / 2))) (-10)) 0) = FP.fin (-4)) :=
  ⟨⟨by decide!,
      (int_truncation Env.sample _ (FP.round binary32 (55 / 100)) (11 / 2) (by decide!)
        (by decide!)).1, by decide!⟩,
    ⟨by decide!,
      (int_truncation Env.sample _ (FP.round binary32 (55 / 100)) (-(9 / 2)) (by decide!)
        (by decide!)).1, by decide!⟩⟩

/-- C17: order of clamp and truncation for Int. The specification maps, clamps and then
truncates; the code maps, truncates and then clamps. For every Int parameter and every
input whose mapped value `y` is within the range of `int`, the two orders give the same
integer, and `calcFloat`, `calcMidi` and `calcRelative` alike return the integer of the
specification's order. -/
theorem clamp_truncate_order (u : Env) (p : Parameter_Int) (y : ℚ)
    (hr : IntConvertible (FP.fin y)) :
    codeTruncateThenClamp p.min_ p.max_ y = specClampThenTruncate p.min_ p.max_ y ∧
    (∀ f : FP, p.mapFloat f = FP.fin y →
      (ParameterObj.int p).calcFloat u f =
        T_Float (i2f (specClampThenTruncate p.min_ p.max_ y))) ∧
    (∀ m : ℤ, p.mapFloat (midiFraction m) = FP.fin y →
      (ParameterObj.int p).calcMidi u m =
        T_Float (i2f (specClampThenTruncate p.min_ p.max_ y))) ∧
    (∀ f : FP, p.mapRelative u f = FP.fin y →
      (ParameterObj.int p).calcRelative u f =
        T_Float (i2f (specClampThenTruncate p.min_ p.max_ y))) := by
  refine ⟨clamp_truncate_comm _ _ _, fun f hy => ?_, fun m hy => ?_, fun f hy => ?_⟩
  · simp only [ParameterObj.calcFloat, Parameter_Int.calcFloat_eq, hy,
      f2i_convertible u y hr]
    rw [← clamp_truncate_comm]
    rfl
  · simp only [ParameterObj.calcMidi, Parameter_Int.calcMidi_eq, hy,
      f2i_convertible u y hr]
    rw [← clamp_truncate_comm]
    rfl
  · simp only [ParameterObj.calcRelative, Parameter_Int.calcRelative_eq, hy,
      f2i_convertible u y hr]
    rw [← clamp_truncate_comm]
    rfl

/-- C17, witness: on the Int parameter with bounds 0 and 10 and current 5, the mapped
value 12.5 of `calcFloat(1.25)` gives 10 in either order, and `calcFloat` returns 10. -/
theorem clamp_truncate_order_witness :
    codeTruncateThenClamp 0 10 (25 / 2) = specClampThenTruncate 0 10 (25 / 2) ∧
    specClampThenTruncate 0 10 (25 / 2) = 10 ∧
    (ParameterObj.int
        { id_ := "steps", displayName_ := "Steps", type_ := PT_Int,
          current_ := T_Float (FP.fin 5), min_ := 0, max_ := 10,
          def_ := 5 }).calcFloat Env.sample (FP.fin (5 / 4)) =
      T_Float (i2f (specClampThenTruncate 0 10 (25 / 2))) :=
  ⟨(clamp_truncate_order Env.sample
      { id_ := "steps", displayName_ := "Steps", type_ := PT_Int,
        current_ := T_Float (FP.fin 5), min_ := 0, max_ := 10, def_ := 5 } (25 / 2)
      (by decide!)).1,
    by decide!,
    (clamp_truncate_order Env.sample
      { id_ := "steps", displayName_ := "Steps", type_ := PT_Int,
        current_ := T_Float (FP.fin 5), min_ := 0, max_ := 10, def_ := 5 } (25 / 2)
      (by decide!)).2.1 (FP.fin (5 / 4)) (by decide!)⟩

/-- C19, counterexample: the Float parameter with `min` and `max` the least and the
greatest finite `float` and default 0 has `min ≤ max` and current 0 in `[min, max]`, but
`max - min` overflows and the candidate returned by `calcMidi(0)` is not a number: it
does not lie in `[min, max]`. -/
theorem candidates_fixed_counterexample :
    (∀ u : Env, ∃ p,
      Parameter.create u
        [T_String "float", T_String "a", T_String "A",
          T_Float (FP.fin (-340282346638528859811704183484516925440)),
          T_Float (FP.fin 340282346638528859811704183484516925440),
          T_Float (FP.fin 0)] = some p ∧
      p.current = T_Float (FP.fin 0) ∧
      p.calcMidi u 0 = T_Float FP.nan) ∧
    FP.le (FP.fin (-340282346638528859811704183484516925440)) FP.nan = false ∧
    FP.le FP.nan (FP.fin 340282346638528859811704183484516925440) = false ∧
    FP.IsFloat binary32 (FP.fin (-340282346638528859811704183484516925440)) ∧
    FP.IsFloat binary32 (FP.fin 340282346638528859811704183484516925440) := by
  refine ⟨fun u => ⟨_, create_flt u FloatClass.Float "a" "A" _ _ _, ?_, ?_⟩, rfl, rfl,
    by decide!, by decide!⟩
  · simp only [ParameterObj.current, ParameterObj.toParameter]
    decide!
  · simp only [ParameterObj.calcMidi]
    decide!

/-- C19 (amended): candidates are fixed points of `change`. For every parameter of the
Float family with finite bounds `min ≤ max` whose difference `max - min` is finite and
whose current is a finite number, and for every finite `f`, `int` `m` and finite delta,
each candidate `c` returned by `calcFloat(f)`, `calcMidi(m)` or `calcRelative(delta)`
lies in `[min, max]`, and after `change(c)` current is exactly `c`. For every Int
parameter with `min ≤ max`, both exactly representable as `float`s, whose current is
numeric, and for every `f`, `m` and delta, each candidate is a whole number in
`[min, max]`, and after `change(c)` current is exactly `c`. -/
theorem candidates_fixed (u : Env) :
    (∀ (k : FloatClass) (p : Parameter_Float) (a b d c : ℚ),
      p.min_ = FP.fin a → p.max_ = FP.fin b → a ≤ b →
      FP.sub binary32 (FP.fin b) (FP.fin a) = FP.fin d → p.current_ = T_Float (FP.fin c) →
      ∀ cand : ParamValue,
        ((∃ q : ℚ, cand = (ParameterObj.flt k p).calcFloat u (FP.fin q)) ∨
          (∃ m : ℤ, INT_MIN ≤ m ∧ m ≤ INT_MAX ∧ cand = (ParameterObj.flt k p).calcMidi u m) ∨
          (∃ q : ℚ, cand = (ParameterObj.flt k p).calcRelative u (FP.fin q))) →
        ∃ v, cand = T_Float v ∧ FP.le (FP.fin a) v = true ∧ FP.le v (FP.fin b) = true ∧
          ((ParameterObj.flt k p).change u cand).2.current = cand) ∧
    (∀ p : Parameter_Int,
      p.min_ ≤ p.max_ → INT_MIN ≤ p.min_ → p.max_ ≤ INT_MAX →
      FP.IsFloat binary32 (FP.fin p.min_) → FP.IsFloat binary32 (FP.fin p.max_) →
      (∃ f, p.current_ = T_Float f) →
      ∀ cand : ParamValue,
        ((∃ f : FP, cand = (ParameterObj.int p).calcFloat u f) ∨
          (∃ m : ℤ, cand = (ParameterObj.int p).calcMidi u m) ∨
          (∃ f : FP, cand = (ParameterObj.int p).calcRelative u f)) →
        ∃ n : ℤ, cand = T_Float (FP.fin n) ∧ p.min_ ≤ n ∧ n ≤ p.max_ ∧
          ((ParameterObj.int p).change u cand).2.current = cand) := by
  constructor
  · intro k p a b d c hmin hmax hab hd hcur cand hcand
    have key : ∀ y : FP, y ≠ FP.nan →
        ∃ v, T_Float (FP.stdMin (FP.stdMax y p.min_) p.max_) = T_Float v ∧
          FP.le (FP.fin a) v = true ∧ FP.le v (FP.fin b) = true ∧
          ((ParameterObj.flt k p).change u
            (T_Float (FP.stdMin (FP.stdMax y p.min_) p.max_))).2.current =
            T_Float (FP.stdMin (FP.stdMax y p.min_) p.max_) := by
      intro y hy
      obtain ⟨l1, l2, l3⟩ :=
        Parameter_Float.float_candidate_fixed u p a b hmin hmax hab ⟨_, hcur⟩ y hy
      exact ⟨_, rfl, by rw [← hmin]; exact l1, by rw [← hmax]; exact l2, l3⟩
    have hd' : FP.sub binary32 p.max_ p.min_ = FP.fin d := by rw [hmin, hmax, hd]
    rcases hcand with ⟨q, rfl⟩ | ⟨m, m1, m2, rfl⟩ | ⟨q, rfl⟩
    · simp only [ParameterObj.calcFloat, Parameter_Float.calcFloat, hd']
      apply key
      rw [hmin]
      exact FP.add_ne_nan_left _ _ (FP.round_ne_nan _ _)
    · obtain ⟨q, hq⟩ := midiFraction_finite m m1 m2
      simp only [ParameterObj.calcMidi, Parameter_Float.calcMidi, Parameter_Float.calcFloat,
        hd', hq]
      apply key
      rw [hmin]
      exact FP.add_ne_nan_left _ _ (FP.round_ne_nan _ _)
    · simp only [ParameterObj.calcRelative, Parameter_Float.calcRelative, hd', hcur,
        ParamValue.floatValue]
      apply key
      exact FP.add_ne_nan_right _ _ (FP.round_ne_nan _ _)
  · intro p hle h1 h2 hfa hfb hcur cand hcand
    have key : ∀ v0 : ℤ,
        ∃ n : ℤ, T_Float (i2f (imin (imax v0 p.min_) p.max_)) = T_Float (FP.fin n) ∧
          p.min_ ≤ n ∧ n ≤ p.max_ ∧
          ((ParameterObj.int p).change u
            (T_Float (i2f (imin (imax v0 p.min_) p.max_)))).2.current =
            T_Float (i2f (imin (imax v0 p.min_) p.max_)) := by
      intro v0
      obtain ⟨n, e, n1, n2, l⟩ :=
        Parameter_Int.int_candidate_fixed u p hle h1 h2 hfa hfb hcur v0
      exact ⟨n, by rw [e], n1, n2, l⟩
    rcases hcand with ⟨f, rfl⟩ | ⟨m, rfl⟩ | ⟨f, rfl⟩
    · exact key _
    · exact key _
    · exact key _

/-- C19, witness: on the Float parameter with bounds 20 and 20000 and current 1000, the
candidate of `calcMidi(64)` lies in `[20, 20000]` and `change` stores it as it is. -/
theorem candidates_fixed_witness :
    ∃ v,
      (ParameterObj.flt FloatClass.Float
        { id_ := "cutoff", displayName_ := "Cutoff", type_ := PT_Float,
          current_ := T_Float (FP.fin 1000), min_ := FP.fin 20, max_ := FP.fin 20000,
          def_ := FP.fin 1000 }).calcMidi Env.sample 64 = T_Float v ∧
      FP.le (FP.fin 20) v = true ∧ FP.le v (FP.fin 20000) = true ∧
      ((ParameterObj.flt FloatClass.Float
        { id_ := "cutoff", displayName_ := "Cutoff", type_ := PT_Float,
          current_ := T_Float (FP.fin 1000), min_ := FP.fin 20, max_ := FP.fin 20000,
          def_ := FP.fin 1000 }).change Env.sample
        ((ParameterObj.flt FloatClass.Float
          { id_ := "cutoff", displayName_ := "Cutoff", type_ := PT_Float,
            current_ := T_Float (FP.fin 1000), min_ := FP.fin 20, max_ := FP.fin 20000,
            def_ := FP.fin 1000 }).calcMidi Env.sample 64)).2.current =
        (ParameterObj.flt FloatClass.Float
          { id_ := "cutoff", displayName_ := "Cutoff", type_ := PT_Float,
            current_ := T_Float (FP.fin 1000), min_ := FP.fin 20, max_ := FP.fin 20000,
            def_ := FP.fin 1000 }).calcMidi Env.sample 64 :=
  (candidates_fixed Env.sample).1 FloatClass.Float _ 20 20000 19980 1000 rfl rfl
    (by norm_num) (by decide!) rfl _ (Or.inr (Or.inl ⟨64, by decide, by decide, rfl⟩))

/-- C20, counterexample: on the Int parameter with bounds 0 and 2 and current 1, the
delta `0.5 - 2^-25` (a `float`) gives the step `s = 1 - 2^-24`, with `0 < s < 1`; the sum
`1 + s` is not a `float` and rounds to 2, and `calcRelative` returns 2, not 1: the upward
nudge is not lost. And the delta `-2^-31` gives the step `s = -2^-30`, with `-1 < s < 0`;
the sum `1 + s` rounds to 1, and `calcRelative` returns 1, not 0: the downward nudge is
lost. This is so on every platform. -/
theorem small_nudges_counterexample :
    (FP.IsFloat binary32 (FP.fin (1 / 2 - 1 / 2 ^ 25)) ∧
      FP.mul binary32 (FP.fin (1 / 2 - 1 / 2 ^ 25)) (i2f (wrap32 (2 - 0))) =
        FP.fin (1 - 1 / 2 ^ 24) ∧
      (0 : ℚ) < 1 - 1 / 2 ^ 24 ∧ (1 - 1 / 2 ^ 24 : ℚ) < 1 ∧
      ∀ u : Env,
        (ParameterObj.int
          { id_ := "steps", displayName_ := "Steps", type_ := PT_Int,
            current_ := T_Float (FP.fin 1), min_ := 0, max_ := 2,
            def_ := 1 }).calcRelative u (FP.fin (1 / 2 - 1 / 2 ^ 25)) =
          T_Float (FP.fin 2)) ∧
    (FP.IsFloat binary32 (FP.fin (-(1 / 2 ^ 31))) ∧
      FP.mul binary32 (FP.fin (-(1 / 2 ^ 31))) (i2f (wrap32 (2 - 0))) =
        FP.fin (-(1 / 2 ^ 30)) ∧
      (-1 : ℚ) < -(1 / 2 ^ 30) ∧ (-(1 / 2 ^ 30) : ℚ) < 0 ∧
      ∀ u : Env,
        (ParameterObj.int
          { id_ := "steps", displayName_ := "Steps", type_ := PT_Int,
            current_ := T_Float (FP.fin 1), min_ := 0, max_ := 2,
            def_ := 1 }).calcRelative u (FP.fin (-(1 / 2 ^ 31))) =
          T_Float (FP.fin 1)) := by
  refine ⟨⟨by decide!, by decide!, by norm_num, by norm_num, fun u => ?_⟩,
    ⟨by decide!, by decide!, by norm_num, by norm_num, fun u => ?_⟩⟩
  · have e : Parameter_Int.mapRelative u
        { id_ := "steps", displayName_ := "Steps", type_ := PT_Int,
          current_ := T_Float (FP.fin 1), min_ := 0, max_ := 2, def_ := 1 }
        (FP.fin (1 / 2 - 1 / 2 ^ 25)) = FP.fin 2 := by
      simp only [Parameter_Int.mapRelative, ParamValue.floatValue]
      decide!
    simp only [ParameterObj.calcRelative, Parameter_Int.calcRelative_eq, e]
    rw [f2i_convertible u 2 (by decide!)]
    decide!
  · have e : Parameter_Int.mapRelative u
        { id_ := "steps", displayName_ := "Steps", type_ := PT_Int,
          current_ := T_Float (FP.fin 1), min_ := 0, max_ := 2, def_ := 1 }
        (FP.fin (-(1 / 2 ^ 31))) = FP.fin 1 := by
      simp only [Parameter_Int.mapRelative, ParamValue.floatValue]
      decide!
    simp only [ParameterObj.calcRelative, Parameter_Int.calcRelative_eq, e]
    rw [f2i_convertible u 1 (by decide!)]
    decide!

/-- C20 (amended): asymmetric small nudges on Int. For every Int parameter with
`min ≤ max` and a whole-number current `c` (a `float`) with `c ≥ 1` and `min < c ≤ max`,
and every delta whose scaled step `s = delta*(max-min)`, as computed in `float`,
satisfies `0 < s < 1`: `calcRelative(delta)` returns `c` (the upward nudge is lost)
provided the sum `c + s`, as computed in `float`, is below `c + 1`, that is, is not
rounded up to `c + 1`. For every delta with `-1 < s < 0`: `calcRelative(delta)` returns
`c - 1` (a full downward step) provided `c ≤ 16777216` and the sum `c + s`, as computed
in `float`, is below `c`, that is, is not rounded up to `c`. -/
theorem small_nudges (u : Env) (p : Parameter_Int) (c : ℤ) (delta : FP) (s y : ℚ)
    (hcur : p.current_ = T_Float (FP.fin c)) (hfc : FP.IsFloat binary32 (FP.fin c))
    (hc : 1 ≤ c) (hmin : p.min_ < c) (hmax : c ≤ p.max_) (hr : p.max_ ≤ INT_MAX)
    (hs : FP.mul binary32 delta (i2f (wrap32 (p.max_ - p.min_))) = FP.fin s)
    (hy : FP.add binary32 (FP.fin c) (FP.fin s) = FP.fin y) :
    (0 < s → s < 1 → y < c + 1 →
      (ParameterObj.int p).calcRelative u delta = T_Float (FP.fin c)) ∧
    (-1 < s → s < 0 → c ≤ 16777216 → y < c →
      (ParameterObj.int p).calcRelative u delta = T_Float (FP.fin ((c - 1 : ℤ) : ℚ))) := by
  have hmap : p.mapRelative u delta = FP.fin y := by
    simp only [Parameter_Int.mapRelative, hcur, ParamValue.floatValue, hs, hy]
  have hsum : FP.round binary32 ((c : ℚ) + s) = FP.fin y := hy
  have rc : FP.round binary32 (c : ℚ) = FP.fin c := hfc
  constructor
  · intro s0 _ hlt
    have hge : (c : ℚ) ≤ y := by
      have := FP.round_mono binary32 (by decide) (show (c : ℚ) ≤ c + s by linarith)
      rw [rc, hsum] at this
      exact (FP.le_fin_iff _ _).mp this
    have hy0 : (0 : ℚ) ≤ y := le_trans (by exact_mod_cast (by omega : (0 : ℤ) ≤ c)) hge
    have ht : truncQ y = c := by
      rw [truncQ_floor hy0]
      exact Int.floor_eq_iff.mpr ⟨hge, hlt⟩
    have conv : IntConvertible (FP.fin y) := by
      show INT_MIN ≤ truncQ y ∧ truncQ y ≤ INT_MAX
      rw [ht]
      exact ⟨by unfold INT_MIN; omega, hmax.trans hr⟩
    simp only [ParameterObj.calcRelative, Parameter_Int.calcRelative_eq, hmap,
      f2i_convertible u y conv, ht, imax_eq, imin_eq, max_eq_left hmin.le, min_eq_left hmax]
    exact congrArg T_Float rc
  · intro s1 _ hc24 hlt
    have rc1 : FP.round binary32 (((c - 1 : ℤ) : ℚ)) = FP.fin ((c - 1 : ℤ) : ℚ) :=
      FP.round_int (c - 1) (by rw [abs_of_nonneg (by omega)]; omega)
    have hge : (((c - 1 : ℤ) : ℚ)) ≤ y := by
      have := FP.round_mono binary32 (by decide)
        (show (((c - 1 : ℤ) : ℚ)) ≤ c + s by push_cast; linarith)
      rw [rc1, hsum] at this
      exact (FP.le_fin_iff _ _).mp this
    have hy0 : (0 : ℚ) ≤ y := le_trans (by exact_mod_cast (by omega : (0 : ℤ) ≤ c - 1)) hge
    have ht : truncQ y = c - 1 := by
      rw [truncQ_floor hy0]
      exact Int.floor_eq_iff.mpr ⟨hge, by push_cast; linarith⟩
    have conv : IntConvertible (FP.fin y) := by
      show INT_MIN ≤ truncQ y ∧ truncQ y ≤ INT_MAX
      rw [ht]
      exact ⟨by unfold INT_MIN; omega, by have := hmax.trans hr; omega⟩
    simp only [ParameterObj.calcRelative, Parameter_Int.calcRelative_eq, hmap,
      f2i_convertible u y conv, ht, imax_eq, imin_eq,
      max_eq_left (by omega : p.min_ ≤ c - 1), min_eq_left (by omega : c - 1 ≤ p.max_)]
    exact congrArg T_Float rc1

/-- C20, witness: on the Int parameter with bounds 0 and 10 and current 5, the delta
0.025 (step 0.25) leaves 5, and the delta -0.025 (step -0.25) gives 4. -/
theorem small_nudges_witness :
    (ParameterObj.int
        { id_ := "steps", displayName_ := "Steps", type_ := PT_Int,
          current_ := T_Float (FP.fin ((5 : ℤ) : ℚ)), min_ := 0, max_ := 10,
          def_ := 5 }).calcRelative Env.sample (FP.round binary32 (25 / 1000)) =
        T_Float (FP.fin ((5 : ℤ) : ℚ)) ∧
    (ParameterObj.int
        { id_ := "steps", displayName_ := "Steps", type_ := PT_Int,
          current_ := T_Float (FP.fin ((5 : ℤ) : ℚ)), min_ := 0, max_ := 10,
          def_ := 5 }).calcRelative Env.sample (FP.round binary32 (-(25 / 1000))) =
        T_Float (FP.fin ((5 - 1 : ℤ) : ℚ)) :=
  ⟨(small_nudges Env.sample _ 5 (FP.round binary32 (25 / 1000)) (1 / 4) (21 / 4) rfl
      (by decide!) (by decide) (by decide) (by decide) (by decide) (by decide!)
      (by decide!)).1 (by norm_num) (by norm_num) (by norm_num),
    (small_nudges Env.sample _ 5 (FP.round binary32 (-(25 / 1000))) (-(1 / 4)) (19 / 4) rfl
      (by decide!) (by decide) (by decide) (by decide) (by decide) (by decide!)
      (by decide!)).2 (by norm_num) (by norm_num) (by decide) (by norm_num)⟩

end Kontrol
